import Mathlib

/-!
# Quartz latency emulation: the latency model and the epoch engine

A shallow embedding of `src/lib/model_lat.c` (functions
`check_target_latency_against_hw_latency`, `init_latency_model`,
`init_thread_latency_model`, `cycles_to_us`, `create_delay_cycles`,
`create_latency_epoch`), of the two estimators of
`src/lib/cpu/sapphirerapids.h`, of the two estimators of
`src/lib/cpu/sapphirerapids-papi.h`, and of `src/lib/cpu/cpu.c`
(`get_family_model`, `cpuinfo`, `is_Intel`, `is_Xeon`, `cpu_model`).

Conventions of the embedding.

* `uint64_t` / `hrtime_t` values are naturals, every operation is reduced
  modulo `2 ^ 64` where the C operation wraps; `int` values are integers.
* `double` values that occur in the code are non-negative and finite; such a
  value is an integer multiple of `2 ^ (-1074)` and is represented by that
  multiple (`Dbl.units`).  Every arithmetic operation rounds the exact result
  to the nearest representable value, ties to even (`rne`), which is the IEEE
  754 binary64 default rounding, subnormal range included.
* Calls to external collaborators and the store to the shared `signaled` flag
  are recorded, in program order, in `World.trace`.
* Errors that stop the C program (integer division by zero, a null pointer
  dereference, a floating to integer conversion whose value does not fit) are
  reported in `Outcome.fault`, together with the state reached so far.
* Conditional compilation: `MEMLAT_SUPPORT`, `USE_STATISTICS` and
  `CALIBRATION_SUPPORT` are the fields of `Build`; `PAPI_SUPPORT` is taken as
  undefined, the direct backend, the only one `create_latency_epoch` reads
  its counters through.
-/

set_option exponentiation.threshold 5000

namespace Quartz

/-! ## 64-bit unsigned arithmetic -/

/-- Largest `uint64_t` value. -/
def UINT64_MAX : Nat := 2 ^ 64 - 1

/-- Conversion of a C integer value to `uint64_t`. -/
def to_u64 (x : Int) : Nat := (x % (2 ^ 64 : Int)).toNat

/-- Reduction of a value to the range of `uint64_t`. -/
def trunc64 (n : Nat) : Nat := n % 2 ^ 64

/-- Wrapping `uint64_t` addition. -/
def add64 (a b : Nat) : Nat := (a + b) % 2 ^ 64

/-- Wrapping `uint64_t` subtraction. -/
def sub64 (a b : Nat) : Nat := (a % 2 ^ 64 + (2 ^ 64 - b % 2 ^ 64)) % 2 ^ 64

/-- Wrapping `uint64_t` multiplication. -/
def mul64 (a b : Nat) : Nat := (a * b) % 2 ^ 64

/-! ## Binary64 arithmetic on non-negative finite values -/

/-- One step of the binary search for the position of the leading bit: if the
remaining value has a bit at position `k` or above, shift it out. -/
def log2_step (acc : Nat × Nat) (k : Nat) : Nat × Nat :=
  if 2 ^ k ≤ acc.1 then (acc.1 / 2 ^ k, acc.2 + k) else acc

/-- Position of the leading bit of `n` (`0` for `n = 0`); equal to `Nat.log2 n`,
computed by a twelve-step binary search below `2 ^ 4096`. -/
def ilog2 (n : Nat) : Nat :=
  if n < 2 ^ 4096 then
    ([2048, 1024, 512, 256, 128, 64, 32, 16, 8, 4, 2, 1].foldl log2_step (n, 0)).2
  else Nat.log2 n

/-- The integer nearest to `num / den`, ties to the even one. -/
def roundToInt (num den : Nat) : Nat :=
  let q := num / den
  let r := num % den
  if 2 * r < den then q else if den < 2 * r then q + 1 else q + q % 2

/-- Round-to-nearest-even of the rational `num / den` (in units of `2 ^ (-1074)`)
to a binary64 value: at most 53 significant bits, and never finer than one
unit. -/
def rne (num den : Nat) : Nat :=
  let shift := ilog2 (num / den) - 52
  roundToInt num (den * 2 ^ shift) * 2 ^ shift

/-- A non-negative finite `double`, as its multiple of `2 ^ (-1074)`. -/
structure Dbl where
  units : Nat
deriving DecidableEq, Repr

namespace Dbl

/-- Number of units in `1.0`. -/
def scale : Nat := 2 ^ 1074

/-- The constant `0.0`. -/
def zero : Dbl := ⟨0⟩

/-- Conversion `(double) n` of a non-negative integer. -/
def of_nat (n : Nat) : Dbl := ⟨rne (n * scale) 1⟩

/-- The quotient `x / y` of two doubles (`y` non-zero). -/
def div (x y : Dbl) : Dbl := ⟨rne (x.units * scale) y.units⟩

/-- The product `x * y` of two doubles. -/
def mul (x y : Dbl) : Dbl := ⟨rne (x.units * y.units) scale⟩

/-- The sum `x + y` of two doubles. -/
def add (x y : Dbl) : Dbl := ⟨rne (x.units + y.units) 1⟩

/-- Comparison `x < y` of two doubles. -/
def lt (x y : Dbl) : Bool := decide (x.units < y.units)

/-- Integral part of a double. -/
def trunc (x : Dbl) : Nat := x.units / scale

end Dbl

/-! ## Errors -/

/-- Modelled from the spec: `error.h` is not among the sources; its status
codes are distinct constants, `InvalidConfig` being `E_INVAL`. -/
inductive error_t where
  | E_SUCCESS
  | E_ERROR
  | E_NOENT
  | E_INVAL
deriving DecidableEq, Repr

/-- Ways in which the C program stops instead of continuing. -/
inductive Fault where
  | null_thread
  | null_pmc_event
  | div_by_zero
  | float_to_uint_range
  | assert_failed
deriving DecidableEq, Repr

/-- Conversion `(uint64_t) x` of a non-negative double; the C conversion is
undefined when the integral part does not fit. -/
def Dbl.to_uint64 (x : Dbl) : Except Fault Nat :=
  if x.trunc < 2 ^ 64 then .ok x.trunc else .error .float_to_uint_range

/-- Conversion `(uint64_t) (x - y)` of the double difference of two
non-negative doubles: the difference is rounded, then truncated towards zero;
a result of `-1.0` or below does not fit. -/
def Dbl.sub_to_uint64 (x y : Dbl) : Except Fault Nat :=
  if y.units ≤ x.units then Dbl.to_uint64 ⟨rne (x.units - y.units) 1⟩
  else if rne (y.units - x.units) 1 < Dbl.scale then .ok 0
  else .error .float_to_uint_range

/-! ## Data model -/

/-- A physical NUMA node: the identity of the node object and its measured
hardware latency (`int latency`). -/
structure physical_node_t where
  addr : Nat
  latency : Int
deriving DecidableEq, Repr

/-- A virtual node pairs a DRAM node with an NVRAM node. -/
structure virtual_node_t where
  dram_node : physical_node_t
  nvram_node : physical_node_t
deriving DecidableEq, Repr

/-- The virtual topology: `virtual_nodes[0 .. num_virtual_nodes - 1]`. -/
structure virtual_topology_t where
  virtual_nodes : List virtual_node_t
deriving DecidableEq, Repr

/-- A programmed performance counter event (the handle returned by
`enable_pmc_event`). -/
structure pmc_event_t where
  name : String
deriving DecidableEq, Repr

/-- The process-wide `latency_model`. -/
structure latency_model_t where
  enabled : Int
  read_latency : Int
  write_latency : Int
  inject_delay : Bool
  pmc_stall_cycles : Option pmc_event_t
  pmc_remote_dram : Option pmc_event_t
  calibration : Bool
  stalls_calibration_factor : Dbl
deriving DecidableEq, Repr

/-- Modelled from the spec: `config.h` is not among the sources; a
configuration answers integer and boolean lookups by key, and a lookup of an
absent key leaves the destination unchanged. -/
structure config_t where
  lookup_int : String → Option Int
  lookup_bool : String → Option Bool

/-- The part of `cpu_model_t` that `init_latency_model` reads: the names of
`cpu->pmc_events->known_events`, up to the terminating null name. -/
structure cpu_model_t where
  known_events : List String

/-- Conditional compilation switches, and whether the `DBG_LOG` in use
evaluates its arguments (`debug.h` is not among the sources). -/
structure Build where
  MEMLAT_SUPPORT : Bool
  USE_STATISTICS : Bool
  CALIBRATION_SUPPORT : Bool
  DBG_LOG_evaluates_args : Bool
deriving DecidableEq, Repr

/-- Per-thread statistics (`thread->stats`), all `uint64_t`. -/
structure stats_t where
  epochs : Nat
  stall_cycles : Nat
  delay_cycles : Nat
  overhead_cycles : Nat
  last_epoch_timestamp : Nat
  shortest_epoch_duration_us : Nat
  longest_epoch_duration_us : Nat
  overall_epoch_duration_us : Nat
deriving DecidableEq, Repr

/-- The part of `thread->thread_manager` the epoch engine reads. -/
structure thread_manager_t where
  min_epoch_duration_us : Int
  stats_enabled : Bool
deriving DecidableEq, Repr

/-- The part of `thread_t` the epoch engine reads and writes. -/
structure thread_t where
  tid : Int
  signaled : Int
  cpu_speed_mhz : Int
  virtual_node : virtual_node_t
  thread_manager : thread_manager_t
  stats : stats_t
  last_epoch_timestamp : Nat
  stall_cycles : Nat
deriving DecidableEq, Repr

/-- Observable actions of the epoch engine, in program order. -/
inductive Event where
  | block_new_epoch
  | unblock_new_epoch
  | read_pmc_event (event : pmc_event_t)
  | create_delay_cycles (cycles : Nat)
  | write_signaled (value : Int)
deriving DecidableEq, Repr

/-- The state `create_latency_epoch` works on: the calling thread
(`thread_self()`, null when the thread is not registered), its thread-local
`tls_overhead`, and the actions performed so far. -/
structure World where
  thread_self : Option thread_t
  tls_overhead : Nat
  trace : List Event
deriving DecidableEq, Repr

/-- What the external collaborators answer during one call of
`create_latency_epoch`. Modelled from the spec: `monotonic_time_us() → u64`. -/
structure EpochEnv where
  hrtime_start : Nat
  hrtime_stop : Nat
  reached_min_epoch_duration : Bool
  read_pmc_event : pmc_event_t → Nat
  monotonic_epoch_end : Nat
  monotonic_last : Nat

/-- Result of running a function of the engine: the state reached, and the
fault that stopped it, if any. -/
structure Outcome where
  world : World
  fault : Option Fault
deriving DecidableEq, Repr

/-- Append an action to the trace. -/
def World.emit (w : World) (e : Event) : World :=
  { w with trace := w.trace ++ [e] }

/-! ## `init_latency_model` -/

/-- Modelled from the spec: `__cconfig_lookup_int` (declared in `config.h`, not
among the sources) stores the configured value, and leaves the destination
unchanged when the key is absent. -/
def cconfig_lookup_int (cfg : config_t) (key : String) (dst : Int) : Int :=
  (cfg.lookup_int key).getD dst

/-- Modelled from the spec: `__cconfig_lookup_bool`, as `cconfig_lookup_int`. -/
def cconfig_lookup_bool (cfg : config_t) (key : String) (dst : Bool) : Bool :=
  (cfg.lookup_bool key).getD dst

/-- The test of one virtual node in `check_target_latency_against_hw_latency`. -/
def hw_latency_too_high (lm : latency_model_t) (v : virtual_node_t) : Bool :=
  decide (v.dram_node.latency ≥ lm.read_latency) ||
  decide (v.dram_node.latency ≥ lm.write_latency) ||
  decide (v.nvram_node.latency ≥ lm.read_latency) ||
  decide (v.nvram_node.latency ≥ lm.write_latency)

/-- The loop of `check_target_latency_against_hw_latency` from index `i` on:
`status` stays `0` until a node fails the test, then it is `-1` and the loop
is left. -/
def check_loop (lm : latency_model_t) : List virtual_node_t → Int
  | [] => 0
  | v :: rest => if hw_latency_too_high lm v then -1 else check_loop lm rest

/-- The function `check_target_latency_against_hw_latency`. -/
def check_target_latency_against_hw_latency (lm : latency_model_t)
    (virtual_topology : virtual_topology_t) : Int :=
  check_loop lm virtual_topology.virtual_nodes

/-- Comparison `strcasecmp(a, b) == 0`: the two strings agree once every
character is converted to lower case. -/
def strcasecmp_eq (a b : String) : Bool :=
  a.toList.map Char.toLower == b.toList.map Char.toLower

/-- The state of `latency_model` after `memset(&latency_model, 0, ...)`. -/
def latency_model_zero : latency_model_t :=
  { enabled := 0, read_latency := 0, write_latency := 0, inject_delay := false,
    pmc_stall_cycles := none, pmc_remote_dram := none,
    calibration := false, stalls_calibration_factor := Dbl.zero }

/-- What `init_latency_model` leaves behind: the value it returns (a fault
when the `assert` stops the program) and the `latency_model` global. -/
structure InitResult where
  status : Except Fault error_t
  latency_model : latency_model_t

/-- The loop of `init_latency_model` over `known_events` (direct backend):
the result is the error status the loop returns with, if any, and the
`latency_model` it has reached. -/
def enable_loop (enable_pmc_event : String → Option pmc_event_t) :
    latency_model_t → List String → Option error_t × latency_model_t
  | lm, [] => (none, lm)
  | lm, name :: rest =>
    let r1 : Option error_t × latency_model_t :=
      if strcasecmp_eq name "LDM_STALL_CYCLES" then
        let lm1 := { lm with pmc_stall_cycles := enable_pmc_event "LDM_STALL_CYCLES" }
        if lm1.pmc_stall_cycles.isNone then (some error_t.E_NOENT, lm1) else (none, lm1)
      else (none, lm)
    match r1 with
    | (some e, lm1) => (some e, lm1)
    | (none, lm1) =>
      let r2 : Option error_t × latency_model_t :=
        if strcasecmp_eq name "REMOTE_DRAM" then
          let lm2 := { lm1 with pmc_remote_dram := enable_pmc_event "REMOTE_DRAM" }
          if lm2.pmc_remote_dram.isNone then (some error_t.E_NOENT, lm2) else (none, lm2)
        else (none, lm1)
      match r2 with
      | (some e, lm2) => (some e, lm2)
      | (none, lm2) => enable_loop enable_pmc_event lm2 rest

/-- Lines 139-163 of `init_latency_model` (direct backend): program the
counters, assert that the stall-cycles counter is there, load the calibration
flag. -/
def init_counters (b : Build) (enable_pmc_event : String → Option pmc_event_t)
    (cfg : config_t) (cpu : cpu_model_t) (lm3 : latency_model_t) : InitResult :=
  match enable_loop enable_pmc_event lm3 cpu.known_events with
  | (some e, lm4) => ⟨.ok e, lm4⟩
  | (none, lm4) =>
    if lm4.pmc_stall_cycles.isNone then ⟨.error Fault.assert_failed, lm4⟩
    else
      let lm5 :=
        if b.CALIBRATION_SUPPORT then
          let lm := { lm4 with
            calibration := cconfig_lookup_bool cfg "latency.calibration" lm4.calibration }
          if lm.calibration then { lm with stalls_calibration_factor := Dbl.of_nat 1 }
          else lm
        else lm4
      ⟨.ok error_t.E_SUCCESS, lm5⟩

/-- The function `init_latency_model` (direct backend). -/
def init_latency_model (b : Build) (enable_pmc_event : String → Option pmc_event_t)
    (cfg : config_t) (cpu : cpu_model_t) (virtual_topology : virtual_topology_t) :
    InitResult :=
  let lm0 := { latency_model_zero with enabled := 1 }
  let lm1 := { lm0 with read_latency := cconfig_lookup_int cfg "latency.read" lm0.read_latency }
  let lm2 := { lm1 with
    write_latency := cconfig_lookup_int cfg "latency.write" lm1.write_latency }
  if check_target_latency_against_hw_latency lm2 virtual_topology < 0 then
    ⟨.ok error_t.E_INVAL, lm2⟩
  else
    let lm3 := { lm2 with
      inject_delay := cconfig_lookup_bool cfg "latency.inject_delay" lm2.inject_delay }
    init_counters b enable_pmc_event cfg cpu lm3

/-! ## `create_latency_epoch` -/

/-- The thread-local hardware latencies `tls_hw_local_latency` and
`tls_hw_remote_latency`. -/
structure tls_latency_t where
  tls_hw_local_latency : Int
  tls_hw_remote_latency : Int
deriving DecidableEq, Repr

/-- The function `init_thread_latency_model`. -/
def init_thread_latency_model (thread : thread_t) : tls_latency_t :=
  { tls_hw_local_latency := thread.virtual_node.dram_node.latency,
    tls_hw_remote_latency := thread.virtual_node.nvram_node.latency }

/-- The function `cycles_to_us`: `cycles / cpu_speed_mhz`, the `int` divisor
converted to `hrtime_t`; an integer division by zero stops the program. -/
def cycles_to_us (cpu_speed_mhz : Int) (cycles : Nat) : Except Fault Nat :=
  if to_u64 cpu_speed_mhz = 0 then .error Fault.div_by_zero
  else .ok (cycles / to_u64 cpu_speed_mhz)

/-- Counter selection (lines 221-226): the remote-DRAM counter when the DRAM
and NVRAM nodes differ and `latency_model.pmc_remote_dram` is set, else the
stall-cycles counter. -/
def select_pmc_event (lm : latency_model_t) (t : thread_t) : Option pmc_event_t :=
  if t.virtual_node.dram_node.addr ≠ t.virtual_node.nvram_node.addr ∧
      lm.pmc_remote_dram.isSome then lm.pmc_remote_dram
  else lm.pmc_stall_cycles

/-- Calibration (lines 228-232):
`(uint64_t)((double)stall_cycles * stalls_calibration_factor)`. -/
def calibrate (b : Build) (lm : latency_model_t) (stall_cycles : Nat) : Except Fault Nat :=
  if b.CALIBRATION_SUPPORT && lm.calibration then
    Dbl.to_uint64 (Dbl.mul (Dbl.of_nat stall_cycles) lm.stalls_calibration_factor)
  else .ok stall_cycles

/-- The `ratio` of lines 235-239. -/
def latency_ratio (hw_latency target_latency : Int) : Dbl :=
  if 0 < hw_latency ∧ hw_latency < target_latency then
    Dbl.div (Dbl.of_nat (target_latency - hw_latency).toNat) (Dbl.of_nat hw_latency.toNat)
  else Dbl.zero

/-- The overflow test of line 243:
`ratio > 0.0 && stall_cycles > (double)UINT64_MAX / ratio`. -/
def overflow_check (stall_cycles : Nat) (ratio : Dbl) : Bool :=
  Dbl.lt Dbl.zero ratio &&
    Dbl.lt (Dbl.div (Dbl.of_nat UINT64_MAX) ratio) (Dbl.of_nat stall_cycles)

/-- The `delay_cycles` of lines 241-251, before overhead accounting. -/
def derive_delay (stall_cycles : Nat) (ratio : Dbl) : Except Fault Nat :=
  if Dbl.lt Dbl.zero ratio && decide (0 < stall_cycles) then
    if overflow_check stall_cycles ratio then .ok UINT64_MAX
    else Dbl.to_uint64 (Dbl.mul (Dbl.of_nat stall_cycles) ratio)
  else .ok 0

/-- Overhead accounting (lines 258-265) on `(delay_cycles, tls_overhead)`. -/
def discount_overhead (delay_cycles tls_overhead : Nat) : Nat × Nat :=
  if tls_overhead < delay_cycles then (delay_cycles - tls_overhead, 0)
  else (0, tls_overhead - delay_cycles)

/-- The `max_allowed_delay_cycles` of lines 281-291. -/
def max_allowed_delay_cycles (t : thread_t) : Nat :=
  let min_epoch_duration_ns := mul64 (to_u64 t.thread_manager.min_epoch_duration_us) 1000
  let MAX_INJECT_DELAY_NS := mul64 min_epoch_duration_ns 5
  if 0 < t.cpu_speed_mhz then mul64 (to_u64 t.cpu_speed_mhz) MAX_INJECT_DELAY_NS / 1000
  else 4000000000

/-- The cap step (lines 293-297). -/
def cap_delay (delay_cycles max_allowed : Nat) : Nat :=
  if max_allowed < delay_cycles then 0 else delay_cycles

/-- The values `create_latency_epoch` computes between the counter read and
the spin. -/
structure EpochCalc where
  stall_cycles : Nat
  delay_derived : Nat
  overhead_total : Nat
  delay_discounted : Nat
  overhead_after : Nat
  max_allowed : Nat
  delay_final : Nat
deriving DecidableEq, Repr

/-- Lines 228-297 of `create_latency_epoch` on the raw counter value
`raw_stall`, the thread and the `tls_overhead` at entry. -/
def epoch_calc (b : Build) (lm : latency_model_t) (env : EpochEnv) (t : thread_t)
    (tls_overhead raw_stall : Nat) : Except Fault EpochCalc :=
  match calibrate b lm raw_stall with
  | .error f => .error f
  | .ok stall_cycles =>
    let hw_latency := t.virtual_node.nvram_node.latency
    let target_latency := lm.read_latency
    match derive_delay stall_cycles (latency_ratio hw_latency target_latency) with
    | .error f => .error f
    | .ok delay_derived =>
      let overhead_total := add64 tls_overhead (sub64 env.hrtime_stop env.hrtime_start)
      let d := discount_overhead delay_derived overhead_total
      let max_allowed := max_allowed_delay_cycles t
      .ok { stall_cycles := stall_cycles, delay_derived := delay_derived,
            overhead_total := overhead_total, delay_discounted := d.1,
            overhead_after := d.2, max_allowed := max_allowed,
            delay_final := cap_delay d.1 max_allowed }

/-- Lines 208-212: count the epoch. -/
def stats_count_epoch (b : Build) (t : thread_t) : thread_t :=
  if b.USE_STATISTICS && t.thread_manager.stats_enabled then
    { t with stats := { t.stats with epochs := add64 t.stats.epochs 1 } }
  else t

/-- Lines 267-277: accumulate the stall cycles and the statistics. -/
def account_stalls (b : Build) (c : EpochCalc) (t : thread_t) : thread_t :=
  let t1 := if b.MEMLAT_SUPPORT then
      { t with stall_cycles := add64 t.stall_cycles c.stall_cycles } else t
  if b.USE_STATISTICS && t1.thread_manager.stats_enabled then
    { t1 with stats := { t1.stats with
        stall_cycles := add64 t1.stats.stall_cycles c.stall_cycles
        delay_cycles := add64 t1.stats.delay_cycles c.delay_discounted
        overhead_cycles := c.overhead_after } }
  else t1

/-- Lines 312-333: the epoch duration statistics and the last epoch
timestamp. -/
def update_timestamps (b : Build) (env : EpochEnv) (t : thread_t) : Except Fault thread_t :=
  if b.USE_STATISTICS then
    if t.thread_manager.stats_enabled then
      let older_epoch_timestamp := t.stats.last_epoch_timestamp
      match Dbl.sub_to_uint64 (Dbl.of_nat (trunc64 env.monotonic_epoch_end))
          (Dbl.of_nat older_epoch_timestamp) with
      | .error f => .error f
      | .ok diff_epoch_timestamp =>
        let s1 := if diff_epoch_timestamp < t.stats.shortest_epoch_duration_us then
            { t.stats with shortest_epoch_duration_us := diff_epoch_timestamp } else t.stats
        let s2 := if s1.longest_epoch_duration_us < diff_epoch_timestamp then
            { s1 with longest_epoch_duration_us := diff_epoch_timestamp } else s1
        let s3 := { s2 with
          overall_epoch_duration_us := add64 s2.overall_epoch_duration_us diff_epoch_timestamp }
        .ok { t with stats := { s3 with last_epoch_timestamp := trunc64 env.monotonic_last } }
    else
      .ok { t with stats := { t.stats with
        last_epoch_timestamp := trunc64 env.monotonic_last } }
  else .ok { t with last_epoch_timestamp := trunc64 env.monotonic_last }

/-- Lines 304-310: the debug log, whose arguments include
`cycles_to_us(thread->cpu_speed_mhz, delay_cycles)`, then the spin. -/
def log_and_spin (b : Build) (lm : latency_model_t) (t : thread_t) (delay_cycles : Nat)
    (w : World) : Outcome :=
  match (if b.DBG_LOG_evaluates_args then cycles_to_us t.cpu_speed_mhz delay_cycles
         else .ok 0) with
  | .error f => ⟨w, some f⟩
  | .ok _ =>
    if delay_cycles ≠ 0 ∧ lm.inject_delay = true then
      ⟨w.emit (Event.create_delay_cycles delay_cycles), none⟩
    else ⟨w, none⟩

/-- Lines 206-338 of `create_latency_epoch`: the path taken once the minimum
epoch duration has been reached, for the thread `t`. -/
def epoch_body (b : Build) (lm : latency_model_t) (env : EpochEnv) (t : thread_t)
    (w : World) : Outcome :=
  let t1 := stats_count_epoch b t
  let w1 := { w with thread_self := some t1 }
  match select_pmc_event lm t1 with
  | none => ⟨w1, some Fault.null_pmc_event⟩
  | some event =>
    let w2 := w1.emit (Event.read_pmc_event event)
    match epoch_calc b lm env t1 w2.tls_overhead (trunc64 (env.read_pmc_event event)) with
    | .error f => ⟨w2, some f⟩
    | .ok c =>
      let t2 := account_stalls b c t1
      let w3 := { w2 with thread_self := some t2, tls_overhead := c.overhead_after }
      let o := log_and_spin b lm t2 c.delay_final w3
      match o.fault with
      | some f => ⟨o.world, some f⟩
      | none =>
        match update_timestamps b env t2 with
        | .error f => ⟨o.world, some f⟩
        | .ok t3 =>
          let w4 := { o.world with thread_self := some { t3 with signaled := 0 } }
          ⟨(w4.emit (Event.write_signaled 0)).emit Event.unblock_new_epoch, none⟩

/-- The function `create_latency_epoch` (the spec calls it `close_epoch`). -/
def create_latency_epoch (b : Build) (lm : latency_model_t) (env : EpochEnv)
    (w : World) : Outcome :=
  let w1 := w.emit Event.block_new_epoch
  if env.reached_min_epoch_duration = false then
    match w1.thread_self with
    | none => ⟨w1.emit Event.unblock_new_epoch, none⟩
    | some t =>
      let w2 := { w1 with thread_self := some { t with signaled := 0 } }
      ⟨(w2.emit (Event.write_signaled 0)).emit Event.unblock_new_epoch, none⟩
  else
    match w1.thread_self with
    | none => ⟨w1, some Fault.null_thread⟩
    | some t => epoch_body b lm env t w1

/-- The spin `create_latency_epoch` performs for a final delay: one call of
`create_delay_cycles` when the delay is non-zero and injection is on. -/
def spin_events (lm : latency_model_t) (delay_cycles : Nat) : List Event :=
  if delay_cycles ≠ 0 ∧ lm.inject_delay = true then [Event.create_delay_cycles delay_cycles]
  else []

/-! ## Sapphire Rapids estimators (`cpu/sapphirerapids.h`) -/

/-- The four counter deltas `READ_MY_HW_EVENT_DIFF(0)` to
`READ_MY_HW_EVENT_DIFF(3)`, values of `uint64_t`. -/
structure hw_event_diff_t where
  l2_pending_diff : Nat
  llc_hit_diff : Nat
  remote_dram_diff : Nat
  local_dram_diff : Nat
deriving DecidableEq, Repr

/-- The thread-local totals `tls_global_remote_dram` and
`tls_global_local_dram` (`MEMLAT_SUPPORT`). -/
structure tls_global_t where
  tls_global_remote_dram : Nat
  tls_global_local_dram : Nat
deriving DecidableEq, Repr

/-- The constant `SPR_L3_FACTOR`, `7.0`. -/
def SPR_L3_FACTOR : Dbl := Dbl.of_nat 7

/-- The `num` of both estimators:
`SPR_L3_FACTOR * (remote_dram_diff + local_dram_diff)`, the sum taken in
`uint64_t`. -/
def spr_num (d : hw_event_diff_t) : Dbl :=
  Dbl.mul SPR_L3_FACTOR (Dbl.of_nat (add64 d.remote_dram_diff d.local_dram_diff))

/-- The first `den` of both estimators: `num + llc_hit_diff`. -/
def spr_den (d : hw_event_diff_t) : Dbl :=
  Dbl.add (spr_num d) (Dbl.of_nat d.llc_hit_diff)

/-- The double `(double)l2_pending_diff * (num / den)`. -/
def spr_stalls (d : hw_event_diff_t) : Dbl :=
  Dbl.mul (Dbl.of_nat d.l2_pending_diff) (Dbl.div (spr_num d) (spr_den d))

/-- Return value of `DECLARE_READ_PMC(sapphirerapids, ldm_stall_cycles)`. -/
def sapphirerapids_read_ldm_stall_cycles (d : hw_event_diff_t) : Except Fault Nat :=
  if d.remote_dram_diff = 0 ∧ d.local_dram_diff = 0 then .ok 0
  else if spr_den d = Dbl.zero then .ok 0
  else Dbl.to_uint64 (spr_stalls d)

/-- Effect of `DECLARE_READ_PMC(sapphirerapids, ldm_stall_cycles)` on the
thread-local totals. -/
def sapphirerapids_ldm_stall_cycles_globals (b : Build) (d : hw_event_diff_t)
    (g : tls_global_t) : tls_global_t :=
  if d.remote_dram_diff = 0 ∧ d.local_dram_diff = 0 then g
  else if b.MEMLAT_SUPPORT then
    { g with tls_global_local_dram := add64 g.tls_global_local_dram d.local_dram_diff }
  else g

/-- The product `remote_dram_diff * tls_hw_remote_latency`, in `uint64_t`. -/
def spr_remote_num (d : hw_event_diff_t) (tls : tls_latency_t) : Nat :=
  mul64 d.remote_dram_diff (to_u64 tls.tls_hw_remote_latency)

/-- The second `den` of the remote estimator:
`(remote_dram_diff * tls_hw_remote_latency) + (local_dram_diff * tls_hw_local_latency)`,
computed in `uint64_t`, then converted to `double`. -/
def spr_remote_den (d : hw_event_diff_t) (tls : tls_latency_t) : Dbl :=
  Dbl.of_nat (add64 (spr_remote_num d tls)
    (mul64 d.local_dram_diff (to_u64 tls.tls_hw_local_latency)))

/-- Return value of `DECLARE_READ_PMC(sapphirerapids, remote_dram)`. -/
def sapphirerapids_read_remote_dram (d : hw_event_diff_t) (tls : tls_latency_t) :
    Except Fault Nat :=
  if d.remote_dram_diff = 0 ∧ d.local_dram_diff = 0 then .ok 0
  else if spr_den d = Dbl.zero then .ok 0
  else if spr_remote_den d tls = Dbl.zero then .ok 0
  else Dbl.to_uint64 (Dbl.mul (spr_stalls d)
    (Dbl.div (Dbl.of_nat (spr_remote_num d tls)) (spr_remote_den d tls)))

/-- Effect of `DECLARE_READ_PMC(sapphirerapids, remote_dram)` on the
thread-local totals. -/
def sapphirerapids_remote_dram_globals (b : Build) (d : hw_event_diff_t)
    (g : tls_global_t) : tls_global_t :=
  if d.remote_dram_diff = 0 ∧ d.local_dram_diff = 0 then g
  else if b.MEMLAT_SUPPORT then
    { g with tls_global_remote_dram := add64 g.tls_global_remote_dram d.remote_dram_diff }
  else g

/-! ## Sample inputs -/

/-- A virtual node with a 60 ns DRAM node and a 100 ns NVRAM node. -/
def sample_node : virtual_node_t :=
  { dram_node := { addr := 1, latency := 60 }, nvram_node := { addr := 2, latency := 100 } }

/-- Statistics of a thread that has closed no epoch yet. -/
def sample_stats : stats_t :=
  { epochs := 0, stall_cycles := 0, delay_cycles := 0, overhead_cycles := 0,
    last_epoch_timestamp := 0, shortest_epoch_duration_us := UINT64_MAX,
    longest_epoch_duration_us := 0, overall_epoch_duration_us := 0 }

/-- A signaled thread on a 2000 MHz core, minimum epoch duration 100 us. -/
def sample_thread : thread_t :=
  { tid := 1, signaled := 1, cpu_speed_mhz := 2000, virtual_node := sample_node,
    thread_manager := { min_epoch_duration_us := 100, stats_enabled := true },
    stats := sample_stats, last_epoch_timestamp := 0, stall_cycles := 0 }

/-- A latency model with the given target read latency, both counters
programmed, injection on, no calibration. -/
def sample_model (read_latency : Int) : latency_model_t :=
  { enabled := 1, read_latency := read_latency, write_latency := read_latency,
    inject_delay := true,
    pmc_stall_cycles := some { name := "LDM_STALL_CYCLES" },
    pmc_remote_dram := some { name := "REMOTE_DRAM" },
    calibration := false, stalls_calibration_factor := Dbl.of_nat 1 }

/-- One call: 100 cycles pass inside the engine, every counter read returns
`stall`. -/
def sample_env (reached : Bool) (stall : Nat) : EpochEnv :=
  { hrtime_start := 1000, hrtime_stop := 1100, reached_min_epoch_duration := reached,
    read_pmc_event := fun _ => stall, monotonic_epoch_end := 5000, monotonic_last := 5001 }

/-- The world of a thread `t` with the given overhead and an empty trace. -/
def sample_world (t : thread_t) (tls_overhead : Nat) : World :=
  { thread_self := some t, tls_overhead := tls_overhead, trace := [] }

/-- A build with every optional feature compiled in and a `DBG_LOG` that
evaluates its arguments. -/
def sample_build : Build :=
  { MEMLAT_SUPPORT := true, USE_STATISTICS := true, CALIBRATION_SUPPORT := true,
    DBG_LOG_evaluates_args := true }

/-- The thread-local hardware latencies of `sample_thread`: local 60 ns,
remote 100 ns. -/
def sample_tls : tls_latency_t := init_thread_latency_model sample_thread

/-- The counter events read by a sequence of actions, in order. -/
def pmc_reads (evs : List Event) : List pmc_event_t :=
  evs.filterMap (fun e => match e with
    | Event.read_pmc_event ev => some ev
    | _ => none)

/-- A thread whose DRAM node and NVRAM node are the same node. -/
def sample_thread_local : thread_t :=
  { sample_thread with
    virtual_node := { dram_node := { addr := 1, latency := 60 },
                      nvram_node := { addr := 1, latency := 60 } } }

/-- A latency model with only the stall-cycles counter programmed. -/
def sample_model_no_remote : latency_model_t :=
  { sample_model 300 with pmc_remote_dram := none }

/-- A configuration with target latencies of 300 ns and delay injection on. -/
def sample_config : config_t :=
  { lookup_int := fun key =>
      if key = "latency.read" ∨ key = "latency.write" then some 300 else none,
    lookup_bool := fun key => if key = "latency.inject_delay" then some true else none }

/-- An `enable_pmc_event` that can program `LDM_STALL_CYCLES` only. -/
def sample_enable_stall_only (name : String) : Option pmc_event_t :=
  if name = "LDM_STALL_CYCLES" then some { name := name } else none

/-! ## `create_delay_cycles` -/

/-- The `do ... while` loop of `create_delay_cycles`: the `i`-th call of
`hrtime_cycles` returns `samples i`; the loop stops at the first sample `stop`
with `stop - start >= cycles` (in `uint64_t`). The result is the index of the
last sample read; `fuel` bounds the number of iterations. -/
def delay_loop (samples : Nat → Nat) (start cycles : Nat) : Nat → Nat → Option Nat
  | 0, _ => none
  | fuel + 1, i =>
    if sub64 (trunc64 (samples i)) start < cycles then
      delay_loop samples start cycles fuel (i + 1)
    else some i

/-- The function `create_delay_cycles`: `start` is sample 0, the loop reads
samples 1, 2, ... -/
def create_delay_cycles (samples : Nat → Nat) (cycles fuel : Nat) : Option Nat :=
  delay_loop samples (trunc64 (samples 0)) cycles fuel 1

/-! ## CPU identification (`cpu/cpu.c`) -/

/-- Bitwise complement of a 32-bit value. -/
def not32 (x : Nat) : Nat := 2 ^ 32 - 1 - x % 2 ^ 32

/-- Left shift of a 32-bit value. -/
def shl32 (x k : Nat) : Nat := (x <<< k) % 2 ^ 32

/-- The macro `MASK(msb, lsb)`:
`(~((~0) << (msb + 1)) & ((~0) << lsb))`, in 32 bits. -/
def MASK (msb lsb : Nat) : Nat :=
  (not32 (shl32 (not32 0) (msb + 1))) &&& (shl32 (not32 0) lsb)

/-- The macro `EXTRACT(val, msb, lsb)`: `((MASK(msb, lsb) & val) >> lsb)`. -/
def EXTRACT (val msb lsb : Nat) : Nat := ((MASK msb lsb) &&& val) >>> lsb

/-- The macro `MODEL(eax)`. -/
def MODEL (eax : Nat) : Nat := EXTRACT eax 7 4

/-- The macro `EXTENDED_MODEL(eax)`. -/
def EXTENDED_MODEL (eax : Nat) : Nat := EXTRACT eax 19 16

/-- The macro `MODEL_NUMBER(eax)`. -/
def MODEL_NUMBER (eax : Nat) : Nat := (shl32 (EXTENDED_MODEL eax) 4) ||| (MODEL eax)

/-- The macro `FAMILY(eax)`. -/
def FAMILY (eax : Nat) : Nat := EXTRACT eax 11 8

/-- The macro `Extended_Family(eax)`. -/
def Extended_Family (eax : Nat) : Nat := EXTRACT eax 27 20

/-- The macro `Family_Number(eax)`. -/
def Family_Number (eax : Nat) : Nat := (FAMILY eax + Extended_Family eax) % 2 ^ 32

/-- The function `get_family_model`: `cpuid1` is the `eax` of CPUID leaf 1 when
`__get_cpuid` succeeds; `family_ptr` and `model_ptr` tell whether the two
pointers are non-null; the result is what is stored through each. -/
def get_family_model (cpuid1 : Option Nat) (family_ptr model_ptr : Bool) :
    Option Int × Option Int :=
  let family : Int := match cpuid1 with
    | some eax => (Family_Number eax : Nat)
    | none => 0
  let model : Int := match cpuid1 with
    | some eax => (MODEL_NUMBER eax : Nat)
    | none => 0
  (if family_ptr then some family else none, if model_ptr then some model else none)

/-- Ways in which the C code of `cpu.c` leaves defined behaviour. -/
inductive cpu_fault_t where
  | no_colon
  | read_past_end
deriving DecidableEq, Repr

/-- The lines `getline` returns for a text: each line keeps its terminating
newline; a last line without newline is returned as it is. -/
def getlines : List Char → List (List Char)
  | [] => []
  | c :: rest =>
    if c = '\n' then [c] :: getlines rest
    else match getlines rest with
      | [] => [[c]]
      | line :: lines => (c :: line) :: lines

/-- The `while` loop of `cpuinfo` over the lines still to be read: the first
line of which `valname` is a substring (`strstr`) is split at its first `:`
(`strchr`) and the text from two characters after the colon on is copied
(`strcpy(buf, &line[len + 2])`). A line without colon makes `colon - line`
undefined; a colon in the last position makes the copy start past the end of
the string. -/
def cpuinfo_loop (valname : List Char) : List (List Char) →
    Except cpu_fault_t (Option (List Char))
  | [] => .ok none
  | line :: rest =>
    if valname <:+: line then
      let len := line.indexOf ':'
      if len < line.length then
        if len + 2 ≤ line.length then .ok (some (line.drop (len + 2)))
        else .error cpu_fault_t.read_past_end
      else .error cpu_fault_t.no_colon
    else cpuinfo_loop valname rest

/-- The function `cpuinfo`: `proc_cpuinfo` is the content of `/proc/cpuinfo`,
none when `fopen` fails; the result is the returned string, none for `NULL`. -/
def cpuinfo (proc_cpuinfo : Option String) (valname : String) :
    Except cpu_fault_t (Option String) :=
  match proc_cpuinfo with
  | none => .ok none
  | some text =>
    match cpuinfo_loop valname.toList (getlines text.toList) with
    | .error f => .error f
    | .ok none => .ok none
    | .ok (some buf) => .ok (some (String.mk buf))

/-- The function `cpu_model_name`. -/
def cpu_model_name (proc_cpuinfo : Option String) : Except cpu_fault_t (Option String) :=
  cpuinfo proc_cpuinfo "model name"

/-- The function `match` for a pattern without regular expression operators
(`"Intel"`, `"Xeon"`): success when the pattern occurs in `to_match`. -/
def regex_match (to_match regex_text : String) : error_t :=
  if regex_text.toList <:+: to_match.toList then error_t.E_SUCCESS else error_t.E_ERROR

/-- The function `is_Xeon`. -/
def is_Xeon (proc_cpuinfo : Option String) : Except cpu_fault_t Bool :=
  match cpu_model_name proc_cpuinfo with
  | .error f => .error f
  | .ok none => .ok false
  | .ok (some model_name) => .ok (decide (regex_match model_name "Xeon" = error_t.E_SUCCESS))

/-- The function `is_Intel`. -/
def is_Intel (proc_cpuinfo : Option String) : Except cpu_fault_t Bool :=
  match cpu_model_name proc_cpuinfo with
  | .error f => .error f
  | .ok none => .ok false
  | .ok (some model_name) => .ok (decide (regex_match model_name "Intel" = error_t.E_SUCCESS))

/-- The enumeration `microarch_t` (`known_cpus.h` is not among the sources):
the values `cpu_model` names, and any other value. -/
inductive microarch_t where
  | Invalid
  | SandyBridge
  | SandyBridgeXeon
  | IvyBridge
  | IvyBridgeXeon
  | Haswell
  | HaswellXeon
  | SapphireRapidsXeon
  | other (n : Nat)
deriving DecidableEq, Repr

/-- An entry of the table `known_cpus`. -/
structure microarch_ID_t where
  family : Int
  model : Int
  microarch : microarch_t
deriving DecidableEq, Repr

/-- The fields of a CPU descriptor that `cpu_model` writes. -/
structure cpu_descriptor_t where
  microarch : microarch_t
  llc_size_bytes : Nat
deriving DecidableEq, Repr

/-- The four static descriptors `cpu_model` can return a pointer to. -/
inductive cpu_descriptor_id where
  | cpu_model_intel_xeon_ex
  | cpu_model_intel_xeon_ex_v2
  | cpu_model_intel_xeon_ex_v3
  | cpu_model_intel_xeon_spr
deriving DecidableEq, Repr

/-- The state of the four static descriptors. -/
structure cpu_descriptors_t where
  cpu_model_intel_xeon_ex : cpu_descriptor_t
  cpu_model_intel_xeon_ex_v2 : cpu_descriptor_t
  cpu_model_intel_xeon_ex_v3 : cpu_descriptor_t
  cpu_model_intel_xeon_spr : cpu_descriptor_t
deriving DecidableEq, Repr

/-- Read a descriptor. -/
def cpu_descriptors_t.get (ds : cpu_descriptors_t) : cpu_descriptor_id → cpu_descriptor_t
  | .cpu_model_intel_xeon_ex => ds.cpu_model_intel_xeon_ex
  | .cpu_model_intel_xeon_ex_v2 => ds.cpu_model_intel_xeon_ex_v2
  | .cpu_model_intel_xeon_ex_v3 => ds.cpu_model_intel_xeon_ex_v3
  | .cpu_model_intel_xeon_spr => ds.cpu_model_intel_xeon_spr

/-- Write a descriptor. -/
def cpu_descriptors_t.set (ds : cpu_descriptors_t) (id : cpu_descriptor_id)
    (v : cpu_descriptor_t) : cpu_descriptors_t :=
  match id with
  | .cpu_model_intel_xeon_ex => { ds with cpu_model_intel_xeon_ex := v }
  | .cpu_model_intel_xeon_ex_v2 => { ds with cpu_model_intel_xeon_ex_v2 := v }
  | .cpu_model_intel_xeon_ex_v3 => { ds with cpu_model_intel_xeon_ex_v3 := v }
  | .cpu_model_intel_xeon_spr => { ds with cpu_model_intel_xeon_spr := v }

/-- The statement `if (!isXeon && cpu_model->microarch == xeon) cpu_model->microarch = plain;`
on the descriptor `id`. -/
def adjust_microarch (ds : cpu_descriptors_t) (id : cpu_descriptor_id) (isXeon : Bool)
    (xeon plain : microarch_t) : cpu_descriptors_t :=
  if isXeon = false ∧ (ds.get id).microarch = xeon then
    ds.set id { ds.get id with microarch := plain }
  else ds

/-- The `switch (c.microarch)` of `cpu_model` for a matching table entry: the
descriptor selected, none for the `default: return NULL`, and the descriptors
after the adjustment. -/
def cpu_model_switch (c : microarch_ID_t) (isXeon : Bool) (ds : cpu_descriptors_t) :
    Option cpu_descriptor_id × cpu_descriptors_t :=
  match c.microarch with
  | .SandyBridge | .SandyBridgeXeon =>
    (some .cpu_model_intel_xeon_ex,
      adjust_microarch ds .cpu_model_intel_xeon_ex isXeon .SandyBridgeXeon .SandyBridge)
  | .IvyBridge | .IvyBridgeXeon =>
    (some .cpu_model_intel_xeon_ex_v2,
      adjust_microarch ds .cpu_model_intel_xeon_ex_v2 isXeon .IvyBridgeXeon .IvyBridge)
  | .Haswell | .HaswellXeon =>
    (some .cpu_model_intel_xeon_ex_v3,
      adjust_microarch ds .cpu_model_intel_xeon_ex_v3 isXeon .HaswellXeon .Haswell)
  | .SapphireRapidsXeon => (some .cpu_model_intel_xeon_spr, ds)
  | _ => (none, ds)

/-- The `for` loop of `cpu_model` over `known_cpus`, which ends at the entry
whose `microarch` is `Invalid`: the first entry with the detected family and
model goes through the `switch`, and the loop is left. The result is none when
no entry matches. -/
def cpu_model_loop (family model : Int) (isXeon : Bool) (ds : cpu_descriptors_t) :
    List microarch_ID_t → Option (Option cpu_descriptor_id × cpu_descriptors_t)
  | [] => none
  | c :: rest =>
    if c.microarch = microarch_t.Invalid then none
    else if c.family = family ∧ c.model = model then some (cpu_model_switch c isXeon ds)
    else cpu_model_loop family model isXeon ds rest

/-- The function `cpu_llc_size_bytes`; `string_to_size` (`misc.h`) is not among
the sources and is a parameter. -/
def cpu_llc_size_bytes (string_to_size : Option String → Nat) (proc_cpuinfo : Option String) :
    Except cpu_fault_t Nat :=
  match cpuinfo proc_cpuinfo "cache size" with
  | .error f => .error f
  | .ok str => .ok (string_to_size str)

/-- The function `cpu_model`: the descriptor returned (none for `NULL`) and
the state of the static descriptors afterwards. -/
def cpu_model (string_to_size : Option String → Nat) (known_cpus : List microarch_ID_t)
    (proc_cpuinfo : Option String) (cpuid1 : Option Nat) (ds : cpu_descriptors_t) :
    Except cpu_fault_t (Option cpu_descriptor_id × cpu_descriptors_t) :=
  match is_Intel proc_cpuinfo with
  | .error f => .error f
  | .ok false => .ok (none, ds)
  | .ok true =>
    let fm := get_family_model cpuid1 true true
    let family := fm.1.getD 0
    let model := fm.2.getD 0
    match is_Xeon proc_cpuinfo with
    | .error f => .error f
    | .ok isXeon =>
      match cpu_model_loop family model isXeon ds known_cpus with
      | none => .ok (none, ds)
      | some (none, _) => .ok (none, ds)
      | some (some id, ds1) =>
        match cpu_llc_size_bytes string_to_size proc_cpuinfo with
        | .error f => .error f
        | .ok size => .ok (some id, ds1.set id { ds1.get id with llc_size_bytes := size })

/-- A `/proc/cpuinfo` of a Haswell Xeon. -/
def sample_cpuinfo : String :=
  "processor\t: 0\nmodel name\t: Genuine Intel(R) Xeon(R) CPU E5-2680 v3\ncache size\t: 8192 KB\n"

/-- A table of known CPUs. -/
def sample_known_cpus : List microarch_ID_t :=
  [{ family := 6, model := 45, microarch := .SandyBridgeXeon },
   { family := 6, model := 63, microarch := .HaswellXeon },
   { family := 0, model := 0, microarch := .Invalid }]

/-- The descriptors as initialised for the Xeon variants. -/
def sample_descriptors : cpu_descriptors_t :=
  { cpu_model_intel_xeon_ex := { microarch := .SandyBridgeXeon, llc_size_bytes := 0 },
    cpu_model_intel_xeon_ex_v2 := { microarch := .IvyBridgeXeon, llc_size_bytes := 0 },
    cpu_model_intel_xeon_ex_v3 := { microarch := .HaswellXeon, llc_size_bytes := 0 },
    cpu_model_intel_xeon_spr := { microarch := .SapphireRapidsXeon, llc_size_bytes := 0 } }

/-- A `string_to_size` that knows the one size of `sample_cpuinfo`. -/
def sample_string_to_size (s : Option String) : Nat :=
  if s = some "8192 KB\n" then 8388608 else 0

/-! ## Sapphire Rapids estimators, library backend (`cpu/sapphirerapids-papi.h`) -/

/-- The counter values `values[0]` to `values[3]` that a successful
`pmc_events_read_local_thread(values)` hands to the estimators, each
`long long` converted to `uint64_t`. -/
def papi_values (values : Nat → Int) : hw_event_diff_t :=
  { l2_pending_diff := to_u64 (values 0), llc_hit_diff := to_u64 (values 1),
    remote_dram_diff := to_u64 (values 2), local_dram_diff := to_u64 (values 3) }

/-- The `num` of both library-backend estimators: `remote_dram + local_dram`,
the sum taken in `uint64_t`, converted to `double`. -/
def papi_num (d : hw_event_diff_t) : Dbl :=
  Dbl.of_nat (add64 d.remote_dram_diff d.local_dram_diff)

/-- The first `den` of both library-backend estimators: `num + llc_hit`. -/
def papi_den (d : hw_event_diff_t) : Dbl :=
  Dbl.add (papi_num d) (Dbl.of_nat d.llc_hit_diff)

/-- The double `(double)l2_pending * ((double)num / den)`. -/
def papi_stalls (d : hw_event_diff_t) : Dbl :=
  Dbl.mul (Dbl.of_nat d.l2_pending_diff) (Dbl.div (papi_num d) (papi_den d))

/-- The function `sapphirerapids_read_stall_events_local`. The argument is the
outcome of `pmc_events_read_local_thread` (`cpu/pmc-papi.h`, not among the
sources): the array it fills when it returns `PAPI_OK`, `none` otherwise. -/
def sapphirerapids_read_stall_events_local (pmc_events_read_local_thread : Option (Nat → Int)) :
    Except Fault Nat :=
  match pmc_events_read_local_thread with
  | none => .ok 0
  | some values =>
    let d := papi_values values
    if papi_den d = Dbl.zero then .ok 0
    else Dbl.to_uint64 (papi_stalls d)

/-- The function `sapphirerapids_read_stall_events_remote`; the second `den` is
`remote_dram + local_dram`, the sum in `uint64_t`. -/
def sapphirerapids_read_stall_events_remote (pmc_events_read_local_thread : Option (Nat → Int)) :
    Except Fault Nat :=
  match pmc_events_read_local_thread with
  | none => .ok 0
  | some values =>
    let d := papi_values values
    if papi_den d = Dbl.zero then .ok 0
    else if papi_num d = Dbl.zero then .ok 0
    else Dbl.to_uint64 (Dbl.mul (papi_stalls d)
      (Dbl.div (Dbl.of_nat d.remote_dram_diff) (papi_num d)))

/-- The double `l2 * (num / den)` of the spec's formula `stalls_total`, with
`num = L3_FACTOR * (rem + loc)` and `den = num + hit`. -/
def spec_stalls (L3_FACTOR : Dbl) (d : hw_event_diff_t) : Dbl :=
  let num := Dbl.mul L3_FACTOR (Dbl.of_nat (add64 d.remote_dram_diff d.local_dram_diff))
  Dbl.mul (Dbl.of_nat d.l2_pending_diff)
    (Dbl.div num (Dbl.add num (Dbl.of_nat d.llc_hit_diff)))

/-- The spec's formula `stalls_total` for a tunable `L3_FACTOR`, evaluated in
binary64 on `uint64_t` deltas:
`l2 * (L3_FACTOR * (rem + loc)) / (L3_FACTOR * (rem + loc) + hit)`, 0 if
`rem == loc == 0` or the denominator is 0. -/
def spec_stalls_total (L3_FACTOR : Dbl) (d : hw_event_diff_t) : Except Fault Nat :=
  let num := Dbl.mul L3_FACTOR (Dbl.of_nat (add64 d.remote_dram_diff d.local_dram_diff))
  if d.remote_dram_diff = 0 ∧ d.local_dram_diff = 0 then .ok 0
  else if Dbl.add num (Dbl.of_nat d.llc_hit_diff) = Dbl.zero then .ok 0
  else Dbl.to_uint64 (spec_stalls L3_FACTOR d)

/-- The spec's formula `stalls_remote` for a tunable `L3_FACTOR` and the two
hardware latencies:
`stalls_total * (rem * hw_remote_latency) /
(rem * hw_remote_latency + loc * hw_local_latency)`, 0 if that denominator
is 0. -/
def spec_stalls_remote (L3_FACTOR : Dbl) (d : hw_event_diff_t) (tls : tls_latency_t) :
    Except Fault Nat :=
  let num := Dbl.mul L3_FACTOR (Dbl.of_nat (add64 d.remote_dram_diff d.local_dram_diff))
  let rem_lat := mul64 d.remote_dram_diff (to_u64 tls.tls_hw_remote_latency)
  let loc_lat := mul64 d.local_dram_diff (to_u64 tls.tls_hw_local_latency)
  if d.remote_dram_diff = 0 ∧ d.local_dram_diff = 0 then .ok 0
  else if Dbl.add num (Dbl.of_nat d.llc_hit_diff) = Dbl.zero then .ok 0
  else if Dbl.of_nat (add64 rem_lat loc_lat) = Dbl.zero then .ok 0
  else Dbl.to_uint64 (Dbl.mul (spec_stalls L3_FACTOR d)
    (Dbl.div (Dbl.of_nat rem_lat) (Dbl.of_nat (add64 rem_lat loc_lat))))

/-- A counter readout: `values[0..3] = 1000, 10, 3, 4`. -/
def sample_values (i : Nat) : Int := [1000, 10, 3, 4].getD i 0

/-- A counter readout without LLC hits: `values[0..3] = 1000, 0, 3, 4`. -/
def sample_values_no_hit (i : Nat) : Int := [1000, 0, 3, 4].getD i 0

/-! ## Lemmas on the rounding model -/

theorem log2_step_inv (n k k2 m s : Nat) (hk : k2 = k + k) (hm : 1 ≤ m) (hlt : m < 2 ^ k2)
    (hlo : 2 ^ s * m ≤ n) (hhi : n < 2 ^ s * (m + 1)) :
    1 ≤ (log2_step (m, s) k).1 ∧ (log2_step (m, s) k).1 < 2 ^ k ∧
      2 ^ (log2_step (m, s) k).2 * (log2_step (m, s) k).1 ≤ n ∧
      n < 2 ^ (log2_step (m, s) k).2 * ((log2_step (m, s) k).1 + 1) := by
  have hpos : 0 < 2 ^ k := Nat.two_pow_pos k
  unfold log2_step
  by_cases h : 2 ^ k ≤ m
  · simp only [h, if_true]
    have h1 : 1 ≤ m / 2 ^ k := (Nat.le_div_iff_mul_le hpos).2 (by simpa using h)
    have h2 : m / 2 ^ k < 2 ^ k := by
      rw [Nat.div_lt_iff_lt_mul hpos, ← pow_add, ← hk]; exact hlt
    have h3 : 2 ^ k * (m / 2 ^ k) ≤ m := Nat.mul_div_le m (2 ^ k)
    have h4 : m < 2 ^ k * (m / 2 ^ k + 1) := by
      have := Nat.lt_succ_iff.2 (le_refl (m / 2 ^ k))
      have h5 := (Nat.div_lt_iff_lt_mul hpos).1 this
      rw [Nat.mul_comm]; exact h5
    refine ⟨h1, h2, ?_, ?_⟩
    · calc 2 ^ (s + k) * (m / 2 ^ k) = 2 ^ s * (2 ^ k * (m / 2 ^ k)) := by
            rw [pow_add, Nat.mul_assoc]
        _ ≤ 2 ^ s * m := Nat.mul_le_mul_left _ h3
        _ ≤ n := hlo
    · calc n < 2 ^ s * (m + 1) := hhi
        _ ≤ 2 ^ s * (2 ^ k * (m / 2 ^ k + 1)) := Nat.mul_le_mul_left _ h4
        _ = 2 ^ (s + k) * (m / 2 ^ k + 1) := by rw [pow_add, Nat.mul_assoc]
  · simp only [h, if_false]
    exact ⟨hm, by omega, hlo, hhi⟩

theorem ilog2_eq (n : Nat) : ilog2 n = Nat.log2 n := by
  unfold ilog2
  split
  · next hn =>
    rcases Nat.eq_zero_or_pos n with h0 | hpos
    · subst h0
      have h : Nat.log2 0 = 0 := by simp [Nat.log2]
      rw [h]; decide
    · simp only [List.foldl]
      have i0 := log2_step_inv n 2048 4096 n 0 rfl hpos hn (by simp) (by simp)
      generalize log2_step (n, 0) 2048 = a0 at i0 ⊢
      obtain ⟨m0, s0⟩ := a0
      have i1 := log2_step_inv n 1024 2048 m0 s0 rfl i0.1 i0.2.1 i0.2.2.1 i0.2.2.2
      generalize log2_step (m0, s0) 1024 = a1 at i1 ⊢
      obtain ⟨m1, s1⟩ := a1
      have i2 := log2_step_inv n 512 1024 m1 s1 rfl i1.1 i1.2.1 i1.2.2.1 i1.2.2.2
      generalize log2_step (m1, s1) 512 = a2 at i2 ⊢
      obtain ⟨m2, s2⟩ := a2
      have i3 := log2_step_inv n 256 512 m2 s2 rfl i2.1 i2.2.1 i2.2.2.1 i2.2.2.2
      generalize log2_step (m2, s2) 256 = a3 at i3 ⊢
      obtain ⟨m3, s3⟩ := a3
      have i4 := log2_step_inv n 128 256 m3 s3 rfl i3.1 i3.2.1 i3.2.2.1 i3.2.2.2
      generalize log2_step (m3, s3) 128 = a4 at i4 ⊢
      obtain ⟨m4, s4⟩ := a4
      have i5 := log2_step_inv n 64 128 m4 s4 rfl i4.1 i4.2.1 i4.2.2.1 i4.2.2.2
      generalize log2_step (m4, s4) 64 = a5 at i5 ⊢
      obtain ⟨m5, s5⟩ := a5
      have i6 := log2_step_inv n 32 64 m5 s5 rfl i5.1 i5.2.1 i5.2.2.1 i5.2.2.2
      generalize log2_step (m5, s5) 32 = a6 at i6 ⊢
      obtain ⟨m6, s6⟩ := a6
      have i7 := log2_step_inv n 16 32 m6 s6 rfl i6.1 i6.2.1 i6.2.2.1 i6.2.2.2
      generalize log2_step (m6, s6) 16 = a7 at i7 ⊢
      obtain ⟨m7, s7⟩ := a7
      have i8 := log2_step_inv n 8 16 m7 s7 rfl i7.1 i7.2.1 i7.2.2.1 i7.2.2.2
      generalize log2_step (m7, s7) 8 = a8 at i8 ⊢
      obtain ⟨m8, s8⟩ := a8
      have i9 := log2_step_inv n 4 8 m8 s8 rfl i8.1 i8.2.1 i8.2.2.1 i8.2.2.2
      generalize log2_step (m8, s8) 4 = a9 at i9 ⊢
      obtain ⟨m9, s9⟩ := a9
      have i10 := log2_step_inv n 2 4 m9 s9 rfl i9.1 i9.2.1 i9.2.2.1 i9.2.2.2
      generalize log2_step (m9, s9) 2 = a10 at i10 ⊢
      obtain ⟨m10, s10⟩ := a10
      have i11 := log2_step_inv n 1 2 m10 s10 rfl i10.1 i10.2.1 i10.2.2.1 i10.2.2.2
      generalize log2_step (m10, s10) 1 = a11 at i11 ⊢
      obtain ⟨m11, s11⟩ := a11
      obtain ⟨h1, h2, h3, h4⟩ := i11
      simp only at h1 h2 h3 h4 ⊢
      have hm : m11 = 1 := by omega
      subst hm
      have hne : n ≠ 0 := by omega
      have hle : s11 ≤ n.log2 := (Nat.le_log2 hne).2 (by simpa using h3)
      have hlt : n.log2 < s11 + 1 := (Nat.log2_lt hne).2 (by
        rw [pow_succ]; simpa using h4)
      omega
  · rfl

theorem roundToInt_of_dvd (num den : Nat) (hden : 0 < den) (h : den ∣ num) :
    roundToInt num den = num / den := by
  unfold roundToInt
  have hr : num % den = 0 := Nat.mod_eq_zero_of_dvd h
  simp [hr, hden]

theorem le_roundToInt (num den : Nat) : num / den ≤ roundToInt num den := by
  unfold roundToInt
  simp only
  split
  · exact le_refl _
  · split
    · exact Nat.le_succ _
    · exact Nat.le_add_right _ _

theorem scale_pos : 0 < Dbl.scale := Nat.two_pow_pos 1074

theorem rne_exact (num den : Nat) (hden : 0 < den) (hdvd : den ∣ num)
    (hgrid : 2 ^ (Nat.log2 (num / den) - 52) ∣ num / den) : rne num den = num / den := by
  unfold rne
  simp only [ilog2_eq]
  have hd : den * 2 ^ (Nat.log2 (num / den) - 52) ∣ num := by
    obtain ⟨q, hq⟩ := hdvd
    have hq2 : num / den = q := by rw [hq]; exact Nat.mul_div_cancel_left q hden
    rw [hq2] at hgrid ⊢
    rw [hq]
    exact Nat.mul_dvd_mul_left den hgrid
  rw [roundToInt_of_dvd num _ (Nat.mul_pos hden (Nat.two_pow_pos _)) hd,
    ← Nat.div_div_eq_div_mul]
  exact Nat.div_mul_cancel hgrid

theorem grid_of_lt (c : Nat) (hc : c < 2 ^ 53) :
    2 ^ (Nat.log2 (c * Dbl.scale) - 52) ∣ c * Dbl.scale := by
  rcases Nat.eq_zero_or_pos c with h0 | hpos
  · subst h0; simp
  · have hne : c * Dbl.scale ≠ 0 := Nat.mul_ne_zero (by omega) (Nat.ne_of_gt scale_pos)
    have hlt : Nat.log2 (c * Dbl.scale) < 53 + 1074 := by
      rw [Nat.log2_lt hne, pow_add]
      exact Nat.mul_lt_mul_of_lt_of_le hc (le_refl _) scale_pos
    have hle : Nat.log2 (c * Dbl.scale) - 52 ≤ 1074 := by omega
    exact Dvd.dvd.mul_left (Nat.pow_dvd_pow 2 hle) c

theorem rne_lower (num den : Nat) : num / den ≤ 2 * rne num den := by
  unfold rne
  simp only [ilog2_eq]
  generalize hQ : num / den = Q
  generalize hsh : Nat.log2 Q - 52 = sh
  have hpos : 0 < 2 ^ sh := Nat.two_pow_pos sh
  have h1 : Q / 2 ^ sh ≤ roundToInt num (den * 2 ^ sh) := by
    have := le_roundToInt num (den * 2 ^ sh)
    rwa [← Nat.div_div_eq_div_mul, hQ] at this
  rcases Nat.eq_zero_or_pos Q with h0 | hQpos
  · omega
  · have hle : 2 ^ sh ≤ Q := by
      have h2 : 2 ^ Nat.log2 Q ≤ Q := Nat.log2_self_le (by omega)
      have h3 : 2 ^ sh ≤ 2 ^ Nat.log2 Q := Nat.pow_le_pow_right (by norm_num) (by omega)
      omega
    have ha : 1 ≤ Q / 2 ^ sh := (Nat.le_div_iff_mul_le hpos).2 (by simpa using hle)
    have hlt : Q < (Q / 2 ^ sh + 1) * 2 ^ sh := by
      have := Nat.lt_succ_iff.2 (le_refl (Q / 2 ^ sh))
      exact (Nat.div_lt_iff_lt_mul hpos).1 this
    have h4 : (Q / 2 ^ sh + 1) * 2 ^ sh ≤ 2 * (roundToInt num (den * 2 ^ sh) * 2 ^ sh) := by
      have : Q / 2 ^ sh + 1 ≤ 2 * roundToInt num (den * 2 ^ sh) := by omega
      calc (Q / 2 ^ sh + 1) * 2 ^ sh ≤ (2 * roundToInt num (den * 2 ^ sh)) * 2 ^ sh :=
            Nat.mul_le_mul_right _ this
        _ = 2 * (roundToInt num (den * 2 ^ sh) * 2 ^ sh) := Nat.mul_assoc _ _ _
    omega

theorem of_nat_units (c : Nat) (hc : c < 2 ^ 53) : (Dbl.of_nat c).units = c * Dbl.scale := by
  unfold Dbl.of_nat
  simp only
  have h := rne_exact (c * Dbl.scale) 1 (by norm_num) (one_dvd _)
    (by rw [Nat.div_one]; exact grid_of_lt c hc)
  rw [h, Nat.div_one]

theorem div_units_exact (k h : Nat) (hh : 0 < h) (hk : k < 2 ^ 53) :
    (Dbl.div ⟨k * h * Dbl.scale⟩ ⟨h * Dbl.scale⟩).units = k * Dbl.scale := by
  unfold Dbl.div
  simp only
  have hden : 0 < h * Dbl.scale := Nat.mul_pos hh scale_pos
  have hq : k * h * Dbl.scale * Dbl.scale / (h * Dbl.scale) = k * Dbl.scale := by
    have : k * h * Dbl.scale * Dbl.scale = h * Dbl.scale * (k * Dbl.scale) := by ring
    rw [this]; exact Nat.mul_div_cancel_left _ hden
  have hdvd : h * Dbl.scale ∣ k * h * Dbl.scale * Dbl.scale :=
    ⟨k * Dbl.scale, by ring⟩
  rw [rne_exact _ _ hden hdvd (by rw [hq]; exact grid_of_lt k hk), hq]

theorem mul_units_exact (s k : Nat) (hsk : s * k < 2 ^ 53) :
    (Dbl.mul ⟨s * Dbl.scale⟩ ⟨k * Dbl.scale⟩).units = s * k * Dbl.scale := by
  unfold Dbl.mul
  simp only
  have hq : s * Dbl.scale * (k * Dbl.scale) / Dbl.scale = s * k * Dbl.scale := by
    have : s * Dbl.scale * (k * Dbl.scale) = Dbl.scale * (s * k * Dbl.scale) := by ring
    rw [this]; exact Nat.mul_div_cancel_left _ scale_pos
  have hdvd : Dbl.scale ∣ s * Dbl.scale * (k * Dbl.scale) := ⟨s * k * Dbl.scale, by ring⟩
  rw [rne_exact _ _ scale_pos hdvd (by rw [hq]; exact grid_of_lt (s * k) hsk), hq]

/-! ## `init_latency_model` -/

theorem create_latency_epoch_early (b : Build) (lm : latency_model_t) (env : EpochEnv)
    (w : World) (t : thread_t) (hr : env.reached_min_epoch_duration = false)
    (ht : w.thread_self = some t) :
    create_latency_epoch b lm env w =
      ⟨{ thread_self := some { t with signaled := 0 }, tls_overhead := w.tls_overhead,
         trace := w.trace ++ [Event.block_new_epoch, Event.write_signaled 0,
           Event.unblock_new_epoch] }, none⟩ := by
  unfold create_latency_epoch
  simp [hr, ht, World.emit]

theorem create_latency_epoch_full (b : Build) (lm : latency_model_t) (env : EpochEnv)
    (w : World) (t : thread_t) (hr : env.reached_min_epoch_duration = true)
    (ht : w.thread_self = some t) :
    create_latency_epoch b lm env w =
      epoch_body b lm env t (w.emit Event.block_new_epoch) := by
  unfold create_latency_epoch
  simp [hr, ht, World.emit]

theorem log_and_spin_spec (b : Build) (lm : latency_model_t) (t : thread_t) (d : Nat)
    (w : World) :
    (log_and_spin b lm t d w).world.thread_self = w.thread_self ∧
    (log_and_spin b lm t d w).world.tls_overhead = w.tls_overhead ∧
    (((log_and_spin b lm t d w).fault = none ∧
        (log_and_spin b lm t d w).world.trace = w.trace ++ spin_events lm d) ∨
      ((log_and_spin b lm t d w).fault = some Fault.div_by_zero ∧
        (log_and_spin b lm t d w).world.trace = w.trace ∧
        b.DBG_LOG_evaluates_args = true ∧ to_u64 t.cpu_speed_mhz = 0)) := by
  unfold log_and_spin spin_events cycles_to_us
  by_cases hb : b.DBG_LOG_evaluates_args = true <;>
  by_cases hz : to_u64 t.cpu_speed_mhz = 0 <;>
  by_cases hd : d ≠ 0 ∧ lm.inject_delay = true <;>
  simp [hb, hz, hd, World.emit]

theorem stats_count_epoch_frame (b : Build) (t : thread_t) :
    (stats_count_epoch b t).cpu_speed_mhz = t.cpu_speed_mhz ∧
    (stats_count_epoch b t).virtual_node = t.virtual_node ∧
    (stats_count_epoch b t).thread_manager = t.thread_manager ∧
    (stats_count_epoch b t).signaled = t.signaled := by
  unfold stats_count_epoch
  split <;> simp

theorem account_stalls_frame (b : Build) (c : EpochCalc) (t : thread_t) :
    (account_stalls b c t).cpu_speed_mhz = t.cpu_speed_mhz ∧
    (account_stalls b c t).virtual_node = t.virtual_node ∧
    (account_stalls b c t).thread_manager = t.thread_manager ∧
    (account_stalls b c t).signaled = t.signaled := by
  unfold account_stalls
  simp only
  split_ifs <;> simp

theorem sub_to_uint64_error (x y : Dbl) (f : Fault) (h : Dbl.sub_to_uint64 x y = .error f) :
    f = Fault.float_to_uint_range := by
  unfold Dbl.sub_to_uint64 Dbl.to_uint64 at h
  split at h
  · split at h
    · cases h
    · cases h; rfl
  · split at h
    · cases h
    · cases h; rfl

theorem update_timestamps_error (b : Build) (env : EpochEnv) (t : thread_t) (f : Fault)
    (h : update_timestamps b env t = .error f) : f = Fault.float_to_uint_range := by
  unfold update_timestamps at h
  by_cases h1 : b.USE_STATISTICS = true
  · by_cases h2 : t.thread_manager.stats_enabled = true
    · simp only [h1, h2, if_true] at h
      cases hsub : Dbl.sub_to_uint64 (Dbl.of_nat (trunc64 env.monotonic_epoch_end))
          (Dbl.of_nat t.stats.last_epoch_timestamp) with
      | error f2 =>
        rw [hsub] at h
        simp only [Except.error.injEq] at h
        subst h
        exact sub_to_uint64_error _ _ _ hsub
      | ok d =>
        rw [hsub] at h
        simp at h
    · simp [h1, h2] at h
  · simp [h1] at h

theorem epoch_body_cases (b : Build) (lm : latency_model_t) (env : EpochEnv) (t : thread_t)
    (w : World) :
    (select_pmc_event lm (stats_count_epoch b t) = none ∧
      (epoch_body b lm env t w).fault = some Fault.null_pmc_event ∧
      (epoch_body b lm env t w).world.trace = w.trace) ∨
    ∃ ev, select_pmc_event lm (stats_count_epoch b t) = some ev ∧
      ((∃ f, epoch_calc b lm env (stats_count_epoch b t) w.tls_overhead
            (trunc64 (env.read_pmc_event ev)) = .error f ∧
          (epoch_body b lm env t w).fault = some f ∧
          (epoch_body b lm env t w).world.trace = w.trace ++ [Event.read_pmc_event ev]) ∨
       ∃ c, epoch_calc b lm env (stats_count_epoch b t) w.tls_overhead
            (trunc64 (env.read_pmc_event ev)) = .ok c ∧
          (((epoch_body b lm env t w).fault = some Fault.div_by_zero ∧
              b.DBG_LOG_evaluates_args = true ∧ to_u64 t.cpu_speed_mhz = 0 ∧
              (epoch_body b lm env t w).world.trace = w.trace ++ [Event.read_pmc_event ev]) ∨
           ((epoch_body b lm env t w).fault = some Fault.float_to_uint_range ∧
              (epoch_body b lm env t w).world.trace =
                w.trace ++ Event.read_pmc_event ev :: spin_events lm c.delay_final) ∨
           ((epoch_body b lm env t w).fault = none ∧
              (epoch_body b lm env t w).world.tls_overhead = c.overhead_after ∧
              (∃ t3, update_timestamps b env (account_stalls b c (stats_count_epoch b t)) = .ok t3 ∧
                (epoch_body b lm env t w).world.thread_self = some { t3 with signaled := 0 }) ∧
              (epoch_body b lm env t w).world.trace =
                w.trace ++ Event.read_pmc_event ev :: spin_events lm c.delay_final ++
                  [Event.write_signaled 0, Event.unblock_new_epoch]))) := by
  cases hs : select_pmc_event lm (stats_count_epoch b t) with
  | none => left; simp [epoch_body, hs]
  | some ev =>
    right
    refine ⟨ev, rfl, ?_⟩
    cases hc : epoch_calc b lm env (stats_count_epoch b t) w.tls_overhead
        (trunc64 (env.read_pmc_event ev)) with
    | error f => left; exact ⟨f, rfl, by simp [epoch_body, hs, hc, World.emit]⟩
    | ok c =>
      right
      refine ⟨c, rfl, ?_⟩
      obtain ⟨h1, h2, h3⟩ := log_and_spin_spec b lm (account_stalls b c (stats_count_epoch b t))
        c.delay_final (World.mk (some (account_stalls b c (stats_count_epoch b t)))
          c.overhead_after (w.trace ++ [Event.read_pmc_event ev]))
      simp only [epoch_body, hs, hc, World.emit]
      revert h1 h2 h3
      generalize log_and_spin b lm (account_stalls b c (stats_count_epoch b t))
        c.delay_final (World.mk (some (account_stalls b c (stats_count_epoch b t)))
          c.overhead_after (w.trace ++ [Event.read_pmc_event ev])) = o
      intro h1 h2 h3
      rcases h3 with ⟨hf, htr⟩ | ⟨hf, htr, hb, hz⟩
      · rw [hf]
        simp only
        cases hu : update_timestamps b env (account_stalls b c (stats_count_epoch b t)) with
        | error f =>
          right; left
          have hf2 := update_timestamps_error b env _ f hu
          subst hf2
          exact ⟨rfl, by simpa using htr⟩
        | ok t3 =>
          right; right
          simp [h2, htr]
      · left
        rw [hf]
        simp only
        refine ⟨trivial, hb, ?_, htr⟩
        rw [(account_stalls_frame b c _).1, (stats_count_epoch_frame b t).1] at hz
        exact hz

theorem epoch_calc_spec (b : Build) (lm : latency_model_t) (env : EpochEnv) (t : thread_t)
    (tls raw : Nat) (c : EpochCalc) (h : epoch_calc b lm env t tls raw = .ok c) :
    calibrate b lm raw = .ok c.stall_cycles ∧
    derive_delay c.stall_cycles
        (latency_ratio t.virtual_node.nvram_node.latency lm.read_latency) = .ok c.delay_derived ∧
    c.overhead_total = add64 tls (sub64 env.hrtime_stop env.hrtime_start) ∧
    c.delay_discounted = (discount_overhead c.delay_derived c.overhead_total).1 ∧
    c.overhead_after = (discount_overhead c.delay_derived c.overhead_total).2 ∧
    c.max_allowed = max_allowed_delay_cycles t ∧
    c.delay_final = cap_delay c.delay_discounted c.max_allowed := by
  unfold epoch_calc at h
  cases hcal : calibrate b lm raw with
  | error f => rw [hcal] at h; simp at h
  | ok s =>
    rw [hcal] at h
    simp only at h
    cases hd : derive_delay s (latency_ratio t.virtual_node.nvram_node.latency lm.read_latency) with
    | error f => rw [hd] at h; simp at h
    | ok d =>
      rw [hd] at h
      simp only [Except.ok.injEq] at h
      subst h
      simp [hd]

theorem max_allowed_stats_count_epoch (b : Build) (t : thread_t) :
    max_allowed_delay_cycles (stats_count_epoch b t) = max_allowed_delay_cycles t := by
  unfold max_allowed_delay_cycles
  rw [(stats_count_epoch_frame b t).1, (stats_count_epoch_frame b t).2.2.1]

theorem cap_delay_le (d m : Nat) : cap_delay d m ≤ m := by
  unfold cap_delay
  split <;> omega

theorem mem_spin_events (lm : latency_model_t) (d : Nat) (e : Event)
    (h : e ∈ spin_events lm d) : e = Event.create_delay_cycles d ∧ d ≠ 0 := by
  unfold spin_events at h
  split at h
  · next hd => simp at h; exact ⟨h, hd.1⟩
  · simp at h

/-! ## The epoch engine: claims -/

/-- C2: for every thread state and either answer of
`reached_min_epoch_duration`, when `create_latency_epoch` returns the thread's
`signaled` flag is 0, and the call has blocked the new-epoch signal exactly
once, first, and unblocked it exactly once, last, right after the store that
clears `signaled`. -/
theorem create_latency_epoch_clears_signaled (b : Build) (lm : latency_model_t)
    (env : EpochEnv) (w : World) (t : thread_t) (ht : w.thread_self = some t)
    (hret : (create_latency_epoch b lm env w).fault = none) :
    (∃ t2, (create_latency_epoch b lm env w).world.thread_self = some t2 ∧ t2.signaled = 0) ∧
    ∃ mid, (create_latency_epoch b lm env w).world.trace =
        w.trace ++ Event.block_new_epoch :: mid ++
          [Event.write_signaled 0, Event.unblock_new_epoch] ∧
      Event.block_new_epoch ∉ mid ∧ Event.unblock_new_epoch ∉ mid ∧
      ∀ v, Event.write_signaled v ∉ mid := by
  cases hr : env.reached_min_epoch_duration with
  | false =>
    rw [create_latency_epoch_early b lm env w t hr ht]
    exact ⟨⟨_, rfl, rfl⟩, [], by simp, by simp, by simp, by simp⟩
  | true =>
    rw [create_latency_epoch_full b lm env w t hr ht] at hret ⊢
    rcases epoch_body_cases b lm env t (w.emit Event.block_new_epoch) with
      ⟨_, hf, _⟩ | ⟨ev, _, ⟨f, _, hf, _⟩ | ⟨c, _, ⟨hf, _⟩ | ⟨hf, _⟩ | ⟨_, _, ⟨t3, _, hth⟩, htr⟩⟩⟩
    · rw [hf] at hret; cases hret
    · rw [hf] at hret; cases hret
    · rw [hf] at hret; cases hret
    · rw [hf] at hret; cases hret
    · refine ⟨⟨_, hth, rfl⟩, Event.read_pmc_event ev :: spin_events lm c.delay_final, ?_, ?_, ?_, ?_⟩
      · rw [htr]; simp [World.emit]
      · intro hmem
        rcases List.mem_cons.1 hmem with h | h
        · cases h
        · cases (mem_spin_events lm _ _ h).1
      · intro hmem
        rcases List.mem_cons.1 hmem with h | h
        · cases h
        · cases (mem_spin_events lm _ _ h).1
      · intro v hmem
        rcases List.mem_cons.1 hmem with h | h
        · cases h
        · cases (mem_spin_events lm _ _ h).1

theorem create_latency_epoch_clears_signaled_witness :
    (sample_world sample_thread 0).thread_self = some sample_thread ∧
    (create_latency_epoch sample_build (sample_model 300) (sample_env true 600)
      (sample_world sample_thread 0)).fault = none ∧
    ((∃ t2, (create_latency_epoch sample_build (sample_model 300) (sample_env true 600)
        (sample_world sample_thread 0)).world.thread_self = some t2 ∧ t2.signaled = 0) ∧
    ∃ mid, (create_latency_epoch sample_build (sample_model 300) (sample_env true 600)
        (sample_world sample_thread 0)).world.trace =
        (sample_world sample_thread 0).trace ++ Event.block_new_epoch :: mid ++
          [Event.write_signaled 0, Event.unblock_new_epoch] ∧
      Event.block_new_epoch ∉ mid ∧ Event.unblock_new_epoch ∉ mid ∧
      ∀ v, Event.write_signaled v ∉ mid) :=
  ⟨rfl, by decide,
    create_latency_epoch_clears_signaled sample_build (sample_model 300) (sample_env true 600)
      (sample_world sample_thread 0) sample_thread rfl (by decide)⟩

/-- C3 (evaluation at the failing input): with `cpu_speed_mhz = 0`, on the
path past the minimum-duration gate, the argument
`cycles_to_us(thread->cpu_speed_mhz, delay_cycles)` of the debug log divides by
zero and the call does not return. -/
theorem create_latency_epoch_div_by_zero :
    (create_latency_epoch sample_build (sample_model 300) (sample_env true 600)
      (sample_world { sample_thread with cpu_speed_mhz := 0 } 0)).fault =
        some Fault.div_by_zero ∧
    cycles_to_us 0 1100 = .error Fault.div_by_zero ∧
    max_allowed_delay_cycles { sample_thread with cpu_speed_mhz := 0 } = 4000000000 :=
  ⟨by decide, rfl, by decide⟩

theorem cycles_to_us_zero_speed (b : Build) (lm : latency_model_t) (env : EpochEnv)
    (w : World) (t : thread_t) (ht : w.thread_self = some t)
    (hr : env.reached_min_epoch_duration = true) (hb : b.DBG_LOG_evaluates_args = true)
    (hz : t.cpu_speed_mhz = 0) : (create_latency_epoch b lm env w).fault ≠ none := by
  rw [create_latency_epoch_full b lm env w t hr ht]
  rcases epoch_body_cases b lm env t (w.emit Event.block_new_epoch) with
    ⟨_, hf, _⟩ | ⟨ev, _, ⟨f, _, hf, _⟩ | ⟨c, hc, ⟨hf, _⟩ | ⟨hf, _⟩ | ⟨hf, _, ⟨t3, _, _⟩, _⟩⟩⟩
  · rw [hf]; simp
  · rw [hf]; simp
  · rw [hf]; simp
  · rw [hf]; simp
  · exfalso
    unfold epoch_body at hf
    simp only [World.emit] at hf hc
    split at hf
    · cases hf
    · next ev2 hs =>
      split at hf
      · cases hf
      · next c2 hc2 =>
        have hl := log_and_spin_spec b lm (account_stalls b c2 (stats_count_epoch b t))
          c2.delay_final (World.mk (some (account_stalls b c2 (stats_count_epoch b t)))
            c2.overhead_after (w.trace ++ [Event.block_new_epoch] ++ [Event.read_pmc_event ev2]))
        have hlog : (log_and_spin b lm (account_stalls b c2 (stats_count_epoch b t))
          c2.delay_final (World.mk (some (account_stalls b c2 (stats_count_epoch b t)))
            c2.overhead_after
            (w.trace ++ [Event.block_new_epoch] ++ [Event.read_pmc_event ev2]))).fault =
            some Fault.div_by_zero := by
          unfold log_and_spin cycles_to_us
          rw [(account_stalls_frame b c2 _).1, (stats_count_epoch_frame b t).1, hz]
          simp [hb, to_u64]
        split at hf
        · cases hf
        · next hnone =>
          rw [hlog] at hnone
          cases hnone

/-- C9: when `reached_min_epoch_duration` is false, `create_latency_epoch`
returns, and the state it leaves is the state at entry with `signaled` set
to 0: `tls_overhead` and every other field of the thread (timestamps,
statistics, stall-cycle totals) are unchanged, and the only actions are
block, the store to `signaled`, unblock; no counter is read, no spin. -/
theorem create_latency_epoch_gate_frame (b : Build) (lm : latency_model_t)
    (env : EpochEnv) (w : World) (t : thread_t)
    (hr : env.reached_min_epoch_duration = false) (ht : w.thread_self = some t) :
    (create_latency_epoch b lm env w).fault = none ∧
    (create_latency_epoch b lm env w).world.tls_overhead = w.tls_overhead ∧
    (create_latency_epoch b lm env w).world.thread_self = some { t with signaled := 0 } ∧
    (create_latency_epoch b lm env w).world.trace =
      w.trace ++ [Event.block_new_epoch, Event.write_signaled 0, Event.unblock_new_epoch] ∧
    (∀ ev, Event.read_pmc_event ev ∉
      [Event.block_new_epoch, Event.write_signaled 0, Event.unblock_new_epoch]) ∧
    (∀ n, Event.create_delay_cycles n ∉
      [Event.block_new_epoch, Event.write_signaled 0, Event.unblock_new_epoch]) := by
  rw [create_latency_epoch_early b lm env w t hr ht]
  simp

theorem create_latency_epoch_gate_frame_witness :
    (sample_env false 600).reached_min_epoch_duration = false ∧
    (sample_world sample_thread 77).thread_self = some sample_thread ∧
    (create_latency_epoch sample_build (sample_model 300) (sample_env false 600)
      (sample_world sample_thread 77)).world =
      { thread_self := some { sample_thread with signaled := 0 }, tls_overhead := 77,
        trace := [Event.block_new_epoch, Event.write_signaled 0, Event.unblock_new_epoch] } := by
  have h := create_latency_epoch_gate_frame sample_build (sample_model 300)
    (sample_env false 600) (sample_world sample_thread 77) sample_thread rfl rfl
  refine ⟨rfl, rfl, ?_⟩
  obtain ⟨_, h2, h3, h4, _⟩ := h
  generalize (create_latency_epoch sample_build (sample_model 300) (sample_env false 600)
      (sample_world sample_thread 77)).world = x at h2 h3 h4 ⊢
  cases x
  simp only at h2 h3 h4
  subst h2 h3 h4
  rfl

theorem create_latency_epoch_trace (b : Build) (lm : latency_model_t) (env : EpochEnv)
    (w : World) :
    ∃ evs, (create_latency_epoch b lm env w).world.trace = w.trace ++ evs ∧
      ∀ n, Event.create_delay_cycles n ∈ evs →
        ∃ t ev c, w.thread_self = some t ∧ env.reached_min_epoch_duration = true ∧
          select_pmc_event lm (stats_count_epoch b t) = some ev ∧
          epoch_calc b lm env (stats_count_epoch b t) w.tls_overhead
            (trunc64 (env.read_pmc_event ev)) = .ok c ∧
          n = c.delay_final ∧ n ≠ 0 := by
  cases ht : w.thread_self with
  | none =>
    unfold create_latency_epoch
    cases hr : env.reached_min_epoch_duration with
    | false =>
      exact ⟨[Event.block_new_epoch, Event.unblock_new_epoch], by simp [ht, World.emit],
        by simp⟩
    | true => exact ⟨[Event.block_new_epoch], by simp [ht, World.emit], by simp⟩
  | some t =>
    cases hr : env.reached_min_epoch_duration with
    | false =>
      rw [create_latency_epoch_early b lm env w t hr ht]
      exact ⟨_, rfl, by simp⟩
    | true =>
      rw [create_latency_epoch_full b lm env w t hr ht]
      have key : ∀ ev c n,
          select_pmc_event lm (stats_count_epoch b t) = some ev →
          epoch_calc b lm env (stats_count_epoch b t) w.tls_overhead
            (trunc64 (env.read_pmc_event ev)) = .ok c →
          Event.create_delay_cycles n ∈
            Event.block_new_epoch :: Event.read_pmc_event ev :: spin_events lm c.delay_final →
          ∃ t2 ev c, some t = some t2 ∧ true = true ∧
            select_pmc_event lm (stats_count_epoch b t2) = some ev ∧
            epoch_calc b lm env (stats_count_epoch b t2) w.tls_overhead
              (trunc64 (env.read_pmc_event ev)) = .ok c ∧
            n = c.delay_final ∧ n ≠ 0 := by
        intro ev c n hs hc hmem
        rcases List.mem_cons.1 hmem with h | h
        · cases h
        · rcases List.mem_cons.1 h with h | h
          · cases h
          · obtain ⟨h1, h2⟩ := mem_spin_events lm _ _ h
            cases h1
            exact ⟨t, ev, c, rfl, rfl, hs, hc, rfl, h2⟩
      rcases epoch_body_cases b lm env t (w.emit Event.block_new_epoch) with
        ⟨_, _, htr⟩ | ⟨ev, hs, ⟨f, _, _, htr⟩ | ⟨c, hc, ⟨_, _, _, htr⟩ | ⟨_, htr⟩ | ⟨_, _, _, htr⟩⟩⟩
      · exact ⟨[Event.block_new_epoch], by rw [htr]; simp [World.emit], by simp⟩
      · exact ⟨[Event.block_new_epoch, Event.read_pmc_event ev],
          by rw [htr]; simp [World.emit], by simp⟩
      · exact ⟨[Event.block_new_epoch, Event.read_pmc_event ev],
          by rw [htr]; simp [World.emit], by simp⟩
      · refine ⟨Event.block_new_epoch :: Event.read_pmc_event ev :: spin_events lm c.delay_final,
          by rw [htr]; simp [World.emit], ?_⟩
        intro n hmem
        exact key ev c n hs hc hmem
      · refine ⟨Event.block_new_epoch :: Event.read_pmc_event ev ::
            (spin_events lm c.delay_final ++ [Event.write_signaled 0, Event.unblock_new_epoch]),
          by rw [htr]; simp [World.emit], ?_⟩
        intro n hmem
        apply key ev c n hs hc
        rcases List.mem_cons.1 hmem with h | h
        · cases h
        · rcases List.mem_cons.1 h with h | h
          · cases h
          · rcases List.mem_append.1 h with h | h
            · exact List.mem_cons_of_mem _ (List.mem_cons_of_mem _ h)
            · simp at h

/-- C5: every cycle count `create_latency_epoch` passes to the spin
(`create_delay_cycles`) is at most `max_allowed_delay_cycles`; and whenever the
delay left after overhead accounting exceeds `max_allowed_delay_cycles`, the
final delay is 0 (not the cap) and the call performs no spin. -/
theorem spin_within_max_allowed (b : Build) (lm : latency_model_t) (env : EpochEnv)
    (w : World) :
    ∃ evs, (create_latency_epoch b lm env w).world.trace = w.trace ++ evs ∧
      (∀ n, Event.create_delay_cycles n ∈ evs →
        ∃ t, w.thread_self = some t ∧ n ≤ max_allowed_delay_cycles t) ∧
      (∀ t ev c, w.thread_self = some t →
        select_pmc_event lm (stats_count_epoch b t) = some ev →
        epoch_calc b lm env (stats_count_epoch b t) w.tls_overhead
          (trunc64 (env.read_pmc_event ev)) = .ok c →
        max_allowed_delay_cycles t < c.delay_discounted →
        c.delay_final = 0 ∧ ∀ n, Event.create_delay_cycles n ∉ evs) := by
  obtain ⟨evs, htr, hspin⟩ := create_latency_epoch_trace b lm env w
  refine ⟨evs, htr, ?_, ?_⟩
  · intro n hn
    obtain ⟨t, ev, c, ht, _, _, hc, hn2, _⟩ := hspin n hn
    refine ⟨t, ht, ?_⟩
    obtain ⟨_, _, _, _, _, hmax, hfin⟩ := epoch_calc_spec b lm env _ _ _ c hc
    rw [hn2, hfin, ← max_allowed_stats_count_epoch b t, ← hmax]
    exact cap_delay_le _ _
  · intro t ev c ht hs hc hgt
    obtain ⟨_, _, _, _, _, hmax, hfin⟩ := epoch_calc_spec b lm env _ _ _ c hc
    rw [max_allowed_stats_count_epoch] at hmax
    have hzero : c.delay_final = 0 := by
      rw [hfin, hmax]; unfold cap_delay; simp [hgt]
    refine ⟨hzero, ?_⟩
    intro n hn
    obtain ⟨t2, ev2, c2, ht2, _, hs2, hc2, hn2, hne⟩ := hspin n hn
    rw [ht] at ht2
    cases ht2
    rw [hs] at hs2
    cases hs2
    rw [hc] at hc2
    cases hc2
    exact hne (hn2.trans hzero)

theorem latency_ratio_not_positive (hw target : Int) (h : hw ≤ 0 ∨ target ≤ hw) :
    latency_ratio hw target = Dbl.zero := by
  unfold latency_ratio
  have : ¬ (0 < hw ∧ hw < target) := by omega
  simp [this]

theorem derive_delay_zero_ratio (s : Nat) : derive_delay s Dbl.zero = .ok 0 := by
  simp [derive_delay, Dbl.lt, Dbl.zero]

/-- C6: when the thread's NVRAM hardware latency is not positive, or the target
read latency is not above it, the ratio is `0.0`, the delay
`create_latency_epoch` computes is 0 for every stall-cycle count, and the call
performs no spin (scenario: read latency 100, NVRAM latency 100). -/
theorem no_delay_without_positive_ratio (b : Build) (lm : latency_model_t) (env : EpochEnv)
    (w : World) (t : thread_t) (ht : w.thread_self = some t)
    (h : t.virtual_node.nvram_node.latency ≤ 0 ∨
      lm.read_latency ≤ t.virtual_node.nvram_node.latency) :
    latency_ratio t.virtual_node.nvram_node.latency lm.read_latency = Dbl.zero ∧
    (∀ stall_cycles, derive_delay stall_cycles
      (latency_ratio t.virtual_node.nvram_node.latency lm.read_latency) = .ok 0) ∧
    (∀ tls raw c, epoch_calc b lm env (stats_count_epoch b t) tls raw = .ok c →
      c.delay_derived = 0 ∧ c.delay_discounted = 0 ∧ c.delay_final = 0) ∧
    ∃ evs, (create_latency_epoch b lm env w).world.trace = w.trace ++ evs ∧
      ∀ n, Event.create_delay_cycles n ∉ evs := by
  have hz := latency_ratio_not_positive _ _ h
  have hcalc : ∀ tls raw c, epoch_calc b lm env (stats_count_epoch b t) tls raw = .ok c →
      c.delay_derived = 0 ∧ c.delay_discounted = 0 ∧ c.delay_final = 0 := by
    intro tls raw c hc
    obtain ⟨_, hd, _, hdis, _, _, hfin⟩ := epoch_calc_spec b lm env _ _ _ c hc
    rw [(stats_count_epoch_frame b t).2.1, hz, derive_delay_zero_ratio] at hd
    simp only [Except.ok.injEq] at hd
    have h0 : c.delay_discounted = 0 := by
      rw [hdis, ← hd]; simp [discount_overhead]
    refine ⟨hd.symm, h0, ?_⟩
    rw [hfin, h0]; simp [cap_delay]
  refine ⟨hz, ?_, hcalc, ?_⟩
  · intro s; rw [hz]; exact derive_delay_zero_ratio s
  · obtain ⟨evs, htr, hspin⟩ := create_latency_epoch_trace b lm env w
    refine ⟨evs, htr, ?_⟩
    intro n hn
    obtain ⟨t2, ev2, c2, ht2, _, _, hc2, hn2, hne⟩ := hspin n hn
    rw [ht] at ht2
    cases ht2
    exact hne (hn2.trans (hcalc _ _ _ hc2).2.2)

theorem no_delay_without_positive_ratio_witness :
    (sample_world sample_thread 0).thread_self = some sample_thread ∧
    (sample_model 100).read_latency ≤ sample_thread.virtual_node.nvram_node.latency ∧
    latency_ratio 100 100 = Dbl.zero ∧
    derive_delay 600 (latency_ratio 100 100) = .ok 0 ∧
    ∃ evs, (create_latency_epoch sample_build (sample_model 100) (sample_env true 600)
        (sample_world sample_thread 0)).world.trace =
          (sample_world sample_thread 0).trace ++ evs ∧
      ∀ n, Event.create_delay_cycles n ∉ evs :=
  have h := no_delay_without_positive_ratio sample_build (sample_model 100)
    (sample_env true 600) (sample_world sample_thread 0) sample_thread rfl
    (Or.inr (by decide))
  ⟨rfl, by decide, h.1, h.2.1 600, h.2.2.2⟩

theorem discount_overhead_conserved (d o : Nat) :
    o + (discount_overhead d o).1 = (discount_overhead d o).2 + d := by
  unfold discount_overhead
  split <;> simp <;> omega

/-- C4 (counterexample): an epoch with no overhead at entry, 100 cycles spent
in the engine and a derived delay of 1200 cycles returns with overhead 0 after
spinning 1100 cycles, so `overhead_before + elapsed = 100` differs from
`overhead_after + delay_actually_spun = 1100`. -/
theorem overhead_not_conserved_as_stated :
    (create_latency_epoch sample_build (sample_model 300) (sample_env true 600)
      (sample_world sample_thread 0)).fault = none ∧
    (create_latency_epoch sample_build (sample_model 300) (sample_env true 600)
      (sample_world sample_thread 0)).world.trace =
        [Event.block_new_epoch, Event.read_pmc_event { name := "REMOTE_DRAM" },
          Event.create_delay_cycles 1100, Event.write_signaled 0, Event.unblock_new_epoch] ∧
    (sample_world sample_thread 0).tls_overhead +
        sub64 (sample_env true 600).hrtime_stop (sample_env true 600).hrtime_start ≠
      (create_latency_epoch sample_build (sample_model 300) (sample_env true 600)
        (sample_world sample_thread 0)).world.tls_overhead + 1100 := by
  decide

/-- C4 (amended): for every epoch `create_latency_epoch` closes, with
`overhead_total = overhead_before + (stop - start)` in 64-bit arithmetic,
`overhead_total + delay_discounted = overhead_after + delay_derived`: the
overhead repaid equals the delay withheld. `delay_derived` is the delay computed
from the stall cycles, `delay_discounted` the delay left after overhead
accounting, which is the delay spun unless the cap discards it or injection is
off. -/
theorem overhead_accounting_conserved (b : Build) (lm : latency_model_t) (env : EpochEnv)
    (w : World) (t : thread_t) (ht : w.thread_self = some t)
    (hr : env.reached_min_epoch_duration = true)
    (hret : (create_latency_epoch b lm env w).fault = none) :
    ∃ ev c, select_pmc_event lm (stats_count_epoch b t) = some ev ∧
      epoch_calc b lm env (stats_count_epoch b t) w.tls_overhead
        (trunc64 (env.read_pmc_event ev)) = .ok c ∧
      c.overhead_total = add64 w.tls_overhead (sub64 env.hrtime_stop env.hrtime_start) ∧
      (create_latency_epoch b lm env w).world.tls_overhead = c.overhead_after ∧
      c.overhead_total + c.delay_discounted = c.overhead_after + c.delay_derived ∧
      (create_latency_epoch b lm env w).world.trace =
        w.trace ++ Event.block_new_epoch :: Event.read_pmc_event ev ::
          spin_events lm c.delay_final ++ [Event.write_signaled 0, Event.unblock_new_epoch] ∧
      (c.delay_final = c.delay_discounted ∨
        (c.delay_final = 0 ∧ c.max_allowed < c.delay_discounted)) := by
  rw [create_latency_epoch_full b lm env w t hr ht] at hret ⊢
  rcases epoch_body_cases b lm env t (w.emit Event.block_new_epoch) with
    ⟨_, hf, _⟩ | ⟨ev, hs, ⟨f, _, hf, _⟩ | ⟨c, hc, ⟨hf, _⟩ | ⟨hf, _⟩ | ⟨_, htls, _, htr⟩⟩⟩
  · rw [hf] at hret; cases hret
  · rw [hf] at hret; cases hret
  · rw [hf] at hret; cases hret
  · rw [hf] at hret; cases hret
  · have hc2 : epoch_calc b lm env (stats_count_epoch b t) w.tls_overhead
        (trunc64 (env.read_pmc_event ev)) = .ok c := hc
    obtain ⟨_, _, htot, hdis, haft, _, hfin⟩ := epoch_calc_spec b lm env _ _ _ c hc2
    refine ⟨ev, c, hs, hc2, htot, htls, ?_, ?_, ?_⟩
    · rw [hdis, haft]; exact discount_overhead_conserved _ _
    · rw [htr]; simp [World.emit]
    · rw [hfin]; unfold cap_delay
      split
      · next hlt => exact Or.inr ⟨rfl, hlt⟩
      · exact Or.inl rfl

theorem overhead_accounting_conserved_witness :
    ∃ ev c, select_pmc_event (sample_model 300) (stats_count_epoch sample_build sample_thread) =
        some ev ∧
      epoch_calc sample_build (sample_model 300) (sample_env true 600)
        (stats_count_epoch sample_build sample_thread) (sample_world sample_thread 0).tls_overhead
        (trunc64 ((sample_env true 600).read_pmc_event ev)) = .ok c ∧
      c.overhead_total = add64 (sample_world sample_thread 0).tls_overhead
        (sub64 (sample_env true 600).hrtime_stop (sample_env true 600).hrtime_start) ∧
      (create_latency_epoch sample_build (sample_model 300) (sample_env true 600)
        (sample_world sample_thread 0)).world.tls_overhead = c.overhead_after ∧
      c.overhead_total + c.delay_discounted = c.overhead_after + c.delay_derived ∧
      (create_latency_epoch sample_build (sample_model 300) (sample_env true 600)
        (sample_world sample_thread 0)).world.trace =
        (sample_world sample_thread 0).trace ++ Event.block_new_epoch ::
          Event.read_pmc_event ev :: spin_events (sample_model 300) c.delay_final ++
            [Event.write_signaled 0, Event.unblock_new_epoch] ∧
      (c.delay_final = c.delay_discounted ∨
        (c.delay_final = 0 ∧ c.max_allowed < c.delay_discounted)) :=
  overhead_accounting_conserved sample_build (sample_model 300) (sample_env true 600)
    (sample_world sample_thread 0) sample_thread rfl rfl (by decide)

theorem to_u64_of_nonneg (x : Int) (h0 : 0 ≤ x) (h1 : x < 2 ^ 64) : to_u64 x = x.toNat := by
  unfold to_u64
  rw [Int.emod_eq_of_lt h0 h1]

/-- C10 (counterexample): for `min_epoch_duration_us = 100` and
`cpu_speed_mhz = 2000` the cap is `10 ^ 6` cycles, not `10 ^ 9`; for the non-zero
speed `-1` the cap is the fallback `4 * 10 ^ 9`; and for two values of
`2 ^ 31 - 1` the 64-bit product wraps, so the cap is not the quotient of the
exact product. -/
theorem max_allowed_delay_cycles_not_as_stated :
    max_allowed_delay_cycles sample_thread = 10 ^ 6 ∧
    (sample_thread.cpu_speed_mhz * (5 * sample_thread.thread_manager.min_epoch_duration_us * 1000)
      / 1000 = 10 ^ 6) ∧
    max_allowed_delay_cycles { sample_thread with cpu_speed_mhz := -1 } = 4000000000 ∧
    max_allowed_delay_cycles { sample_thread with
        cpu_speed_mhz := 2147483647,
        thread_manager := { min_epoch_duration_us := 2147483647, stats_enabled := true } } ≠
      2147483647 * (5 * 2147483647 * 1000) / 1000 := by
  decide

/-- C10 (amended): when `cpu_speed_mhz > 0`, `min_epoch_duration_us >= 0` and
the product `cpu_speed_mhz * (5 * min_epoch_duration_us * 1000)` fits in 64
bits, the cap is that product divided by 1000 (integer division); when
`cpu_speed_mhz <= 0` it is `4 * 10 ^ 9` cycles; a delay above the cap is
discarded (set to 0). -/
theorem max_allowed_delay_cycles_formula (t : thread_t) :
    (0 < t.cpu_speed_mhz → 0 ≤ t.thread_manager.min_epoch_duration_us →
      t.cpu_speed_mhz * (5 * t.thread_manager.min_epoch_duration_us * 1000) < 2 ^ 64 →
      (max_allowed_delay_cycles t : Int) =
        t.cpu_speed_mhz * (5 * t.thread_manager.min_epoch_duration_us * 1000) / 1000) ∧
    (t.cpu_speed_mhz ≤ 0 → max_allowed_delay_cycles t = 4000000000) ∧
    (∀ d, max_allowed_delay_cycles t < d → cap_delay d (max_allowed_delay_cycles t) = 0) := by
  refine ⟨?_, ?_, ?_⟩
  · intro hc hm hlt
    obtain ⟨c, hcn⟩ := Int.eq_ofNat_of_zero_le hc.le
    obtain ⟨m, hmn⟩ := Int.eq_ofNat_of_zero_le hm
    unfold max_allowed_delay_cycles
    simp only [hc, if_true]
    rw [hcn, hmn] at hlt ⊢
    have hlt2 : c * (5 * m * 1000) < 2 ^ 64 := by exact_mod_cast hlt
    have hcpos : 0 < c := by omega
    have hm1 : m * 1000 < 2 ^ 64 := by nlinarith
    have hm5 : m * 1000 * 5 < 2 ^ 64 := by nlinarith
    have hmlt : m < 2 ^ 64 := by omega
    rw [to_u64_of_nonneg _ (Int.natCast_nonneg m) (by exact_mod_cast hmlt)]
    simp only [Int.toNat_natCast, mul64]
    rw [Nat.mod_eq_of_lt hm1, Nat.mod_eq_of_lt hm5]
    rcases Nat.eq_zero_or_pos m with h0 | hmpos
    · subst h0; simp
    · have hclt : c < 2 ^ 64 := by nlinarith
      rw [to_u64_of_nonneg _ (Int.natCast_nonneg c) (by exact_mod_cast hclt)]
      simp only [Int.toNat_natCast]
      rw [Nat.mod_eq_of_lt (by nlinarith : c * (m * 1000 * 5) < 2 ^ 64)]
      push_cast
      have : (c : Int) * ((m : Int) * 1000 * 5) = (c : Int) * (5 * (m : Int) * 1000) := by ring
      rw [this]
  · intro hc
    unfold max_allowed_delay_cycles
    have : ¬ (0 < t.cpu_speed_mhz) := by omega
    simp [this]
  · intro d hd
    unfold cap_delay
    simp [hd]

theorem max_allowed_delay_cycles_formula_witness :
    (max_allowed_delay_cycles sample_thread : Int) = 2000 * (5 * 100 * 1000) / 1000 ∧
    max_allowed_delay_cycles { sample_thread with cpu_speed_mhz := 0 } = 4000000000 ∧
    cap_delay (10 ^ 10) (max_allowed_delay_cycles sample_thread) = 0 :=
  ⟨(max_allowed_delay_cycles_formula sample_thread).1 (by decide) (by decide) (by decide),
   (max_allowed_delay_cycles_formula { sample_thread with cpu_speed_mhz := 0 }).2.1 (by decide),
   (max_allowed_delay_cycles_formula sample_thread).2.2 (10 ^ 10) (by decide)⟩

theorem of_nat_zero : Dbl.of_nat 0 = Dbl.zero := by decide

theorem overflow_check_pos (s : Nat) (r : Dbl) (h : overflow_check s r = true) :
    Dbl.lt Dbl.zero r = true ∧ 0 < s := by
  unfold overflow_check at h
  rw [Bool.and_eq_true] at h
  refine ⟨h.1, ?_⟩
  rcases Nat.eq_zero_or_pos s with h0 | hpos
  · subst h0
    rw [of_nat_zero] at h
    simp [Dbl.lt, Dbl.zero] at h
  · exact hpos

theorem derive_delay_overflow (s : Nat) (r : Dbl) (h : overflow_check s r = true) :
    derive_delay s r = .ok UINT64_MAX := by
  obtain ⟨h1, h2⟩ := overflow_check_pos s r h
  unfold derive_delay
  simp [h1, h2, h]

/-- C8 (counterexample): with `stall_cycles = 10 ^ 19` and ratio 10 the
overflow check fires and the delay is capped to `UINT64_MAX`, but with
`tls_overhead = 2 ^ 64 - 111` at entry and 100 cycles spent in the engine the
accounting step leaves a delay of 10 cycles, below the cap of `10 ^ 6`, and
the call spins for 10 cycles. -/
theorem overflow_delay_spun_with_large_overhead :
    overflow_check (10 ^ 19) (latency_ratio 100 1100) = true ∧
    (create_latency_epoch sample_build (sample_model 1100) (sample_env true (10 ^ 19))
      (sample_world sample_thread (2 ^ 64 - 111))).fault = none ∧
    (create_latency_epoch sample_build (sample_model 1100) (sample_env true (10 ^ 19))
      (sample_world sample_thread (2 ^ 64 - 111))).world.trace =
        [Event.block_new_epoch, Event.read_pmc_event { name := "REMOTE_DRAM" },
          Event.create_delay_cycles 10, Event.write_signaled 0, Event.unblock_new_epoch] := by
  decide

/-- C8 (amended): when the overflow check fires, `delay_cycles` is first set to
`UINT64_MAX`; provided `overhead_before + elapsed` (modulo `2 ^ 64`) plus
`max_allowed_delay_cycles` is below `UINT64_MAX`, the cap step then discards
it: the final delay is 0 and the call performs no spin. -/
theorem overflow_delay_discarded (b : Build) (lm : latency_model_t) (env : EpochEnv)
    (w : World) (t : thread_t) (ev : pmc_event_t) (stall_cycles : Nat)
    (ht : w.thread_self = some t)
    (hs : select_pmc_event lm (stats_count_epoch b t) = some ev)
    (hcal : calibrate b lm (trunc64 (env.read_pmc_event ev)) = .ok stall_cycles)
    (hov : overflow_check stall_cycles
      (latency_ratio t.virtual_node.nvram_node.latency lm.read_latency) = true)
    (hoverhead : add64 w.tls_overhead (sub64 env.hrtime_stop env.hrtime_start) +
      max_allowed_delay_cycles t < UINT64_MAX) :
    (∃ c, epoch_calc b lm env (stats_count_epoch b t) w.tls_overhead
        (trunc64 (env.read_pmc_event ev)) = .ok c ∧
      c.delay_derived = UINT64_MAX ∧ c.delay_final = 0) ∧
    ∃ evs, (create_latency_epoch b lm env w).world.trace = w.trace ++ evs ∧
      ∀ n, Event.create_delay_cycles n ∉ evs := by
  have hcalc : ∃ c, epoch_calc b lm env (stats_count_epoch b t) w.tls_overhead
        (trunc64 (env.read_pmc_event ev)) = .ok c ∧
      c.delay_derived = UINT64_MAX ∧ c.delay_final = 0 := by
    unfold epoch_calc
    rw [hcal]
    simp only
    rw [(stats_count_epoch_frame b t).2.1, derive_delay_overflow _ _ hov]
    simp only
    refine ⟨_, rfl, rfl, ?_⟩
    simp only
    rw [max_allowed_stats_count_epoch]
    unfold cap_delay discount_overhead
    have hlt : add64 w.tls_overhead (sub64 env.hrtime_stop env.hrtime_start) < UINT64_MAX := by
      omega
    simp only [hlt, if_true]
    have : max_allowed_delay_cycles t <
        UINT64_MAX - add64 w.tls_overhead (sub64 env.hrtime_stop env.hrtime_start) := by omega
    simp [this]
  refine ⟨hcalc, ?_⟩
  obtain ⟨c, hc, _, hfin⟩ := hcalc
  obtain ⟨evs, htr, hspin⟩ := create_latency_epoch_trace b lm env w
  refine ⟨evs, htr, ?_⟩
  intro n hn
  obtain ⟨t2, ev2, c2, ht2, _, hs2, hc2, hn2, hne⟩ := hspin n hn
  rw [ht] at ht2
  cases ht2
  rw [hs] at hs2
  cases hs2
  rw [hc] at hc2
  cases hc2
  exact hne (hn2.trans hfin)

theorem overflow_delay_discarded_witness :
    overflow_check (10 ^ 19) (latency_ratio 100 1100) = true ∧
    (∃ c, epoch_calc sample_build (sample_model 1100) (sample_env true (10 ^ 19))
        (stats_count_epoch sample_build sample_thread) (sample_world sample_thread 0).tls_overhead
        (trunc64 ((sample_env true (10 ^ 19)).read_pmc_event { name := "REMOTE_DRAM" })) = .ok c ∧
      c.delay_derived = UINT64_MAX ∧ c.delay_final = 0) ∧
    ∃ evs, (create_latency_epoch sample_build (sample_model 1100) (sample_env true (10 ^ 19))
        (sample_world sample_thread 0)).world.trace =
          (sample_world sample_thread 0).trace ++ evs ∧
      ∀ n, Event.create_delay_cycles n ∉ evs :=
  ⟨by decide,
   overflow_delay_discarded sample_build (sample_model 1100) (sample_env true (10 ^ 19))
    (sample_world sample_thread 0) sample_thread { name := "REMOTE_DRAM" } (10 ^ 19)
    rfl (by decide) (by rfl) (by decide) (by decide)⟩

theorem dbl_eq_of_units (x y : Dbl) (h : x.units = y.units) : x = y := by
  cases x; cases y; simp only at h; subst h; rfl

theorem rne_zero (den : Nat) : rne 0 den = 0 := by
  unfold rne roundToInt
  simp

theorem div_zero_left (y : Dbl) : Dbl.div Dbl.zero y = Dbl.zero := by
  unfold Dbl.div Dbl.zero
  simp only [Nat.zero_mul, rne_zero]

theorem mul_zero_right (x : Dbl) : Dbl.mul x Dbl.zero = Dbl.zero := by
  unfold Dbl.mul Dbl.zero
  simp only [Nat.mul_zero, rne_zero]

theorem to_uint64_zero : Dbl.to_uint64 Dbl.zero = .ok 0 := by rfl

theorem mul_zero_left (x : Dbl) : Dbl.mul Dbl.zero x = Dbl.zero := by
  unfold Dbl.mul Dbl.zero
  simp only [Nat.zero_mul, rne_zero]

theorem derive_delay_general (s : Nat) (r : Dbl) (h : overflow_check s r = false) :
    derive_delay s r = Dbl.to_uint64 (Dbl.mul (Dbl.of_nat s) r) := by
  unfold derive_delay
  rw [h]
  by_cases hc : (Dbl.lt Dbl.zero r && decide (0 < s)) = true
  · rw [if_pos hc]
    rfl
  · rw [if_neg hc]
    have hz : Dbl.mul (Dbl.of_nat s) r = Dbl.zero := by
      rcases Nat.eq_zero_or_pos s with h0 | hpos
      · rw [h0, of_nat_zero, mul_zero_left]
      · have hr : r = Dbl.zero := by
          apply dbl_eq_of_units
          rcases Nat.eq_zero_or_pos r.units with hu | hu
          · exact hu
          · exfalso
            apply hc
            simp only [Dbl.lt, Dbl.zero, Bool.and_eq_true, decide_eq_true_eq]
            exact ⟨hu, hpos⟩
        rw [hr, mul_zero_right]
    rw [hz, to_uint64_zero]

/-- The definedness proviso of the delay: for `stall_cycles = 2 ^ 64 - 1`,
`hw_lat = 100` and `target = 200` the overflow check does not fire
(`(double)UINT64_MAX / 1.0` and `(double)stall_cycles` are both `2 ^ 64`), and
the product `2 ^ 64` does not fit in `uint64_t`. -/
theorem derive_delay_undefined_at_top :
    overflow_check (2 ^ 64 - 1) (latency_ratio 100 200) = false ∧
    derive_delay (2 ^ 64 - 1) (latency_ratio 100 200) = .error Fault.float_to_uint_range :=
  ⟨by decide, by rfl⟩

theorem of_nat_eq (c : Nat) (hc : c < 2 ^ 53) : Dbl.of_nat c = ⟨c * Dbl.scale⟩ := by
  have h := of_nat_units c hc
  cases hx : Dbl.of_nat c with
  | mk u => rw [hx] at h; simp only at h; rw [h]

theorem of_nat_uint64_max : Dbl.of_nat UINT64_MAX = ⟨2 ^ 64 * Dbl.scale⟩ := by decide

theorem latency_ratio_exact (h k : Nat) (hh : 0 < h) (hk : 0 < k) (hkh : k * h < 2 ^ 53) :
    latency_ratio (h : Int) ((h : Int) + (k : Int) * (h : Int)) = ⟨k * Dbl.scale⟩ := by
  unfold latency_ratio
  have hpos : (0 : Int) < (h : Int) := by exact_mod_cast hh
  have hkpos : (0 : Int) < (k : Int) * (h : Int) := by positivity
  have hg : (0 : Int) < (h : Int) ∧ (h : Int) < (h : Int) + (k : Int) * (h : Int) := ⟨hpos, by omega⟩
  simp only [hg, and_self, if_true]
  have e1 : ((h : Int) + (k : Int) * (h : Int) - (h : Int)).toNat = k * h := by
    have : (h : Int) + (k : Int) * (h : Int) - (h : Int) = ((k * h : Nat) : Int) := by
      push_cast; ring
    rw [this, Int.toNat_natCast]
  have e2 : (h : Int).toNat = h := Int.toNat_natCast h
  have hlt : h < 2 ^ 53 := by nlinarith
  have hklt : k < 2 ^ 53 := by nlinarith
  rw [e1, e2, of_nat_eq _ hkh, of_nat_eq _ hlt]
  have hu := div_units_exact k h hh hklt
  cases hx : Dbl.div ⟨k * h * Dbl.scale⟩ ⟨h * Dbl.scale⟩ with
  | mk u => rw [hx] at hu; simp only at hu; rw [hu]

theorem derive_delay_exact_units (s k : Nat) (hs : 0 < s) (hk : 0 < k) (hsk : s * k < 2 ^ 53) :
    overflow_check s ⟨k * Dbl.scale⟩ = false ∧ derive_delay s ⟨k * Dbl.scale⟩ = .ok (s * k) := by
  have hslt : s < 2 ^ 53 := by nlinarith
  have hsc := scale_pos
  have hov : overflow_check s ⟨k * Dbl.scale⟩ = false := by
    unfold overflow_check
    rw [of_nat_uint64_max, of_nat_eq s hslt]
    simp only [Dbl.lt, Dbl.div, Bool.and_eq_false_imp, decide_eq_true_eq, decide_eq_false_iff_not,
      not_lt]
    intro _
    have hl := rne_lower (2 ^ 64 * Dbl.scale * Dbl.scale) (k * Dbl.scale)
    have hq : 2 * (s * Dbl.scale) ≤ 2 ^ 64 * Dbl.scale * Dbl.scale / (k * Dbl.scale) := by
      rw [Nat.le_div_iff_mul_le (Nat.mul_pos hk hsc)]
      have h1 : 2 * (s * Dbl.scale) * (k * Dbl.scale) = (2 * (s * k)) * (Dbl.scale * Dbl.scale) := by
        ring
      have h2 : 2 ^ 64 * Dbl.scale * Dbl.scale = 2 ^ 64 * (Dbl.scale * Dbl.scale) := by ring
      rw [h1, h2]
      exact Nat.mul_le_mul_right _ (by omega)
    omega
  refine ⟨hov, ?_⟩
  unfold derive_delay
  have hr : Dbl.lt Dbl.zero ⟨k * Dbl.scale⟩ = true := by
    simp only [Dbl.lt, Dbl.zero, decide_eq_true_eq]
    exact Nat.mul_pos hk hsc
  simp only [hr, hs, hov, decide_True, Bool.and_self, if_true, Bool.false_eq_true, if_false]
  rw [of_nat_eq s hslt]
  have hu := mul_units_exact s k hsk
  unfold Dbl.to_uint64 Dbl.trunc
  rw [hu, Nat.mul_div_cancel _ hsc]
  have : s * k < 2 ^ 64 := by omega
  rw [if_pos this]

/-- C7 (counterexample): for `hw_lat = 49`, `target = 50`, `stall_cycles = 49`
the overflow check does not fire and the exact value of
`stall_cycles * (target - hw_lat) / hw_lat` is 1, but the code computes the
ratio and the product in binary64 (`49 * (1.0 / 49) = 0.9999999999999999`) and
obtains `delay_cycles = 0`. -/
theorem derive_delay_not_exact_floor :
    overflow_check 49 (latency_ratio 49 50) = false ∧
    derive_delay 49 (latency_ratio 49 50) = .ok 0 ∧
    (49 * (50 - 49) / 49 : Nat) = 1 :=
  ⟨by decide, by rfl, by decide⟩

theorem derive_delay_exact_case (hw target : Int) (stall_cycles : Nat) (hhw : 0 < hw)
    (htarget : hw < target) (hdvd : hw ∣ target - hw) (hrange : target - hw < 2 ^ 53)
    (hstall : 0 < stall_cycles)
    (hprod : stall_cycles * (target - hw).toNat / hw.toNat < 2 ^ 53) :
    overflow_check stall_cycles (latency_ratio hw target) = false ∧
    derive_delay stall_cycles (latency_ratio hw target) =
      .ok (stall_cycles * (target - hw).toNat / hw.toNat) := by
  obtain ⟨h, rfl⟩ := Int.eq_ofNat_of_zero_le hhw.le
  obtain ⟨q, hq⟩ := hdvd
  have hhpos : 0 < h := by exact_mod_cast hhw
  have hqpos : 0 < q := by
    have hmul : (0 : Int) < (h : Int) * q := by rw [← hq]; omega
    rcases lt_or_ge 0 q with hlt | hge
    · exact hlt
    · exact absurd hmul (not_lt.2 (mul_nonpos_of_nonneg_of_nonpos (Int.natCast_nonneg _) hge))
  obtain ⟨k, rfl⟩ := Int.eq_ofNat_of_zero_le hqpos.le
  have hkpos : 0 < k := by exact_mod_cast hqpos
  have htgt : target = (h : Int) + (k : Int) * (h : Int) := by
    have : target = (h : Int) + (h : Int) * (k : Int) := by omega
    rw [this]; ring
  subst htgt
  have e1 : ((h : Int) + (k : Int) * (h : Int) - (h : Int)).toNat = k * h := by
    have : (h : Int) + (k : Int) * (h : Int) - (h : Int) = ((k * h : Nat) : Int) := by
      push_cast; ring
    rw [this, Int.toNat_natCast]
  have e2 : (h : Int).toNat = h := Int.toNat_natCast h
  have hkh : k * h < 2 ^ 53 := by
    have : ((k * h : Nat) : Int) < 2 ^ 53 := by
      have e : ((k * h : Nat) : Int) = (h : Int) + (k : Int) * (h : Int) - (h : Int) := by
        push_cast; ring
      rw [e]; exact hrange
    exact_mod_cast this
  rw [e1, e2] at hprod ⊢
  have e3 : stall_cycles * (k * h) / h = stall_cycles * k := by
    rw [← Nat.mul_assoc]; exact Nat.mul_div_cancel _ hhpos
  rw [e3] at hprod ⊢
  rw [latency_ratio_exact h k hhpos hkpos hkh]
  exact derive_delay_exact_units stall_cycles k hstall hkpos hprod

/-- C7 (amended): for every `stall_cycles > 0`, `hw_lat > 0` and
`target > hw_lat`, the ratio is the binary64 quotient
`(double)(target - hw_lat) / (double)hw_lat`, and whenever the overflow check
does not fire the delay before overhead accounting is the conversion to
`uint64_t` of the binary64 product of `stall_cycles` and that ratio: its
truncation when the product is below `2 ^ 64`, undefined otherwise. Whenever
`hw_lat` divides `target - hw_lat`, `target - hw_lat < 2 ^ 53` and
`stall_cycles * (target - hw_lat) / hw_lat < 2 ^ 53`, the overflow check does
not fire and that delay is exactly
`floor(stall_cycles * (target - hw_lat) / hw_lat)` (300, 100, 600 gives
1200). -/
theorem derive_delay_exact (hw target : Int) (stall_cycles : Nat) (hhw : 0 < hw)
    (htarget : hw < target) (hstall : 0 < stall_cycles) :
    latency_ratio hw target =
      Dbl.div (Dbl.of_nat (target - hw).toNat) (Dbl.of_nat hw.toNat) ∧
    (overflow_check stall_cycles (latency_ratio hw target) = false →
      derive_delay stall_cycles (latency_ratio hw target) =
        Dbl.to_uint64 (Dbl.mul (Dbl.of_nat stall_cycles) (latency_ratio hw target)) ∧
      ((Dbl.mul (Dbl.of_nat stall_cycles) (latency_ratio hw target)).trunc < 2 ^ 64 →
        derive_delay stall_cycles (latency_ratio hw target) =
          .ok (Dbl.mul (Dbl.of_nat stall_cycles) (latency_ratio hw target)).trunc) ∧
      (¬ (Dbl.mul (Dbl.of_nat stall_cycles) (latency_ratio hw target)).trunc < 2 ^ 64 →
        derive_delay stall_cycles (latency_ratio hw target) =
          .error Fault.float_to_uint_range)) ∧
    (hw ∣ target - hw → target - hw < 2 ^ 53 →
      stall_cycles * (target - hw).toNat / hw.toNat < 2 ^ 53 →
      overflow_check stall_cycles (latency_ratio hw target) = false ∧
      derive_delay stall_cycles (latency_ratio hw target) =
        .ok (stall_cycles * (target - hw).toNat / hw.toNat)) := by
  refine ⟨?_, fun hov => ?_, fun hdvd hrange hprod =>
    derive_delay_exact_case hw target stall_cycles hhw htarget hdvd hrange hstall hprod⟩
  · unfold latency_ratio
    rw [if_pos ⟨hhw, htarget⟩]
  · have hg := derive_delay_general stall_cycles (latency_ratio hw target) hov
    refine ⟨hg, fun hlt => ?_, fun hge => ?_⟩
    · rw [hg]
      unfold Dbl.to_uint64
      rw [if_pos hlt]
    · rw [hg]
      unfold Dbl.to_uint64
      rw [if_neg hge]

theorem derive_delay_exact_witness :
    derive_delay 49 (latency_ratio 49 50) =
      .ok (Dbl.mul (Dbl.of_nat 49) (latency_ratio 49 50)).trunc ∧
    derive_delay (2 ^ 64 - 1) (latency_ratio 100 200) = .error Fault.float_to_uint_range ∧
    overflow_check 600 (latency_ratio 100 300) = false ∧
    derive_delay 600 (latency_ratio 100 300) = .ok 1200 :=
  ⟨((derive_delay_exact 49 50 49 (by decide) (by decide) (by decide)).2.1 (by decide)).2.1
      (by decide),
   ((derive_delay_exact 100 200 (2 ^ 64 - 1) (by decide) (by decide) (by decide)).2.1
      (by decide)).2.2 (by decide),
   (derive_delay_exact 100 300 600 (by decide) (by decide) (by decide)).2.2 ⟨2, by decide⟩
      (by decide) (by decide)⟩

/-! ## Monotonicity and idempotence of the rounding -/

theorem roundToInt_le_succ (num den : Nat) : roundToInt num den ≤ num / den + 1 := by
  unfold roundToInt
  simp only
  split
  · omega
  · split
    · omega
    · have := Nat.mod_lt (num / den) (by norm_num : 0 < 2)
      omega

theorem roundToInt_mono (n1 n2 den : Nat) (h : n1 ≤ n2) :
    roundToInt n1 den ≤ roundToInt n2 den := by
  have hq : n1 / den ≤ n2 / den := Nat.div_le_div_right h
  rcases Nat.lt_or_ge (n1 / den) (n2 / den) with hlt | hge
  · have h1 := roundToInt_le_succ n1 den
    have h2 := le_roundToInt n2 den
    omega
  · have heq : n1 / den = n2 / den := by omega
    have e1 := Nat.div_add_mod n1 den
    have e2 := Nat.div_add_mod n2 den
    rw [heq] at e1
    have hr : n1 % den ≤ n2 % den := by omega
    unfold roundToInt
    simp only [heq]
    split_ifs <;> omega

theorem log2_mono (a b : Nat) (h : a ≤ b) : Nat.log2 a ≤ Nat.log2 b := by
  rcases Nat.eq_zero_or_pos a with h0 | hpos
  · subst h0
    have : Nat.log2 0 = 0 := by simp [Nat.log2]
    omega
  · have ha : a ≠ 0 := by omega
    have hb : b ≠ 0 := by omega
    exact (Nat.le_log2 hb).2 (le_trans (Nat.log2_self_le ha) h)

theorem div_shift_lt (Q : Nat) : Q / 2 ^ (Nat.log2 Q - 52) < 2 ^ 53 := by
  rw [Nat.div_lt_iff_lt_mul (Nat.two_pow_pos _), ← pow_add]
  have h1 : Q < 2 ^ (Nat.log2 Q + 1) := Nat.lt_log2_self
  have h2 : 2 ^ (Nat.log2 Q + 1) ≤ 2 ^ (53 + (Nat.log2 Q - 52)) :=
    Nat.pow_le_pow_right (by norm_num) (by omega)
  omega

theorem rne_le_pow (num den : Nat) :
    rne num den ≤ 2 ^ (53 + (Nat.log2 (num / den) - 52)) := by
  unfold rne
  simp only [ilog2_eq]
  have h1 := roundToInt_le_succ num (den * 2 ^ (Nat.log2 (num / den) - 52))
  rw [← Nat.div_div_eq_div_mul] at h1
  have h2 := div_shift_lt (num / den)
  have h3 : roundToInt num (den * 2 ^ (Nat.log2 (num / den) - 52)) ≤ 2 ^ 53 := by omega
  rw [pow_add]
  exact Nat.mul_le_mul_right _ h3

theorem rne_ge_pow (num den : Nat) (hs : 0 < Nat.log2 (num / den) - 52) :
    2 ^ (52 + (Nat.log2 (num / den) - 52)) ≤ rne num den := by
  unfold rne
  simp only [ilog2_eq]
  generalize hQ : num / den = Q at hs ⊢
  have hne : Q ≠ 0 := by
    intro h0; subst h0
    have : Nat.log2 0 = 0 := by simp [Nat.log2]
    omega
  have h1 : Q / 2 ^ (Nat.log2 Q - 52) ≤ roundToInt num (den * 2 ^ (Nat.log2 Q - 52)) := by
    have := le_roundToInt num (den * 2 ^ (Nat.log2 Q - 52))
    rwa [← Nat.div_div_eq_div_mul, hQ] at this
  have h2 : 2 ^ 52 ≤ Q / 2 ^ (Nat.log2 Q - 52) := by
    rw [Nat.le_div_iff_mul_le (Nat.two_pow_pos _), ← pow_add]
    have : 52 + (Nat.log2 Q - 52) = Nat.log2 Q := by omega
    rw [this]
    exact Nat.log2_self_le hne
  rw [pow_add]
  exact Nat.mul_le_mul_right _ (le_trans h2 h1)

theorem rne_mono (n1 n2 den : Nat) (h : n1 ≤ n2) :
    rne n1 den ≤ rne n2 den := by
  have hq : n1 / den ≤ n2 / den := Nat.div_le_div_right h
  have hl := log2_mono _ _ hq
  rcases Nat.lt_or_ge (Nat.log2 (n1 / den) - 52) (Nat.log2 (n2 / den) - 52) with hlt | hge
  · have h1 := rne_le_pow n1 den
    have h2 := rne_ge_pow n2 den (by omega)
    have h3 : 2 ^ (53 + (Nat.log2 (n1 / den) - 52)) ≤ 2 ^ (52 + (Nat.log2 (n2 / den) - 52)) :=
      Nat.pow_le_pow_right (by norm_num) (by omega)
    omega
  · have heq : Nat.log2 (n1 / den) - 52 = Nat.log2 (n2 / den) - 52 := by omega
    unfold rne
    simp only [ilog2_eq, heq]
    exact Nat.mul_le_mul_right _ (roundToInt_mono _ _ _ h)

theorem log2_two_pow_eq (k : Nat) : Nat.log2 (2 ^ k) = k := by
  have hne : 2 ^ k ≠ 0 := Nat.ne_of_gt (Nat.two_pow_pos k)
  have h1 : k ≤ Nat.log2 (2 ^ k) := (Nat.le_log2 hne).2 (le_refl _)
  have h2 : Nat.log2 (2 ^ k) < k + 1 :=
    (Nat.log2_lt hne).2 (Nat.pow_lt_pow_right (by norm_num) (by omega))
  omega

theorem rne_grid (num den : Nat) :
    2 ^ (Nat.log2 (rne num den) - 52) ∣ rne num den := by
  have hle := rne_le_pow num den
  generalize hs : Nat.log2 (num / den) - 52 = s at hle
  have hdvd : 2 ^ s ∣ rne num den := by
    unfold rne
    simp only [ilog2_eq, hs]
    exact Dvd.intro_left _ rfl
  rcases Nat.eq_or_lt_of_le hle with heq | hlt
  · rw [heq, log2_two_pow_eq]
    exact Nat.pow_dvd_pow 2 (by omega)
  · rcases Nat.eq_zero_or_pos (rne num den) with h0 | hpos
    · rw [h0]; exact dvd_zero _
    · have hlog : Nat.log2 (rne num den) < 53 + s := (Nat.log2_lt (by omega)).2 hlt
      exact dvd_trans (Nat.pow_dvd_pow 2 (by omega)) hdvd

theorem rne_idem (num den : Nat) : rne (rne num den) 1 = rne num den := by
  have h := rne_exact (rne num den) 1 (by norm_num) (one_dvd _)
    (by rw [Nat.div_one]; exact rne_grid num den)
  rw [h, Nat.div_one]

theorem of_nat_mono (a b : Nat) (h : a ≤ b) : (Dbl.of_nat a).units ≤ (Dbl.of_nat b).units := by
  unfold Dbl.of_nat
  exact rne_mono _ _ _ (Nat.mul_le_mul_right _ h)

theorem mul_mono_left (x y r : Dbl) (h : x.units ≤ y.units) :
    (Dbl.mul x r).units ≤ (Dbl.mul y r).units := by
  unfold Dbl.mul
  exact rne_mono _ _ _ (Nat.mul_le_mul_right _ h)

theorem mul_mono_right (x r1 r2 : Dbl) (h : r1.units ≤ r2.units) :
    (Dbl.mul x r1).units ≤ (Dbl.mul x r2).units := by
  unfold Dbl.mul
  exact rne_mono _ _ _ (Nat.mul_le_mul_left _ h)

theorem to_uint64_mono (x y : Dbl) (h : x.units ≤ y.units) (v2 : Nat)
    (hy : Dbl.to_uint64 y = .ok v2) : ∃ v1, Dbl.to_uint64 x = .ok v1 ∧ v1 ≤ v2 := by
  unfold Dbl.to_uint64 Dbl.trunc at hy ⊢
  have hdiv : x.units / Dbl.scale ≤ y.units / Dbl.scale := Nat.div_le_div_right h
  split at hy
  · next hlt =>
    simp only [Except.ok.injEq] at hy
    subst hy
    have hx : x.units / Dbl.scale < 2 ^ 64 := lt_of_le_of_lt hdiv hlt
    exact ⟨x.units / Dbl.scale, by rw [if_pos hx], hdiv⟩
  · cases hy

/-- The units of a double that is the result of an arithmetic operation are a
fixed point of the rounding. -/
theorem mul_one_units (x : Dbl) (hx : 2 ^ (Nat.log2 x.units - 52) ∣ x.units) :
    (Dbl.mul x ⟨Dbl.scale⟩).units = x.units := by
  unfold Dbl.mul
  simp only
  have h := rne_exact (x.units * Dbl.scale) Dbl.scale scale_pos (Dvd.intro_left _ rfl)
    (by rw [Nat.mul_div_cancel _ scale_pos]; exact hx)
  rw [h, Nat.mul_div_cancel _ scale_pos]

theorem div_self_units (x : Dbl) (hx : 0 < x.units) : (Dbl.div x x).units = Dbl.scale := by
  unfold Dbl.div
  simp only
  have hq : x.units * Dbl.scale / x.units = Dbl.scale := Nat.mul_div_cancel_left _ hx
  have hg : 2 ^ (Nat.log2 Dbl.scale - 52) ∣ Dbl.scale := by
    have : Nat.log2 Dbl.scale = 1074 := log2_two_pow_eq 1074
    rw [this]
    exact Nat.pow_dvd_pow 2 (by norm_num)
  rw [rne_exact _ _ hx (Dvd.intro _ rfl) (by rw [hq]; exact hg), hq]

theorem div_le_one (x y : Dbl) (hy : 0 < y.units) (h : x.units ≤ y.units) :
    (Dbl.div x y).units ≤ Dbl.scale := by
  have h1 : (Dbl.div x y).units ≤ (Dbl.div y y).units := by
    unfold Dbl.div
    exact rne_mono _ _ _ (Nat.mul_le_mul_right _ h)
  rw [div_self_units y hy] at h1
  exact h1

theorem add_ge_left (x y : Dbl) (hx : 2 ^ (Nat.log2 x.units - 52) ∣ x.units) :
    x.units ≤ (Dbl.add x y).units := by
  unfold Dbl.add
  simp only
  have h1 : rne x.units 1 ≤ rne (x.units + y.units) 1 := rne_mono _ _ _ (Nat.le_add_right _ _)
  have h2 := rne_exact x.units 1 (by norm_num) (one_dvd _) (by rw [Nat.div_one]; exact hx)
  rw [h2, Nat.div_one] at h1
  exact h1

theorem add_zero_units (x : Dbl) (hx : 2 ^ (Nat.log2 x.units - 52) ∣ x.units) :
    (Dbl.add x Dbl.zero).units = x.units := by
  unfold Dbl.add Dbl.zero
  simp only [Nat.add_zero]
  have h2 := rne_exact x.units 1 (by norm_num) (one_dvd _) (by rw [Nat.div_one]; exact hx)
  rw [h2, Nat.div_one]

theorem rne_pos (num den : Nat) (h : 0 < num / den) : 0 < rne num den := by
  have := rne_lower num den
  omega

theorem spr_num_grid (d : hw_event_diff_t) :
    2 ^ (Nat.log2 (spr_num d).units - 52) ∣ (spr_num d).units := by
  unfold spr_num Dbl.mul
  exact rne_grid _ _

theorem of_nat_pos (n : Nat) (h : 0 < n) : 0 < (Dbl.of_nat n).units := by
  unfold Dbl.of_nat
  apply rne_pos
  rw [Nat.div_one]
  exact Nat.mul_pos h scale_pos

theorem spr_num_pos (d : hw_event_diff_t) (h : 0 < add64 d.remote_dram_diff d.local_dram_diff) :
    0 < (spr_num d).units := by
  unfold spr_num Dbl.mul
  apply rne_pos
  have hn := of_nat_pos _ h
  have h7s : Dbl.scale ≤ SPR_L3_FACTOR.units := by decide
  apply Nat.div_pos _ scale_pos
  calc Dbl.scale ≤ SPR_L3_FACTOR.units := h7s
    _ = SPR_L3_FACTOR.units * 1 := (Nat.mul_one _).symm
    _ ≤ SPR_L3_FACTOR.units *
        (Dbl.of_nat (add64 d.remote_dram_diff d.local_dram_diff)).units :=
      Nat.mul_le_mul_left _ hn

theorem spr_ratio_le_one (d : hw_event_diff_t) (hden : spr_den d ≠ Dbl.zero) :
    (Dbl.div (spr_num d) (spr_den d)).units ≤ Dbl.scale := by
  have hpos : 0 < (spr_den d).units := by
    rcases Nat.eq_zero_or_pos (spr_den d).units with h0 | hp
    · exfalso; apply hden
      cases hd : spr_den d with
      | mk u => rw [hd] at h0; simp only at h0; subst h0; rfl
    · exact hp
  exact div_le_one _ _ hpos (add_ge_left _ _ (spr_num_grid d))

/-! ## The Sapphire Rapids estimators: claims -/

theorem spr_remote_den_exact_zero (d : hw_event_diff_t) (tls : tls_latency_t)
    (h : (d.remote_dram_diff : Int) * tls.tls_hw_remote_latency +
      (d.local_dram_diff : Int) * tls.tls_hw_local_latency = 0) :
    spr_remote_den d tls = Dbl.zero := by
  have hx : ∀ z : Int, ((to_u64 z : Nat) : Int) = z % 2 ^ 64 := by
    intro z
    unfold to_u64
    exact Int.toNat_of_nonneg (Int.emod_nonneg _ (by norm_num))
  have e1 : (d.remote_dram_diff : Int) * (tls.tls_hw_remote_latency % 2 ^ 64) ≡
      (d.remote_dram_diff : Int) * tls.tls_hw_remote_latency [ZMOD 2 ^ 64] :=
    Int.ModEq.mul_left _ (Int.mod_modEq _ _)
  have e2 : (d.local_dram_diff : Int) * (tls.tls_hw_local_latency % 2 ^ 64) ≡
      (d.local_dram_diff : Int) * tls.tls_hw_local_latency [ZMOD 2 ^ 64] :=
    Int.ModEq.mul_left _ (Int.mod_modEq _ _)
  have e := Int.ModEq.add e1 e2
  rw [h] at e
  have hn : ((d.remote_dram_diff * to_u64 tls.tls_hw_remote_latency +
      d.local_dram_diff * to_u64 tls.tls_hw_local_latency : Nat) : Int) % 2 ^ 64 = 0 := by
    push_cast
    rw [hx, hx]
    exact e
  have hz : add64 (spr_remote_num d tls)
      (mul64 d.local_dram_diff (to_u64 tls.tls_hw_local_latency)) = 0 := by
    unfold add64 spr_remote_num mul64
    rw [← Nat.add_mod]
    omega
  unfold spr_remote_den
  rw [hz]
  exact of_nat_zero

/-- C11: when `rem + loc = 0` (both deltas are 0) both Sapphire Rapids
estimators return 0, whatever `l2`, `hit` and the thread latencies are; they
return 0 when the first denominator `num + hit` is 0, and the remote-only
estimator returns 0 when the second denominator
`rem * hw_remote_latency + loc * hw_local_latency` is 0. -/
theorem spr_estimators_zero (d : hw_event_diff_t) (tls : tls_latency_t) :
    (d.remote_dram_diff + d.local_dram_diff = 0 →
      sapphirerapids_read_ldm_stall_cycles d = .ok 0 ∧
      sapphirerapids_read_remote_dram d tls = .ok 0) ∧
    (spr_den d = Dbl.zero →
      sapphirerapids_read_ldm_stall_cycles d = .ok 0 ∧
      sapphirerapids_read_remote_dram d tls = .ok 0) ∧
    (spr_remote_den d tls = Dbl.zero → sapphirerapids_read_remote_dram d tls = .ok 0) ∧
    ((d.remote_dram_diff : Int) * tls.tls_hw_remote_latency +
        (d.local_dram_diff : Int) * tls.tls_hw_local_latency = 0 →
      sapphirerapids_read_remote_dram d tls = .ok 0) := by
  have h3 : spr_remote_den d tls = Dbl.zero → sapphirerapids_read_remote_dram d tls = .ok 0 := by
    intro h
    unfold sapphirerapids_read_remote_dram
    split_ifs <;> rfl
  refine ⟨?_, ?_, h3, fun h => h3 (spr_remote_den_exact_zero d tls h)⟩
  · intro h
    have hz : d.remote_dram_diff = 0 ∧ d.local_dram_diff = 0 := by omega
    unfold sapphirerapids_read_ldm_stall_cycles sapphirerapids_read_remote_dram
    simp [hz]
  · intro h
    unfold sapphirerapids_read_ldm_stall_cycles sapphirerapids_read_remote_dram
    simp only [h, if_true]
    constructor <;> split_ifs <;> rfl

theorem spr_estimators_zero_witness :
    (sapphirerapids_read_ldm_stall_cycles ⟨1000, 10, 0, 0⟩ = .ok 0 ∧
      sapphirerapids_read_remote_dram ⟨1000, 10, 0, 0⟩ sample_tls = .ok 0) ∧
    sapphirerapids_read_remote_dram ⟨1000, 10, 3, 4⟩ ⟨0, 0⟩ = .ok 0 :=
  ⟨(spr_estimators_zero ⟨1000, 10, 0, 0⟩ sample_tls).1 (by decide),
   (spr_estimators_zero ⟨1000, 10, 3, 4⟩ ⟨0, 0⟩).2.2.2 (by decide)⟩

/-- C12 (counterexample): for `hit = 0`, `rem = 1`, `loc = 0` the total
estimate for `l2 = 1` is 1, but for `l2 = 2 ^ 64 - 1` the double product is
`2 ^ 64`, which does not fit in `uint64_t`: the estimate for the larger `l2` is
not defined, so it is not at least the estimate for the smaller one. -/
theorem spr_estimator_undefined_at_top :
    sapphirerapids_read_ldm_stall_cycles ⟨1, 0, 1, 0⟩ = .ok 1 ∧
    sapphirerapids_read_ldm_stall_cycles ⟨2 ^ 64 - 1, 0, 1, 0⟩ =
      .error Fault.float_to_uint_range ∧
    sapphirerapids_read_remote_dram ⟨2 ^ 64 - 1, 0, 1, 0⟩ sample_tls =
      .error Fault.float_to_uint_range :=
  ⟨by rfl, by rfl, by rfl⟩

/-- C12 (amended): for all `hit`, `rem`, `loc`, thread latencies and
`l2 <= l2'`, whenever the estimate for `l2'` is defined (its double fits in
`uint64_t`), the estimate for `l2` is defined and is at most the estimate for
`l2'`; this holds for the total and for the remote-only estimator. -/
theorem spr_estimators_mono (l2 l2' hit rem loc : Nat) (tls : tls_latency_t)
    (h : l2 ≤ l2') :
    (∀ v', sapphirerapids_read_ldm_stall_cycles ⟨l2', hit, rem, loc⟩ = .ok v' →
      ∃ v, sapphirerapids_read_ldm_stall_cycles ⟨l2, hit, rem, loc⟩ = .ok v ∧ v ≤ v') ∧
    (∀ v', sapphirerapids_read_remote_dram ⟨l2', hit, rem, loc⟩ tls = .ok v' →
      ∃ v, sapphirerapids_read_remote_dram ⟨l2, hit, rem, loc⟩ tls = .ok v ∧ v ≤ v') := by
  have hnum : spr_num ⟨l2, hit, rem, loc⟩ = spr_num ⟨l2', hit, rem, loc⟩ := rfl
  have hden : spr_den ⟨l2, hit, rem, loc⟩ = spr_den ⟨l2', hit, rem, loc⟩ := rfl
  have hrn : spr_remote_num ⟨l2, hit, rem, loc⟩ tls = spr_remote_num ⟨l2', hit, rem, loc⟩ tls :=
    rfl
  have hrd : spr_remote_den ⟨l2, hit, rem, loc⟩ tls = spr_remote_den ⟨l2', hit, rem, loc⟩ tls :=
    rfl
  have hst : (spr_stalls ⟨l2, hit, rem, loc⟩).units ≤ (spr_stalls ⟨l2', hit, rem, loc⟩).units := by
    unfold spr_stalls
    rw [hnum, hden]
    exact mul_mono_left _ _ _ (of_nat_mono _ _ h)
  constructor
  · intro v' hv'
    unfold sapphirerapids_read_ldm_stall_cycles at hv' ⊢
    simp only at hv' ⊢
    rw [hden]
    split_ifs at hv' ⊢
    · exact ⟨0, rfl, Nat.zero_le _⟩
    · exact ⟨0, rfl, Nat.zero_le _⟩
    · exact to_uint64_mono _ _ hst v' hv'
  · intro v' hv'
    unfold sapphirerapids_read_remote_dram at hv' ⊢
    simp only at hv' ⊢
    rw [hden, hrd, hrn]
    split_ifs at hv' ⊢
    · exact ⟨0, rfl, Nat.zero_le _⟩
    · exact ⟨0, rfl, Nat.zero_le _⟩
    · exact ⟨0, rfl, Nat.zero_le _⟩
    · exact to_uint64_mono _ _ (mul_mono_left _ _ _ hst) v' hv'

theorem spr_estimators_mono_witness :
    (∃ v, sapphirerapids_read_ldm_stall_cycles ⟨1000, 10, 3, 4⟩ = .ok v ∧ v ≤ 1661) ∧
    (∃ v, sapphirerapids_read_remote_dram ⟨1000, 10, 3, 4⟩ sample_tls = .ok v ∧ v ≤ 922) :=
  ⟨(spr_estimators_mono 1000 2000 10 3 4 sample_tls (by decide)).1 1661 (by rfl),
   (spr_estimators_mono 1000 2000 10 3 4 sample_tls (by decide)).2 922 (by rfl)⟩

theorem of_nat_grid (n : Nat) :
    2 ^ (Nat.log2 (Dbl.of_nat n).units - 52) ∣ (Dbl.of_nat n).units := by
  unfold Dbl.of_nat
  exact rne_grid _ _

theorem spr_stalls_le (d : hw_event_diff_t) (hden : spr_den d ≠ Dbl.zero) :
    (spr_stalls d).units ≤ (Dbl.of_nat d.l2_pending_diff).units := by
  unfold spr_stalls
  have h1 := mul_mono_right (Dbl.of_nat d.l2_pending_diff) (Dbl.div (spr_num d) (spr_den d))
    ⟨Dbl.scale⟩ (spr_ratio_le_one d hden)
  rw [mul_one_units _ (of_nat_grid _)] at h1
  exact h1

theorem spr_stalls_hit_zero (d : hw_event_diff_t) (hhit : d.llc_hit_diff = 0)
    (hpos : 0 < add64 d.remote_dram_diff d.local_dram_diff) :
    spr_den d = spr_num d ∧ spr_den d ≠ Dbl.zero ∧
    (spr_stalls d).units = (Dbl.of_nat d.l2_pending_diff).units := by
  have hnp := spr_num_pos d hpos
  have hden : spr_den d = spr_num d := by
    apply dbl_eq_of_units
    unfold spr_den
    rw [hhit, of_nat_zero]
    exact add_zero_units _ (spr_num_grid d)
  have hne : spr_den d ≠ Dbl.zero := by
    rw [hden]
    intro h0
    rw [h0] at hnp
    exact absurd hnp (by decide)
  refine ⟨hden, hne, ?_⟩
  unfold spr_stalls
  rw [hden]
  have hone : Dbl.div (spr_num d) (spr_num d) = ⟨Dbl.scale⟩ :=
    dbl_eq_of_units _ _ (div_self_units _ hnp)
  rw [hone]
  exact mul_one_units _ (of_nat_grid _)

theorem pmc_reads_spin_events (lm : latency_model_t) (d : Nat) :
    pmc_reads (spin_events lm d) = [] := by
  unfold spin_events pmc_reads
  split <;> simp

/-- C15: in `create_latency_epoch`, past the minimum-duration gate, the
counter handle passed to `read_pmc_event` is `latency_model.pmc_remote_dram`
when the thread's DRAM and NVRAM nodes differ and that handle is set, and
`latency_model.pmc_stall_cycles` in every other case; the call reads that one
counter, once, and no other. -/
theorem counter_selection (b : Build) (lm : latency_model_t) (env : EpochEnv) (w : World)
    (t : thread_t) (ht : w.thread_self = some t)
    (hr : env.reached_min_epoch_duration = true) :
    ∃ evs, (create_latency_epoch b lm env w).world.trace = w.trace ++ evs ∧
      (t.virtual_node.dram_node.addr ≠ t.virtual_node.nvram_node.addr ∧
          lm.pmc_remote_dram.isSome →
        pmc_reads evs = lm.pmc_remote_dram.toList) ∧
      (¬ (t.virtual_node.dram_node.addr ≠ t.virtual_node.nvram_node.addr ∧
          lm.pmc_remote_dram.isSome) →
        pmc_reads evs = lm.pmc_stall_cycles.toList) := by
  have hsel : select_pmc_event lm (stats_count_epoch b t) =
      if t.virtual_node.dram_node.addr ≠ t.virtual_node.nvram_node.addr ∧
        lm.pmc_remote_dram.isSome then lm.pmc_remote_dram else lm.pmc_stall_cycles := by
    unfold select_pmc_event
    rw [(stats_count_epoch_frame b t).2.1]
  have key : ∃ evs, (create_latency_epoch b lm env w).world.trace = w.trace ++ evs ∧
      pmc_reads evs = (select_pmc_event lm (stats_count_epoch b t)).toList := by
    rw [create_latency_epoch_full b lm env w t hr ht]
    rcases epoch_body_cases b lm env t (w.emit Event.block_new_epoch) with
      ⟨hs, _, htr⟩ | ⟨ev, hs, ⟨f, _, _, htr⟩ | ⟨c, hc, ⟨_, _, _, htr⟩ | ⟨_, htr⟩ | ⟨_, _, _, htr⟩⟩⟩
    · exact ⟨[Event.block_new_epoch], by rw [htr]; simp [World.emit], by rw [hs]; rfl⟩
    · exact ⟨[Event.block_new_epoch, Event.read_pmc_event ev],
        by rw [htr]; simp [World.emit], by rw [hs]; rfl⟩
    · exact ⟨[Event.block_new_epoch, Event.read_pmc_event ev],
        by rw [htr]; simp [World.emit], by rw [hs]; rfl⟩
    · refine ⟨Event.block_new_epoch :: Event.read_pmc_event ev :: spin_events lm c.delay_final,
        by rw [htr]; simp [World.emit], ?_⟩
      rw [hs]
      have h := pmc_reads_spin_events lm c.delay_final
      unfold pmc_reads at h ⊢
      simp [List.filterMap_cons, h]
    · refine ⟨Event.block_new_epoch :: Event.read_pmc_event ev ::
          (spin_events lm c.delay_final ++ [Event.write_signaled 0, Event.unblock_new_epoch]),
        by rw [htr]; simp [World.emit], ?_⟩
      rw [hs]
      have h := pmc_reads_spin_events lm c.delay_final
      unfold pmc_reads at h ⊢
      simp [List.filterMap_cons, List.filterMap_append, h]
  obtain ⟨evs, htr, hreads⟩ := key
  refine ⟨evs, htr, ?_, ?_⟩
  · intro hc
    rw [hreads, hsel, if_pos hc]
  · intro hc
    rw [hreads, hsel, if_neg hc]

theorem counter_selection_witness :
    ∃ evs, (create_latency_epoch sample_build sample_model_no_remote (sample_env true 600)
        (sample_world sample_thread_local 0)).world.trace =
          (sample_world sample_thread_local 0).trace ++ evs ∧
      pmc_reads evs = [{ name := "LDM_STALL_CYCLES" }] := by
  obtain ⟨evs, htr, _, h2⟩ := counter_selection sample_build sample_model_no_remote
    (sample_env true 600) (sample_world sample_thread_local 0) sample_thread_local rfl rfl
  exact ⟨evs, htr, h2 (by decide)⟩

theorem enable_loop_remote_fails (en : String → Option pmc_event_t) (names : List String)
    (hfail : en "REMOTE_DRAM" = none) :
    ∀ lm : latency_model_t, (∃ name ∈ names, strcasecmp_eq name "REMOTE_DRAM" = true) →
      (enable_loop en lm names).1 = some error_t.E_NOENT := by
  induction names with
  | nil => intro lm h; simp at h
  | cons name rest ih =>
    intro lm h
    unfold enable_loop
    by_cases h3 : strcasecmp_eq name "REMOTE_DRAM" = true
    · by_cases h1 : strcasecmp_eq name "LDM_STALL_CYCLES" = true <;>
      by_cases h2 : (en "LDM_STALL_CYCLES").isNone = true <;>
      simp [h1, h2, h3, hfail]
    · have hrest : ∃ n ∈ rest, strcasecmp_eq n "REMOTE_DRAM" = true := by
        obtain ⟨n, hn, hm⟩ := h
        rcases List.mem_cons.1 hn with rfl | hn2
        · exact absurd hm h3
        · exact ⟨n, hn2, hm⟩
      by_cases h1 : strcasecmp_eq name "LDM_STALL_CYCLES" = true <;>
      by_cases h2 : (en "LDM_STALL_CYCLES").isNone = true <;>
      simp [h1, h2, h3, ih _ hrest]

theorem enable_loop_no_remote (en : String → Option pmc_event_t) (names : List String)
    (ev : pmc_event_t) (hok : en "LDM_STALL_CYCLES" = some ev)
    (hno : ∀ name ∈ names, strcasecmp_eq name "REMOTE_DRAM" = false) :
    ∀ lm : latency_model_t,
      (enable_loop en lm names).1 = none ∧
      (enable_loop en lm names).2.pmc_remote_dram = lm.pmc_remote_dram ∧
      (enable_loop en lm names).2.inject_delay = lm.inject_delay ∧
      ((∃ name ∈ names, strcasecmp_eq name "LDM_STALL_CYCLES" = true) →
        (enable_loop en lm names).2.pmc_stall_cycles = some ev) ∧
      (lm.pmc_stall_cycles = some ev → (enable_loop en lm names).2.pmc_stall_cycles = some ev) := by
  induction names with
  | nil => intro lm; simp [enable_loop]
  | cons name rest ih =>
    intro lm
    have h3 : strcasecmp_eq name "REMOTE_DRAM" = false := hno name (List.mem_cons_self _ _)
    have hrest : ∀ n ∈ rest, strcasecmp_eq n "REMOTE_DRAM" = false :=
      fun n hn => hno n (List.mem_cons_of_mem _ hn)
    unfold enable_loop
    by_cases h1 : strcasecmp_eq name "LDM_STALL_CYCLES" = true
    · obtain ⟨i1, i2, i3, _, i5⟩ := ih hrest { lm with pmc_stall_cycles := some ev }
      simp only [h1, h3, hok, if_true, Option.isNone_some, Bool.false_eq_true, if_false]
      exact ⟨i1, i2, i3, fun _ => i5 rfl, fun _ => i5 rfl⟩
    · obtain ⟨i1, i2, i3, i4, i5⟩ := ih hrest lm
      simp only [h1, h3, if_false, Bool.false_eq_true]
      refine ⟨i1, i2, i3, ?_, i5⟩
      rintro ⟨n, hn, hm⟩
      rcases List.mem_cons.1 hn with rfl | hn2
      · exact absurd hm h1
      · exact i4 ⟨n, hn2, hm⟩

theorem enable_loop_stall_fails (en : String → Option pmc_event_t) (names : List String)
    (hfail : en "LDM_STALL_CYCLES" = none) :
    ∀ lm : latency_model_t, (∃ name ∈ names, strcasecmp_eq name "LDM_STALL_CYCLES" = true) →
      (enable_loop en lm names).1 = some error_t.E_NOENT := by
  induction names with
  | nil => intro lm h; simp at h
  | cons name rest ih =>
    intro lm h
    unfold enable_loop
    by_cases h1 : strcasecmp_eq name "LDM_STALL_CYCLES" = true
    · simp [h1, hfail]
    · have hrest : ∃ n ∈ rest, strcasecmp_eq n "LDM_STALL_CYCLES" = true := by
        obtain ⟨n, hn, hm⟩ := h
        rcases List.mem_cons.1 hn with rfl | hn2
        · exact absurd hm h1
        · exact ⟨n, hn2, hm⟩
      by_cases h3 : strcasecmp_eq name "REMOTE_DRAM" = true <;>
      by_cases h4 : (en "REMOTE_DRAM").isNone = true <;>
      simp [h1, h3, h4, ih _ hrest]

/-- C16 (counterexample): with `LDM_STALL_CYCLES` and `REMOTE_DRAM` among the
known events, a valid configuration, and an `enable_pmc_event` that programs
`LDM_STALL_CYCLES` but not `REMOTE_DRAM`, `init_latency_model` returns
`E_NOENT`, not success. -/
theorem init_latency_model_remote_fatal :
    sample_enable_stall_only "LDM_STALL_CYCLES" = some { name := "LDM_STALL_CYCLES" } ∧
    sample_enable_stall_only "REMOTE_DRAM" = none ∧
    (init_latency_model sample_build sample_enable_stall_only sample_config
      { known_events := ["LDM_STALL_CYCLES", "REMOTE_DRAM"] }
      { virtual_nodes := [sample_node] }).status = .ok error_t.E_NOENT ∧
    (init_latency_model sample_build sample_enable_stall_only sample_config
      { known_events := ["LDM_STALL_CYCLES", "REMOTE_DRAM"] }
      { virtual_nodes := [sample_node] }).latency_model.pmc_stall_cycles =
        some { name := "LDM_STALL_CYCLES" } :=
  ⟨by decide, by decide, by rfl, by decide⟩

/-- C16 (amended): in `init_latency_model` (direct backend), once the latency
check has passed, failing to program a counter that is among the CPU's known
events is fatal for `REMOTE_DRAM` as well as for `LDM_STALL_CYCLES`
(`E_NOENT`); the remote-DRAM path is left disabled (`pmc_remote_dram` absent)
with a successful return exactly in the case where `REMOTE_DRAM` is not among
the known events while `LDM_STALL_CYCLES` is and can be programmed. -/
theorem init_latency_model_counters (b : Build) (en : String → Option pmc_event_t)
    (cfg : config_t) (cpu : cpu_model_t) (virtual_topology : virtual_topology_t)
    (hvalid : (init_latency_model b en cfg cpu virtual_topology).status ≠ .ok error_t.E_INVAL) :
    ((∃ name ∈ cpu.known_events, strcasecmp_eq name "REMOTE_DRAM" = true) →
      en "REMOTE_DRAM" = none →
      (init_latency_model b en cfg cpu virtual_topology).status = .ok error_t.E_NOENT) ∧
    ((∃ name ∈ cpu.known_events, strcasecmp_eq name "LDM_STALL_CYCLES" = true) →
      en "LDM_STALL_CYCLES" = none →
      (init_latency_model b en cfg cpu virtual_topology).status = .ok error_t.E_NOENT) ∧
    (∀ ev, (∀ name ∈ cpu.known_events, strcasecmp_eq name "REMOTE_DRAM" = false) →
      (∃ name ∈ cpu.known_events, strcasecmp_eq name "LDM_STALL_CYCLES" = true) →
      en "LDM_STALL_CYCLES" = some ev →
      (init_latency_model b en cfg cpu virtual_topology).status = .ok error_t.E_SUCCESS ∧
      (init_latency_model b en cfg cpu virtual_topology).latency_model.pmc_remote_dram = none ∧
      (init_latency_model b en cfg cpu virtual_topology).latency_model.pmc_stall_cycles =
        some ev) := by
  unfold init_latency_model at hvalid ⊢
  simp only at hvalid ⊢
  split at hvalid
  · exact absurd rfl hvalid
  · next hchk =>
    rw [if_neg hchk]
    refine ⟨?_, ?_, ?_⟩
    · intro hlisted hfail
      unfold init_counters
      have h := enable_loop_remote_fails en cpu.known_events hfail
        { enabled := 1,
          read_latency := cconfig_lookup_int cfg "latency.read" latency_model_zero.read_latency,
          write_latency :=
            cconfig_lookup_int cfg "latency.write" latency_model_zero.write_latency,
          inject_delay :=
            cconfig_lookup_bool cfg "latency.inject_delay" latency_model_zero.inject_delay,
          pmc_stall_cycles := latency_model_zero.pmc_stall_cycles,
          pmc_remote_dram := latency_model_zero.pmc_remote_dram,
          calibration := latency_model_zero.calibration,
          stalls_calibration_factor := latency_model_zero.stalls_calibration_factor } hlisted
      revert h
      generalize enable_loop en _ cpu.known_events = res
      obtain ⟨st, lm4⟩ := res
      intro h
      simp only at h
      subst h
      rfl
    · intro hlisted hfail
      unfold init_counters
      have h := enable_loop_stall_fails en cpu.known_events hfail
        { enabled := 1,
          read_latency := cconfig_lookup_int cfg "latency.read" latency_model_zero.read_latency,
          write_latency :=
            cconfig_lookup_int cfg "latency.write" latency_model_zero.write_latency,
          inject_delay :=
            cconfig_lookup_bool cfg "latency.inject_delay" latency_model_zero.inject_delay,
          pmc_stall_cycles := latency_model_zero.pmc_stall_cycles,
          pmc_remote_dram := latency_model_zero.pmc_remote_dram,
          calibration := latency_model_zero.calibration,
          stalls_calibration_factor := latency_model_zero.stalls_calibration_factor } hlisted
      revert h
      generalize enable_loop en _ cpu.known_events = res
      obtain ⟨st, lm4⟩ := res
      intro h
      simp only at h
      subst h
      rfl
    · intro ev hno hlisted hok
      unfold init_counters
      obtain ⟨h1, h2, _, h4, _⟩ := enable_loop_no_remote en cpu.known_events ev hok hno
        { enabled := 1,
          read_latency := cconfig_lookup_int cfg "latency.read" latency_model_zero.read_latency,
          write_latency :=
            cconfig_lookup_int cfg "latency.write" latency_model_zero.write_latency,
          inject_delay :=
            cconfig_lookup_bool cfg "latency.inject_delay" latency_model_zero.inject_delay,
          pmc_stall_cycles := latency_model_zero.pmc_stall_cycles,
          pmc_remote_dram := latency_model_zero.pmc_remote_dram,
          calibration := latency_model_zero.calibration,
          stalls_calibration_factor := latency_model_zero.stalls_calibration_factor }
      have h4 := h4 hlisted
      revert h1 h2 h4
      generalize enable_loop en _ cpu.known_events = res
      obtain ⟨st, lm4⟩ := res
      intro h1 h2 h4
      simp only at h1 h2 h4
      subst h1
      simp only [h4, Option.isNone_some, Bool.false_eq_true, if_false]
      refine ⟨trivial, ?_, ?_⟩
      · split_ifs <;> simp [h2, latency_model_zero]
      · split_ifs <;> simp [h4]

theorem init_latency_model_counters_witness :
    (init_latency_model sample_build sample_enable_stall_only sample_config
      { known_events := ["REMOTE_DRAM", "LDM_STALL_CYCLES"] }
      { virtual_nodes := [sample_node] }).status = .ok error_t.E_NOENT ∧
    (init_latency_model sample_build (fun _ => none) sample_config
      { known_events := ["LDM_STALL_CYCLES"] }
      { virtual_nodes := [sample_node] }).status = .ok error_t.E_NOENT ∧
    ((init_latency_model sample_build sample_enable_stall_only sample_config
      { known_events := ["LDM_STALL_CYCLES"] }
      { virtual_nodes := [sample_node] }).status = .ok error_t.E_SUCCESS ∧
    (init_latency_model sample_build sample_enable_stall_only sample_config
      { known_events := ["LDM_STALL_CYCLES"] }
      { virtual_nodes := [sample_node] }).latency_model.pmc_remote_dram = none ∧
    (init_latency_model sample_build sample_enable_stall_only sample_config
      { known_events := ["LDM_STALL_CYCLES"] }
      { virtual_nodes := [sample_node] }).latency_model.pmc_stall_cycles =
        some { name := "LDM_STALL_CYCLES" }) :=
  ⟨(init_latency_model_counters sample_build sample_enable_stall_only sample_config
      { known_events := ["REMOTE_DRAM", "LDM_STALL_CYCLES"] }
      { virtual_nodes := [sample_node] } (by rw [show (init_latency_model sample_build
        sample_enable_stall_only sample_config
        { known_events := ["REMOTE_DRAM", "LDM_STALL_CYCLES"] }
        { virtual_nodes := [sample_node] }).status = .ok error_t.E_NOENT from by rfl]; simp)).1
      ⟨"REMOTE_DRAM", by simp, by decide⟩ (by decide),
   (init_latency_model_counters sample_build (fun _ => none) sample_config
      { known_events := ["LDM_STALL_CYCLES"] }
      { virtual_nodes := [sample_node] } (by rw [show (init_latency_model sample_build
        (fun _ => none) sample_config
        { known_events := ["LDM_STALL_CYCLES"] }
        { virtual_nodes := [sample_node] }).status = .ok error_t.E_NOENT from by rfl]; simp)).2.1
      ⟨"LDM_STALL_CYCLES", by simp, by decide⟩ rfl,
   (init_latency_model_counters sample_build sample_enable_stall_only sample_config
      { known_events := ["LDM_STALL_CYCLES"] }
      { virtual_nodes := [sample_node] } (by rw [show (init_latency_model sample_build
        sample_enable_stall_only sample_config
        { known_events := ["LDM_STALL_CYCLES"] }
        { virtual_nodes := [sample_node] }).status = .ok error_t.E_SUCCESS from by rfl]; simp)).2.2
      { name := "LDM_STALL_CYCLES" } (by decide) ⟨"LDM_STALL_CYCLES", by simp, by decide⟩
      (by decide)⟩

/-! ## `create_delay_cycles` -/

theorem delay_loop_spec (samples : Nat → Nat) (start cycles : Nat) :
    ∀ fuel i k, delay_loop samples start cycles fuel i = some k →
      i ≤ k ∧ k < i + fuel ∧ cycles ≤ sub64 (trunc64 (samples k)) start ∧
      ∀ j, i ≤ j → j < k → sub64 (trunc64 (samples j)) start < cycles := by
  intro fuel
  induction fuel with
  | zero => intro i k h; simp [delay_loop] at h
  | succ n ih =>
    intro i k h
    unfold delay_loop at h
    split at h
    · next hlt =>
      obtain ⟨h1, h2, h3, h4⟩ := ih (i + 1) k h
      refine ⟨by omega, by omega, h3, ?_⟩
      intro j hj1 hj2
      rcases Nat.eq_or_lt_of_le hj1 with rfl | hgt
      · exact hlt
      · exact h4 j hgt hj2
    · next hge =>
      simp only [Option.some.injEq] at h
      subst h
      exact ⟨le_refl _, by omega, by omega, fun j hj1 hj2 => by omega⟩

theorem delay_loop_returns (samples : Nat → Nat) (start cycles : Nat) :
    ∀ fuel i k, i ≤ k → k < i + fuel → cycles ≤ sub64 (trunc64 (samples k)) start →
      ∃ k2, delay_loop samples start cycles fuel i = some k2 := by
  intro fuel
  induction fuel with
  | zero => intro i k h1 h2; omega
  | succ n ih =>
    intro i k h1 h2 h3
    unfold delay_loop
    split
    · next hlt =>
      have hne : i ≠ k := by
        intro he; subst he; omega
      exact ih (i + 1) k (by omega) (by omega) h3
    · exact ⟨i, rfl⟩

/-- C20: for every `n_cycles` and every sequence of cycle-counter samples, if
`create_delay_cycles(n_cycles)` returns after reading samples `0 .. k`, then
the last sample minus the first (in `uint64_t`, and as plain integers when the
samples did not wrap) is at least `n_cycles`, and no earlier sample had
reached it; it does return as soon as some sample has; with `n_cycles = 0` it
returns after exactly one loop iteration, having read two samples. -/
theorem create_delay_cycles_spec (samples : Nat → Nat) (cycles : Nat) :
    (∀ fuel k, create_delay_cycles samples cycles fuel = some k →
      1 ≤ k ∧ cycles ≤ sub64 (trunc64 (samples k)) (trunc64 (samples 0)) ∧
      (samples 0 ≤ samples k → samples k < 2 ^ 64 → cycles ≤ samples k - samples 0) ∧
      ∀ j, 1 ≤ j → j < k → sub64 (trunc64 (samples j)) (trunc64 (samples 0)) < cycles) ∧
    (∀ fuel k, 1 ≤ k → k ≤ fuel →
      cycles ≤ sub64 (trunc64 (samples k)) (trunc64 (samples 0)) →
      ∃ k2, create_delay_cycles samples cycles fuel = some k2) ∧
    (∀ fuel, create_delay_cycles samples 0 (fuel + 1) = some 1) := by
  refine ⟨?_, ?_, ?_⟩
  · intro fuel k h
    obtain ⟨h1, _, h3, h4⟩ := delay_loop_spec samples _ cycles fuel 1 k h
    refine ⟨h1, h3, ?_, h4⟩
    intro hle hlt
    have e : sub64 (trunc64 (samples k)) (trunc64 (samples 0)) = samples k - samples 0 := by
      unfold sub64 trunc64
      omega
    omega
  · intro fuel k h1 h2 h3
    exact delay_loop_returns samples _ cycles fuel 1 k h1 (by omega) h3
  · intro fuel
    unfold create_delay_cycles delay_loop
    simp

theorem create_delay_cycles_spec_witness :
    create_delay_cycles (fun i => 1000 + 40 * i) 100 10 = some 3 ∧
    (100 : Nat) ≤ (1000 + 40 * 3) - (1000 + 40 * 0) ∧
    create_delay_cycles (fun i => 1000 + 40 * i) 0 10 = some 1 :=
  ⟨by decide,
   ((create_delay_cycles_spec (fun i => 1000 + 40 * i) 100).1 10 3 (by decide)).2.2.1
     (by decide) (by decide),
   (create_delay_cycles_spec (fun i => 1000 + 40 * i) 0).2.2 9⟩

/-! ## CPU identification -/

theorem extract_eq (val msb lsb w : Nat) (hm : MASK msb lsb = (2 ^ w - 1) <<< lsb) :
    EXTRACT val msb lsb = val / 2 ^ lsb % 2 ^ w := by
  unfold EXTRACT
  rw [hm, ← Nat.shiftRight_eq_div_pow]
  apply Nat.eq_of_testBit_eq
  intro i
  simp only [Nat.testBit_shiftRight, Nat.testBit_and, Nat.testBit_shiftLeft,
    Nat.testBit_two_pow_sub_one, Nat.testBit_mod_two_pow]
  have : lsb + i ≥ lsb := Nat.le_add_right _ _
  simp [this]

theorem shl_or (a b : Nat) (h : b < 2 ^ 4) : (a <<< 4) ||| b = a * 16 + b := by
  rw [Nat.shiftLeft_eq, Nat.mul_comm a, ← Nat.mul_add_lt_is_or h]

/-- C17: for every CPUID leaf-1 `eax`, `get_family_model` stores
`family = EAX[11:8] + EAX[27:20]` and
`model = (EAX[19:16] << 4) | EAX[7:4]` (which is `16 * EAX[19:16] + EAX[7:4]`);
`eax = 0x000306F2` gives family 6 and model 63; when the CPUID query fails both
are 0. -/
theorem get_family_model_decodes (eax : Nat) :
    get_family_model (some eax) true true =
      (some ((eax / 2 ^ 8 % 2 ^ 4 + eax / 2 ^ 20 % 2 ^ 8 : Nat) : Int),
       some (((eax / 2 ^ 16 % 2 ^ 4) <<< 4 ||| eax / 2 ^ 4 % 2 ^ 4 : Nat) : Int)) ∧
    ((eax / 2 ^ 16 % 2 ^ 4) <<< 4 ||| eax / 2 ^ 4 % 2 ^ 4) =
      16 * (eax / 2 ^ 16 % 2 ^ 4) + eax / 2 ^ 4 % 2 ^ 4 ∧
    get_family_model (some 0x000306F2) true true = (some 6, some 63) ∧
    get_family_model none true true = (some 0, some 0) := by
  have hf : FAMILY eax = eax / 2 ^ 8 % 2 ^ 4 := extract_eq eax 11 8 4 (by decide)
  have hef : Extended_Family eax = eax / 2 ^ 20 % 2 ^ 8 := extract_eq eax 27 20 8 (by decide)
  have hm : MODEL eax = eax / 2 ^ 4 % 2 ^ 4 := extract_eq eax 7 4 4 (by decide)
  have hem : EXTENDED_MODEL eax = eax / 2 ^ 16 % 2 ^ 4 := extract_eq eax 19 16 4 (by decide)
  have hmlt : eax / 2 ^ 4 % 2 ^ 4 < 2 ^ 4 := Nat.mod_lt _ (by norm_num)
  have hemlt : eax / 2 ^ 16 % 2 ^ 4 < 2 ^ 4 := Nat.mod_lt _ (by norm_num)
  have hflt : eax / 2 ^ 8 % 2 ^ 4 < 2 ^ 4 := Nat.mod_lt _ (by norm_num)
  have heflt : eax / 2 ^ 20 % 2 ^ 8 < 2 ^ 8 := Nat.mod_lt _ (by norm_num)
  have hfam : Family_Number eax = eax / 2 ^ 8 % 2 ^ 4 + eax / 2 ^ 20 % 2 ^ 8 := by
    unfold Family_Number
    rw [hf, hef]
    exact Nat.mod_eq_of_lt (by omega)
  have hmod : MODEL_NUMBER eax = (eax / 2 ^ 16 % 2 ^ 4) <<< 4 ||| eax / 2 ^ 4 % 2 ^ 4 := by
    unfold MODEL_NUMBER shl32
    rw [hm, hem]
    have : (eax / 2 ^ 16 % 2 ^ 4) <<< 4 % 2 ^ 32 = (eax / 2 ^ 16 % 2 ^ 4) <<< 4 := by
      rw [Nat.shiftLeft_eq]
      exact Nat.mod_eq_of_lt (by omega)
    rw [this]
  refine ⟨?_, ?_, by decide, by decide⟩
  · unfold get_family_model
    simp only [hfam, hmod, if_true]
  · rw [shl_or _ _ hmlt]
    omega

/-! ## `cpuinfo` and `cpu_model` -/

theorem cpuinfo_loop_found (valname pre rest : List Char) (c : Char)
    (after : List (List Char)) (hkey : valname <:+: pre ++ ':' :: c :: rest)
    (hpre : ':' ∉ pre) :
    ∀ before : List (List Char), (∀ l ∈ before, ¬ valname <:+: l) →
      cpuinfo_loop valname (before ++ (pre ++ ':' :: c :: rest) :: after) = .ok (some rest) := by
  intro before
  induction before with
  | nil =>
    intro _
    have hidx : List.indexOf ':' (pre ++ ':' :: c :: rest) = pre.length := by
      rw [List.indexOf_append_of_not_mem hpre, List.indexOf_cons_self, Nat.add_zero]
    simp only [List.nil_append, cpuinfo_loop, hkey, if_true, hidx]
    have h1 : pre.length < (pre ++ ':' :: c :: rest).length := by simp
    have h2 : pre.length + 2 ≤ (pre ++ ':' :: c :: rest).length := by simp
    rw [if_pos h1, if_pos h2]
    have hd : List.drop (pre.length + 2) (pre ++ ':' :: c :: rest) = rest := by
      rw [List.drop_append]
      rfl
    rw [hd]
  | cons l ls ih =>
    intro hb
    have hl : ¬ valname <:+: l := hb l (List.mem_cons_self _ _)
    simp only [List.cons_append, cpuinfo_loop, hl, if_false]
    exact ih (fun x hx => hb x (List.mem_cons_of_mem _ hx))

theorem cpuinfo_loop_none (valname : List Char) :
    ∀ lines : List (List Char), (∀ l ∈ lines, ¬ valname <:+: l) →
      cpuinfo_loop valname lines = .ok none := by
  intro lines
  induction lines with
  | nil => intro _; rfl
  | cons l ls ih =>
    intro hb
    have hl : ¬ valname <:+: l := hb l (List.mem_cons_self _ _)
    simp only [cpuinfo_loop, hl, if_false]
    exact ih (fun x hx => hb x (List.mem_cons_of_mem _ hx))

/-- C18 (counterexample): for the text `"cache size\t: 8192 KB\n"` and the key
`"cache size"`, `cpuinfo` returns `"8192 KB\n"`, with the newline of the line,
not the trimmed `"8192 KB"`. -/
theorem cpuinfo_not_trimmed :
    cpuinfo (some "cache size\t: 8192 KB\n") "cache size" = .ok (some "8192 KB\n") ∧
    ("8192 KB\n" : String) ≠ "8192 KB" :=
  ⟨by rfl, by decide⟩

/-- C18 (amended): when the first line of the text that contains the key as a
substring is `pre ++ ":" ++ [c] ++ rest` with no colon in `pre`, `cpuinfo(key)`
returns `rest`, the text of that line from two characters after its first
colon to its end, unchanged: trailing whitespace and the newline of the line
are kept (the line `"cache size\t: 8192 KB\n"` yields `"8192 KB\n"`); it
returns null when no line contains the key, and when the file cannot be
opened. -/
theorem cpuinfo_spec (text valname : String) :
    (∀ (before after : List (List Char)) (pre rest : List Char) (c : Char),
      getlines text.toList = before ++ (pre ++ ':' :: c :: rest) :: after →
      (∀ l ∈ before, ¬ valname.toList <:+: l) →
      valname.toList <:+: pre ++ ':' :: c :: rest → ':' ∉ pre →
      cpuinfo (some text) valname = .ok (some (String.mk rest))) ∧
    ((∀ l ∈ getlines text.toList, ¬ valname.toList <:+: l) →
      cpuinfo (some text) valname = .ok none) ∧
    cpuinfo none valname = .ok none := by
  refine ⟨?_, ?_, rfl⟩
  · intro before after pre rest c hlines hbefore hkey hpre
    unfold cpuinfo
    simp only
    rw [hlines, cpuinfo_loop_found _ pre rest c after hkey hpre before hbefore]
  · intro hnone
    unfold cpuinfo
    simp only
    rw [cpuinfo_loop_none _ _ hnone]

theorem cpuinfo_spec_witness :
    cpuinfo (some sample_cpuinfo) "cache size" = .ok (some "8192 KB\n") ∧
    cpuinfo (some sample_cpuinfo) "cpu MHz" = .ok none :=
  ⟨(cpuinfo_spec sample_cpuinfo "cache size").1
      ["processor\t: 0\n".toList,
       "model name\t: Genuine Intel(R) Xeon(R) CPU E5-2680 v3\n".toList] []
      "cache size\t".toList "8192 KB\n".toList ' ' (by decide) (by decide) (by decide)
      (by decide),
   (cpuinfo_spec sample_cpuinfo "cpu MHz").2.1 (by decide)⟩

theorem cpu_model_loop_some (family model : Int) (isXeon : Bool) (ds : cpu_descriptors_t) :
    ∀ (known : List microarch_ID_t) (r : Option cpu_descriptor_id × cpu_descriptors_t),
      cpu_model_loop family model isXeon ds known = some r →
      ∃ c ∈ known, c.family = family ∧ c.model = model ∧ r = cpu_model_switch c isXeon ds := by
  intro known
  induction known with
  | nil => intro r h; simp [cpu_model_loop] at h
  | cons c rest ih =>
    intro r h
    unfold cpu_model_loop at h
    split at h
    · cases h
    · split at h
      · next hm =>
        simp only [Option.some.injEq] at h
        exact ⟨c, List.mem_cons_self _ _, hm.1, hm.2, h.symm⟩
      · obtain ⟨c2, hc2, h1, h2, h3⟩ := ih r h
        exact ⟨c2, List.mem_cons_of_mem _ hc2, h1, h2, h3⟩

theorem cpu_model_loop_no_match (family model : Int) (isXeon : Bool) (ds : cpu_descriptors_t) :
    ∀ known : List microarch_ID_t, (∀ c ∈ known, ¬ (c.family = family ∧ c.model = model)) →
      cpu_model_loop family model isXeon ds known = none := by
  intro known
  induction known with
  | nil => intro _; rfl
  | cons c rest ih =>
    intro h
    unfold cpu_model_loop
    have hc := h c (List.mem_cons_self _ _)
    rw [if_neg hc]
    split
    · rfl
    · exact ih (fun x hx => h x (List.mem_cons_of_mem _ hx))

/-- C19: `cpu_model` returns a descriptor only if the brand string
(`model name` of the CPU information text) contains `Intel` and some entry of
the known-CPU table has the detected family and model; when there is no brand
string or it does not contain `Intel`, and when no table entry has the
detected family and model, it returns null and leaves every descriptor as it
was. -/
theorem cpu_model_spec (string_to_size : Option String → Nat)
    (known_cpus : List microarch_ID_t) (proc_cpuinfo : Option String) (cpuid1 : Option Nat)
    (ds : cpu_descriptors_t) :
    (∀ id ds2, cpu_model string_to_size known_cpus proc_cpuinfo cpuid1 ds = .ok (some id, ds2) →
      (∃ brand, cpu_model_name proc_cpuinfo = .ok (some brand) ∧
        "Intel".toList <:+: brand.toList) ∧
      ∃ c ∈ known_cpus, c.family = (get_family_model cpuid1 true true).1.getD 0 ∧
        c.model = (get_family_model cpuid1 true true).2.getD 0) ∧
    (cpu_model_name proc_cpuinfo = .ok none →
      cpu_model string_to_size known_cpus proc_cpuinfo cpuid1 ds = .ok (none, ds)) ∧
    (∀ brand, cpu_model_name proc_cpuinfo = .ok (some brand) →
      ¬ "Intel".toList <:+: brand.toList →
      cpu_model string_to_size known_cpus proc_cpuinfo cpuid1 ds = .ok (none, ds)) ∧
    (∀ name, cpu_model_name proc_cpuinfo = .ok name →
      (∀ c ∈ known_cpus, ¬ (c.family = (get_family_model cpuid1 true true).1.getD 0 ∧
        c.model = (get_family_model cpuid1 true true).2.getD 0)) →
      cpu_model string_to_size known_cpus proc_cpuinfo cpuid1 ds = .ok (none, ds)) := by
  refine ⟨?_, ?_, ?_, ?_⟩
  · intro id ds2 h
    unfold cpu_model is_Intel is_Xeon at h
    cases hn : cpu_model_name proc_cpuinfo with
    | error f => rw [hn] at h; simp at h
    | ok name =>
      rw [hn] at h
      cases name with
      | none => simp at h
      | some brand =>
        simp only at h
        by_cases hi : regex_match brand "Intel" = error_t.E_SUCCESS
        · have hinfix : "Intel".toList <:+: brand.toList := by
            unfold regex_match at hi
            by_contra hcon
            rw [if_neg hcon] at hi
            cases hi
          refine ⟨⟨brand, rfl, hinfix⟩, ?_⟩
          simp only [hi, decide_True] at h
          cases hl : cpu_model_loop ((get_family_model cpuid1 true true).1.getD 0)
              ((get_family_model cpuid1 true true).2.getD 0)
              (decide (regex_match brand "Xeon" = error_t.E_SUCCESS)) ds known_cpus with
          | none => rw [hl] at h; simp at h
          | some r =>
            obtain ⟨c, hc, h1, h2, _⟩ := cpu_model_loop_some _ _ _ _ _ r hl
            exact ⟨c, hc, h1, h2⟩
        · simp [hi] at h
  · intro hn
    unfold cpu_model is_Intel
    rw [hn]
  · intro brand hn hni
    unfold cpu_model is_Intel
    rw [hn]
    have : regex_match brand "Intel" ≠ error_t.E_SUCCESS := by
      unfold regex_match
      rw [if_neg hni]
      decide
    simp [this]
  · intro name hn hno
    unfold cpu_model is_Intel is_Xeon
    rw [hn]
    cases name with
    | none => rfl
    | some brand =>
      simp only
      by_cases hi : regex_match brand "Intel" = error_t.E_SUCCESS
      · simp only [hi, decide_True]
        rw [cpu_model_loop_no_match _ _ _ _ _ hno]
      · simp [hi]

theorem cpu_model_spec_witness :
    ((∃ brand, cpu_model_name (some sample_cpuinfo) = .ok (some brand) ∧
        "Intel".toList <:+: brand.toList) ∧
      ∃ c ∈ sample_known_cpus, c.family = 6 ∧ c.model = 63) ∧
    cpu_model sample_string_to_size sample_known_cpus (some sample_cpuinfo) (some 0x000406F2)
      sample_descriptors = .ok (none, sample_descriptors) :=
  ⟨(cpu_model_spec sample_string_to_size sample_known_cpus (some sample_cpuinfo)
      (some 0x000306F2) sample_descriptors).1 cpu_descriptor_id.cpu_model_intel_xeon_ex_v3
      { sample_descriptors with
        cpu_model_intel_xeon_ex_v3 := { microarch := .HaswellXeon, llc_size_bytes := 8388608 } }
      (by rfl),
   (cpu_model_spec sample_string_to_size sample_known_cpus (some sample_cpuinfo)
      (some 0x000406F2) sample_descriptors).2.2.2
      (some "Genuine Intel(R) Xeon(R) CPU E5-2680 v3\n") (by rfl) (by decide)⟩

/-! ## The two backends of the Sapphire Rapids estimators -/

theorem to_u64_lt (x : Int) : to_u64 x < 2 ^ 64 := by
  unfold to_u64
  have h := Int.emod_lt_of_pos x (by norm_num : (0 : Int) < 2 ^ 64)
  have h0 := Int.emod_nonneg x (by norm_num : (2 ^ 64 : Int) ≠ 0)
  omega

theorem one_mul_of_grid (x : Dbl) (hx : 2 ^ (Nat.log2 x.units - 52) ∣ x.units) :
    Dbl.mul (Dbl.of_nat 1) x = x := by
  apply dbl_eq_of_units
  have h := mul_one_units x hx
  unfold Dbl.mul at h ⊢
  simp only at h ⊢
  rw [of_nat_units 1 (by norm_num), Nat.one_mul, Nat.mul_comm]
  exact h

theorem spec_num_one (d : hw_event_diff_t) :
    Dbl.mul (Dbl.of_nat 1) (Dbl.of_nat (add64 d.remote_dram_diff d.local_dram_diff)) =
      papi_num d :=
  one_mul_of_grid _ (of_nat_grid _)

theorem spec_stalls_one (d : hw_event_diff_t) : spec_stalls (Dbl.of_nat 1) d = papi_stalls d := by
  unfold spec_stalls papi_stalls papi_den
  simp only [spec_num_one]

theorem papi_num_zero (d : hw_event_diff_t)
    (h : d.remote_dram_diff = 0 ∧ d.local_dram_diff = 0) : papi_num d = Dbl.zero := by
  unfold papi_num add64
  rw [h.1, h.2]
  exact of_nat_zero

theorem papi_stalls_zero (d : hw_event_diff_t) (h : papi_num d = Dbl.zero) :
    papi_stalls d = Dbl.zero := by
  unfold papi_stalls
  rw [h, div_zero_left, mul_zero_right]

theorem papi_local_eq_spec (values : Nat → Int) :
    sapphirerapids_read_stall_events_local (some values) =
      spec_stalls_total (Dbl.of_nat 1) (papi_values values) := by
  unfold sapphirerapids_read_stall_events_local spec_stalls_total
  simp only [spec_num_one, spec_stalls_one]
  generalize papi_values values = d
  by_cases hz : d.remote_dram_diff = 0 ∧ d.local_dram_diff = 0
  · rw [if_pos hz]
    change (if papi_den d = Dbl.zero then _ else _) = _
    split_ifs
    · rfl
    · rw [papi_stalls_zero d (papi_num_zero d hz)]; rfl
  · rw [if_neg hz]
    rfl

theorem papi_remote_lat_one (d : hw_event_diff_t) (hr : d.remote_dram_diff < 2 ^ 64) :
    mul64 d.remote_dram_diff (to_u64 1) = d.remote_dram_diff ∧
    Dbl.of_nat (add64 (mul64 d.remote_dram_diff (to_u64 1))
      (mul64 d.local_dram_diff (to_u64 1))) = papi_num d := by
  have h1 : to_u64 1 = 1 := by decide
  constructor
  · unfold mul64
    rw [h1, Nat.mul_one, Nat.mod_eq_of_lt hr]
  · unfold papi_num add64 mul64
    rw [h1, Nat.mul_one, Nat.mul_one, ← Nat.add_mod]

theorem papi_remote_eq_spec (values : Nat → Int) :
    sapphirerapids_read_stall_events_remote (some values) =
      spec_stalls_remote (Dbl.of_nat 1) (papi_values values) ⟨1, 1⟩ := by
  have hr : (papi_values values).remote_dram_diff < 2 ^ 64 := to_u64_lt _
  unfold sapphirerapids_read_stall_events_remote spec_stalls_remote
  simp only [spec_num_one, spec_stalls_one]
  revert hr
  generalize papi_values values = d
  intro hr
  obtain ⟨e1, e2⟩ := papi_remote_lat_one d hr
  rw [e2, e1]
  by_cases hz : d.remote_dram_diff = 0 ∧ d.local_dram_diff = 0
  · rw [if_pos hz]
    change (if papi_den d = Dbl.zero then _ else _) = _
    rw [if_pos (papi_num_zero d hz)]
    split_ifs <;> rfl
  · rw [if_neg hz]
    rfl

theorem direct_total_eq_spec (d : hw_event_diff_t) :
    sapphirerapids_read_ldm_stall_cycles d = spec_stalls_total SPR_L3_FACTOR d := rfl

theorem direct_remote_eq_spec (d : hw_event_diff_t) (tls : tls_latency_t) :
    sapphirerapids_read_remote_dram d tls = spec_stalls_remote SPR_L3_FACTOR d tls := rfl

theorem papi_hit_zero (d : hw_event_diff_t) (hhit : d.llc_hit_diff = 0) :
    (papi_den d = Dbl.zero ↔ spr_den d = Dbl.zero) ∧
    (papi_den d ≠ Dbl.zero → papi_stalls d = spr_stalls d) ∧
    (d.remote_dram_diff = 0 ∧ d.local_dram_diff = 0 → papi_den d = Dbl.zero) ∧
    (papi_den d = papi_num d) := by
  have hden : papi_den d = papi_num d := by
    apply dbl_eq_of_units
    unfold papi_den
    rw [hhit, of_nat_zero]
    exact add_zero_units _ (of_nat_grid _)
  rcases Nat.eq_zero_or_pos (add64 d.remote_dram_diff d.local_dram_diff) with h0 | hpos
  · have hp : papi_den d = Dbl.zero := by
      rw [hden]; unfold papi_num; rw [h0]; exact of_nat_zero
    have hs : spr_den d = Dbl.zero := by
      unfold spr_den spr_num
      rw [h0, hhit]
      decide
    exact ⟨⟨fun _ => hs, fun _ => hp⟩, fun h => absurd hp h, fun _ => hp, hden⟩
  · obtain ⟨_, hne, hu⟩ := spr_stalls_hit_zero d hhit hpos
    have hnp : 0 < (papi_num d).units := of_nat_pos _ hpos
    have hpne : papi_den d ≠ Dbl.zero := by
      rw [hden]
      intro h0
      rw [h0] at hnp
      exact absurd hnp (by decide)
    refine ⟨⟨fun h => absurd h hpne, fun h => absurd h hne⟩, fun _ => ?_, ?_, hden⟩
    · apply dbl_eq_of_units
      rw [hu]
      unfold papi_stalls
      rw [hden]
      have hone : Dbl.div (papi_num d) (papi_num d) = ⟨Dbl.scale⟩ :=
        dbl_eq_of_units _ _ (div_self_units _ hnp)
      rw [hone]
      exact mul_one_units _ (of_nat_grid _)
    · intro hz
      exfalso
      unfold add64 at hpos
      rw [hz.1, hz.2] at hpos
      exact absurd hpos (by decide)

theorem papi_local_hit_zero (values : Nat → Int) (hhit : (papi_values values).llc_hit_diff = 0) :
    sapphirerapids_read_stall_events_local (some values) =
      sapphirerapids_read_ldm_stall_cycles (papi_values values) := by
  unfold sapphirerapids_read_stall_events_local sapphirerapids_read_ldm_stall_cycles
  simp only
  revert hhit
  generalize papi_values values = d
  intro hhit
  obtain ⟨hiff, hst, hz, _⟩ := papi_hit_zero d hhit
  by_cases hp : papi_den d = Dbl.zero
  · rw [if_pos hp, if_pos (hiff.1 hp)]
    split_ifs <;> rfl
  · have hnz : ¬ (d.remote_dram_diff = 0 ∧ d.local_dram_diff = 0) := fun h => hp (hz h)
    rw [if_neg hp, if_neg hnz, if_neg (fun h => hp (hiff.2 h)), hst hp]

theorem papi_remote_hit_zero (values : Nat → Int) (hhit : (papi_values values).llc_hit_diff = 0) :
    sapphirerapids_read_stall_events_remote (some values) =
      sapphirerapids_read_remote_dram (papi_values values) ⟨1, 1⟩ := by
  have hr : (papi_values values).remote_dram_diff < 2 ^ 64 := to_u64_lt _
  unfold sapphirerapids_read_stall_events_remote sapphirerapids_read_remote_dram
    spr_remote_den spr_remote_num
  simp only
  revert hhit hr
  generalize papi_values values = d
  intro hhit hr
  obtain ⟨e1, e2⟩ := papi_remote_lat_one d hr
  rw [e2, e1]
  obtain ⟨hiff, hst, hz, _⟩ := papi_hit_zero d hhit
  by_cases hp : papi_den d = Dbl.zero
  · rw [if_pos hp, if_pos (hiff.1 hp)]
    split_ifs <;> rfl
  · have hnz : ¬ (d.remote_dram_diff = 0 ∧ d.local_dram_diff = 0) := fun h => hp (hz h)
    rw [if_neg hp, if_neg hnz, if_neg (fun h => hp (hiff.2 h)), hst hp]

/-- C21 (counterexample): for the counter values `(l2, hit, rem, loc) =
(1000, 10, 3, 4)` and the thread latencies 60 (local) and 100 (remote) the
direct backend returns 830 and 461, the values of the formulas with
`L3_FACTOR = 7`, while the library backend returns 411 and 176. -/
theorem papi_estimators_differ :
    papi_values sample_values = ⟨1000, 10, 3, 4⟩ ∧
    sapphirerapids_read_ldm_stall_cycles (papi_values sample_values) = .ok 830 ∧
    sapphirerapids_read_stall_events_local (some sample_values) = .ok 411 ∧
    sapphirerapids_read_remote_dram (papi_values sample_values) sample_tls = .ok 461 ∧
    sapphirerapids_read_stall_events_remote (some sample_values) = .ok 176 :=
  ⟨by decide, by rfl, by rfl, by rfl, by rfl⟩

/-- C21 (amended): for every counter readout `(l2, hit, rem, loc)` the
library-based estimators `sapphirerapids_read_stall_events_local` and
`_remote` return the values of the formulas `stalls_total` and `stalls_remote`
with `L3_FACTOR = 1` and both latencies 1 (the remote fraction is
`rem / (rem + loc)`), and 0 when the counters cannot be read; the direct
backend's estimators return the values of the same formulas with
`L3_FACTOR = 7` and the thread latencies. When `hit = 0` the two total
estimators return the same value, and the two remote estimators do when in
addition both thread latencies are 1. -/
theorem papi_estimators_spec (values : Nat → Int) (tls : tls_latency_t) :
    sapphirerapids_read_stall_events_local none = .ok 0 ∧
    sapphirerapids_read_stall_events_remote none = .ok 0 ∧
    sapphirerapids_read_stall_events_local (some values) =
      spec_stalls_total (Dbl.of_nat 1) (papi_values values) ∧
    sapphirerapids_read_stall_events_remote (some values) =
      spec_stalls_remote (Dbl.of_nat 1) (papi_values values) ⟨1, 1⟩ ∧
    sapphirerapids_read_ldm_stall_cycles (papi_values values) =
      spec_stalls_total SPR_L3_FACTOR (papi_values values) ∧
    sapphirerapids_read_remote_dram (papi_values values) tls =
      spec_stalls_remote SPR_L3_FACTOR (papi_values values) tls ∧
    ((papi_values values).llc_hit_diff = 0 →
      sapphirerapids_read_stall_events_local (some values) =
        sapphirerapids_read_ldm_stall_cycles (papi_values values) ∧
      sapphirerapids_read_stall_events_remote (some values) =
        sapphirerapids_read_remote_dram (papi_values values) ⟨1, 1⟩) :=
  ⟨rfl, rfl, papi_local_eq_spec values, papi_remote_eq_spec values,
    direct_total_eq_spec _, direct_remote_eq_spec _ tls,
    fun h => ⟨papi_local_hit_zero values h, papi_remote_hit_zero values h⟩⟩

theorem papi_estimators_spec_witness :
    sapphirerapids_read_stall_events_local (some sample_values_no_hit) =
      sapphirerapids_read_ldm_stall_cycles (papi_values sample_values_no_hit) ∧
    sapphirerapids_read_stall_events_remote (some sample_values_no_hit) =
      sapphirerapids_read_remote_dram (papi_values sample_values_no_hit) ⟨1, 1⟩ :=
  (papi_estimators_spec sample_values_no_hit sample_tls).2.2.2.2.2.2 (by decide)

/-! ## The overhead-accounting step -/

/-- C22: in `create_latency_epoch`, once the delay `D` has been derived from the
stall cycles, with `O = overhead_before + (stop - start)` not wrapping in 64
bits, the overhead-accounting step yields `delay' = D - O` and `overhead' = 0`
when `D > O`, and `delay' = 0` and `overhead' = O - D` otherwise; so at least
one of `delay'` and `overhead'` is 0 and `delay' + O = D + overhead'`. When the
call returns, `tls_overhead` is `overhead'` and the delay handed to the cap and
the spin is `delay'`. -/
theorem overhead_accounting_step (b : Build) (lm : latency_model_t) (env : EpochEnv)
    (w : World) (t : thread_t) (ev : pmc_event_t) (c : EpochCalc)
    (ht : w.thread_self = some t)
    (hr : env.reached_min_epoch_duration = true)
    (hs : select_pmc_event lm (stats_count_epoch b t) = some ev)
    (hc : epoch_calc b lm env (stats_count_epoch b t) w.tls_overhead
      (trunc64 (env.read_pmc_event ev)) = .ok c)
    (hnowrap : w.tls_overhead + sub64 env.hrtime_stop env.hrtime_start ≤ UINT64_MAX) :
    derive_delay c.stall_cycles
      (latency_ratio t.virtual_node.nvram_node.latency lm.read_latency) = .ok c.delay_derived ∧
    c.overhead_total = w.tls_overhead + sub64 env.hrtime_stop env.hrtime_start ∧
    (c.overhead_total < c.delay_derived →
      c.delay_discounted = c.delay_derived - c.overhead_total ∧ c.overhead_after = 0) ∧
    (¬ c.overhead_total < c.delay_derived →
      c.delay_discounted = 0 ∧ c.overhead_after = c.overhead_total - c.delay_derived) ∧
    (c.delay_discounted = 0 ∨ c.overhead_after = 0) ∧
    c.delay_discounted + c.overhead_total = c.delay_derived + c.overhead_after ∧
    ((create_latency_epoch b lm env w).fault = none →
      (create_latency_epoch b lm env w).world.tls_overhead = c.overhead_after ∧
      (create_latency_epoch b lm env w).world.trace =
        w.trace ++ Event.block_new_epoch :: Event.read_pmc_event ev ::
          spin_events lm (cap_delay c.delay_discounted (max_allowed_delay_cycles t)) ++
            [Event.write_signaled 0, Event.unblock_new_epoch]) := by
  obtain ⟨_, hder, htot, hdis, haft, hmax, hfin⟩ := epoch_calc_spec b lm env _ _ _ c hc
  rw [(stats_count_epoch_frame b t).2.1] at hder
  have hO : c.overhead_total = w.tls_overhead + sub64 env.hrtime_stop env.hrtime_start := by
    rw [htot]
    unfold add64
    unfold UINT64_MAX at hnowrap
    exact Nat.mod_eq_of_lt (by omega)
  have hstep : (c.overhead_total < c.delay_derived →
        c.delay_discounted = c.delay_derived - c.overhead_total ∧ c.overhead_after = 0) ∧
      (¬ c.overhead_total < c.delay_derived →
        c.delay_discounted = 0 ∧ c.overhead_after = c.overhead_total - c.delay_derived) := by
    rw [hdis, haft]
    unfold discount_overhead
    constructor
    · intro h; rw [if_pos h]; exact ⟨rfl, rfl⟩
    · intro h; rw [if_neg h]; exact ⟨rfl, rfl⟩
  refine ⟨hder, hO, hstep.1, hstep.2, ?_, ?_, ?_⟩
  · by_cases h : c.overhead_total < c.delay_derived
    · exact Or.inr (hstep.1 h).2
    · exact Or.inl (hstep.2 h).1
  · by_cases h : c.overhead_total < c.delay_derived
    · obtain ⟨h1, h2⟩ := hstep.1 h
      omega
    · obtain ⟨h1, h2⟩ := hstep.2 h
      omega
  · intro hret
    rw [create_latency_epoch_full b lm env w t hr ht] at hret ⊢
    rcases epoch_body_cases b lm env t (w.emit Event.block_new_epoch) with
      ⟨hs2, _⟩ | ⟨ev2, hs2, ⟨f, _, hf, _⟩ | ⟨c2, hc2, ⟨hf, _⟩ | ⟨hf, _⟩ | ⟨_, htls, _, htr⟩⟩⟩
    · rw [hs] at hs2; cases hs2
    · rw [hf] at hret; cases hret
    · rw [hf] at hret; cases hret
    · rw [hf] at hret; cases hret
    · rw [hs] at hs2
      cases hs2
      have hc3 : epoch_calc b lm env (stats_count_epoch b t) w.tls_overhead
          (trunc64 (env.read_pmc_event ev)) = .ok c2 := hc2
      rw [hc] at hc3
      cases hc3
      refine ⟨htls, ?_⟩
      rw [htr, hfin, hmax, max_allowed_stats_count_epoch]
      simp [World.emit]

theorem overhead_accounting_step_witness :
    ((create_latency_epoch sample_build (sample_model 300) (sample_env true 600)
        (sample_world sample_thread 0)).world.tls_overhead = 0 ∧
      (create_latency_epoch sample_build (sample_model 300) (sample_env true 600)
        (sample_world sample_thread 0)).world.trace =
        [Event.block_new_epoch, Event.read_pmc_event { name := "REMOTE_DRAM" },
          Event.create_delay_cycles (1200 - 100), Event.write_signaled 0,
          Event.unblock_new_epoch]) ∧
    ((create_latency_epoch sample_build (sample_model 300) (sample_env true 600)
        (sample_world sample_thread 5000)).world.tls_overhead = 5100 - 1200 ∧
      (create_latency_epoch sample_build (sample_model 300) (sample_env true 600)
        (sample_world sample_thread 5000)).world.trace =
        [Event.block_new_epoch, Event.read_pmc_event { name := "REMOTE_DRAM" },
          Event.write_signaled 0, Event.unblock_new_epoch]) :=
  ⟨(overhead_accounting_step sample_build (sample_model 300) (sample_env true 600)
      (sample_world sample_thread 0) sample_thread { name := "REMOTE_DRAM" }
      { stall_cycles := 600, delay_derived := 1200, overhead_total := 100,
        delay_discounted := 1100, overhead_after := 0, max_allowed := 1000000,
        delay_final := 1100 } rfl rfl (by decide) (by rfl) (by decide)).2.2.2.2.2.2 (by decide),
   (overhead_accounting_step sample_build (sample_model 300) (sample_env true 600)
      (sample_world sample_thread 5000) sample_thread { name := "REMOTE_DRAM" }
      { stall_cycles := 600, delay_derived := 1200, overhead_total := 5100,
        delay_discounted := 0, overhead_after := 3900, max_allowed := 1000000,
        delay_final := 0 } rfl rfl (by decide) (by rfl) (by decide)).2.2.2.2.2.2 (by decide)⟩

/-! ## Remote-only estimate against the total estimate -/

theorem to_u64_le (z : Int) (h : 0 ≤ z) : to_u64 z ≤ z.toNat := by
  unfold to_u64
  omega

theorem mul64_to_u64_le (a : Nat) (z : Int) (h : 0 ≤ z) : mul64 a (to_u64 z) ≤ a * z.toNat := by
  unfold mul64
  exact le_trans (Nat.mod_le _ _) (Nat.mul_le_mul_left _ (to_u64_le z h))

theorem spr_no_wrap_of_nonneg (d : hw_event_diff_t) (tls : tls_latency_t)
    (hr : 0 ≤ tls.tls_hw_remote_latency) (hl : 0 ≤ tls.tls_hw_local_latency)
    (hsum : (d.remote_dram_diff : Int) * tls.tls_hw_remote_latency +
      (d.local_dram_diff : Int) * tls.tls_hw_local_latency < 2 ^ 64) :
    spr_remote_num d tls + mul64 d.local_dram_diff (to_u64 tls.tls_hw_local_latency) <
      2 ^ 64 := by
  have h1 := mul64_to_u64_le d.remote_dram_diff _ hr
  have h2 := mul64_to_u64_le d.local_dram_diff _ hl
  obtain ⟨r, hr2⟩ := Int.eq_ofNat_of_zero_le hr
  obtain ⟨l, hl2⟩ := Int.eq_ofNat_of_zero_le hl
  rw [hr2, hl2] at hsum
  rw [hr2] at h1
  rw [hl2] at h2
  rw [Int.toNat_natCast] at h1 h2
  have hs : d.remote_dram_diff * r + d.local_dram_diff * l < 2 ^ 64 := by exact_mod_cast hsum
  unfold spr_remote_num
  rw [hr2, hl2]
  omega

theorem spr_stalls_grid (d : hw_event_diff_t) :
    2 ^ (Nat.log2 (spr_stalls d).units - 52) ∣ (spr_stalls d).units := by
  unfold spr_stalls Dbl.mul
  exact rne_grid _ _

theorem spr_remote_dbl_le (d : hw_event_diff_t) (tls : tls_latency_t)
    (hnowrap : spr_remote_num d tls +
      mul64 d.local_dram_diff (to_u64 tls.tls_hw_local_latency) < 2 ^ 64)
    (hne : spr_remote_den d tls ≠ Dbl.zero) :
    (Dbl.mul (spr_stalls d)
      (Dbl.div (Dbl.of_nat (spr_remote_num d tls)) (spr_remote_den d tls))).units ≤
      (spr_stalls d).units := by
  have hpos : 0 < (spr_remote_den d tls).units := by
    rcases Nat.eq_zero_or_pos (spr_remote_den d tls).units with h0 | hp
    · exact absurd (dbl_eq_of_units _ Dbl.zero h0) hne
    · exact hp
  have hle : (Dbl.of_nat (spr_remote_num d tls)).units ≤ (spr_remote_den d tls).units := by
    unfold spr_remote_den
    apply of_nat_mono
    unfold add64
    rw [Nat.mod_eq_of_lt hnowrap]
    exact Nat.le_add_right _ _
  have hq := div_le_one _ _ hpos hle
  have h1 := mul_mono_right (spr_stalls d)
    (Dbl.div (Dbl.of_nat (spr_remote_num d tls)) (spr_remote_den d tls)) ⟨Dbl.scale⟩ hq
  rw [mul_one_units _ (spr_stalls_grid d)] at h1
  exact h1

theorem spr_remote_le_total_of_no_wrap (d : hw_event_diff_t) (tls : tls_latency_t)
    (hnowrap : spr_remote_num d tls +
      mul64 d.local_dram_diff (to_u64 tls.tls_hw_local_latency) < 2 ^ 64)
    (v : Nat) (hv : sapphirerapids_read_ldm_stall_cycles d = .ok v) :
    ∃ r, sapphirerapids_read_remote_dram d tls = .ok r ∧ r ≤ v := by
  unfold sapphirerapids_read_ldm_stall_cycles at hv
  unfold sapphirerapids_read_remote_dram
  by_cases hz : d.remote_dram_diff = 0 ∧ d.local_dram_diff = 0
  · rw [if_pos hz]
    exact ⟨0, rfl, Nat.zero_le _⟩
  · rw [if_neg hz] at hv ⊢
    by_cases hd : spr_den d = Dbl.zero
    · rw [if_pos hd]
      exact ⟨0, rfl, Nat.zero_le _⟩
    · rw [if_neg hd] at hv ⊢
      by_cases hr : spr_remote_den d tls = Dbl.zero
      · rw [if_pos hr]
        exact ⟨0, rfl, Nat.zero_le _⟩
      · rw [if_neg hr]
        exact to_uint64_mono _ _ (spr_remote_dbl_le d tls hnowrap hr) v hv

theorem spr_total_le_l2 (d : hw_event_diff_t) (hl2 : d.l2_pending_diff < 2 ^ 53) :
    ∃ v, sapphirerapids_read_ldm_stall_cycles d = .ok v ∧ v ≤ d.l2_pending_diff := by
  unfold sapphirerapids_read_ldm_stall_cycles
  by_cases hz : d.remote_dram_diff = 0 ∧ d.local_dram_diff = 0
  · rw [if_pos hz]
    exact ⟨0, rfl, Nat.zero_le _⟩
  · rw [if_neg hz]
    by_cases hd : spr_den d = Dbl.zero
    · rw [if_pos hd]
      exact ⟨0, rfl, Nat.zero_le _⟩
    · rw [if_neg hd]
      have hle : (spr_stalls d).trunc ≤ d.l2_pending_diff := by
        have h := Nat.div_le_div_right (c := Dbl.scale) (spr_stalls_le d hd)
        rw [of_nat_units _ hl2, Nat.mul_div_cancel _ scale_pos] at h
        exact h
      refine ⟨(spr_stalls d).trunc, ?_, hle⟩
      unfold Dbl.to_uint64
      have : (spr_stalls d).trunc < 2 ^ 64 := by omega
      rw [if_pos this]

/-- C23 (counterexample): with both latencies 1 (non-negative), for
`(l2, hit, rem, loc) = (1, 0, 2 ^ 63, 2 ^ 63 + 1)` the sum
`rem * 1 + loc * 1` wraps to 1 in `uint64_t`, the total estimate is 1 and the
remote-only estimate is `2 ^ 63`; and for `(2 ^ 53 + 3, 0, 1, 1)` the total
estimate is `2 ^ 53 + 4`, which exceeds `l2`. -/
theorem spr_remote_exceeds_total :
    sapphirerapids_read_ldm_stall_cycles ⟨1, 0, 2 ^ 63, 2 ^ 63 + 1⟩ = .ok 1 ∧
    sapphirerapids_read_remote_dram ⟨1, 0, 2 ^ 63, 2 ^ 63 + 1⟩ ⟨1, 1⟩ = .ok (2 ^ 63) ∧
    ¬ (2 ^ 63 ≤ 1) ∧
    sapphirerapids_read_remote_dram ⟨2 ^ 53 + 3, 0, 1, 1⟩ ⟨1, 1⟩ = .ok (2 ^ 52 + 2) ∧
    sapphirerapids_read_ldm_stall_cycles ⟨2 ^ 53 + 3, 0, 1, 1⟩ = .ok (2 ^ 53 + 4) ∧
    ¬ (2 ^ 53 + 4 ≤ 2 ^ 53 + 3) :=
  ⟨by rfl, by rfl, by decide, by rfl, by rfl, by decide⟩

/-- C23 (amended): for all counter deltas `(l2, hit, rem, loc)` and all
non-negative thread latencies for which
`rem * hw_remote_latency + loc * hw_local_latency` is below `2 ^ 64` (it does
not wrap in `uint64_t`), whenever the total estimate is defined the
remote-only estimate is defined and does not exceed it; and for
`l2 < 2 ^ 53` both are defined and
`remote_dram(l2, hit, rem, loc) <= ldm_stall_cycles(l2, hit, rem, loc) <= l2`. -/
theorem spr_remote_le_total (d : hw_event_diff_t) (tls : tls_latency_t)
    (hr : 0 ≤ tls.tls_hw_remote_latency) (hl : 0 ≤ tls.tls_hw_local_latency)
    (hsum : (d.remote_dram_diff : Int) * tls.tls_hw_remote_latency +
      (d.local_dram_diff : Int) * tls.tls_hw_local_latency < 2 ^ 64) :
    (∀ v, sapphirerapids_read_ldm_stall_cycles d = .ok v →
      ∃ r, sapphirerapids_read_remote_dram d tls = .ok r ∧ r ≤ v) ∧
    (d.l2_pending_diff < 2 ^ 53 →
      ∃ r v, sapphirerapids_read_remote_dram d tls = .ok r ∧
        sapphirerapids_read_ldm_stall_cycles d = .ok v ∧ r ≤ v ∧ v ≤ d.l2_pending_diff) := by
  have hnowrap := spr_no_wrap_of_nonneg d tls hr hl hsum
  refine ⟨fun v hv => spr_remote_le_total_of_no_wrap d tls hnowrap v hv, fun hl2 => ?_⟩
  obtain ⟨v, hv, hvl⟩ := spr_total_le_l2 d hl2
  obtain ⟨r, hrv, hrle⟩ := spr_remote_le_total_of_no_wrap d tls hnowrap v hv
  exact ⟨r, v, hrv, hv, hrle, hvl⟩

theorem spr_remote_le_total_witness :
    ∃ r v, sapphirerapids_read_remote_dram ⟨1000, 10, 3, 4⟩ sample_tls = .ok r ∧
      sapphirerapids_read_ldm_stall_cycles ⟨1000, 10, 3, 4⟩ = .ok v ∧ r ≤ v ∧ v ≤ 1000 :=
  (spr_remote_le_total ⟨1000, 10, 3, 4⟩ sample_tls (by decide) (by decide) (by decide)).2
    (by decide)

end Quartz
